import Mathlib

/-!
# WTrackMenu: the selection-scoped track context menu

A shallow embedding of `src/widget/wtrackmenu.cpp`.  The menu object is a
record of its member variables; every member function becomes a function on
that record.  Collaborators that live outside the file (the track model, the
track collection, the playlist DAO, dialogs) are passed in as records of the
answers they give, and calls into them are recorded in a call log.

Assertions are modelled as in a build in which they do not end the program:
`DEBUG_ASSERT(c)` changes nothing, and `VERIFY_OR_DEBUG_ASSERT(c) { block }`
runs `block` when `c` is false.  Undefined behaviour (a null track model or a
menu or action that was never created and is dereferenced, a list access out
of range) is a `Fault`.
-/

namespace Mixxx

/-! ## Feature flags -/

/-- Modelled from the spec: the enumeration `WTrackMenu::Feature` is declared in
`widget/wtrackmenu.h`, which is not among the sources.  The data model of the
spec lists these twelve flags. -/
inductive Feature where
  | AutoDJ
  | LoadTo
  | Playlist
  | Crate
  | Remove
  | Metadata
  | Reset
  | BPM
  | Color
  | HideUnhidePurge
  | FileBrowser
  | Properties
  deriving DecidableEq, Repr

/-- The twelve flags, in the order of their declaration. -/
def Feature.all : List Feature :=
  [.AutoDJ, .LoadTo, .Playlist, .Crate, .Remove, .Metadata, .Reset, .BPM, .Color,
    .HideUnhidePurge, .FileBrowser, .Properties]

/-- The flag word `QFlags<Feature>`: an integer used as a bit set. -/
abbrev Features := Nat

/-- Modelled from the spec: the integer value of each enumerator (declared in the
missing header): every flag is one bit of its own. -/
def Feature.toInt : Feature → Nat
  | .AutoDJ => 1
  | .LoadTo => 2
  | .Playlist => 4
  | .Crate => 8
  | .Remove => 16
  | .Metadata => 32
  | .Reset => 64
  | .BPM => 128
  | .Color => 256
  | .HideUnhidePurge => 512
  | .FileBrowser => 1024
  | .Properties => 2048

/-- Modelled from the spec: the enumerator `Feature::TrackModelFeatures`, the
source-dependent subset: the flags that need a track model, `Remove` and
`HideUnhidePurge`. -/
def Feature.TrackModelFeatures : Features :=
  Feature.Remove.toInt ||| Feature.HideUnhidePurge.toInt

/-- The method `QFlags::testFlag` of Qt 5:
`(i & flag) == flag && (flag != 0 || i == flag)`. -/
def testFlag (i : Features) (flag : Nat) : Bool :=
  (i &&& flag) == flag && (flag != 0 || i == flag)

/-! ## The track model (selection source) -/

/-- The capability bits of `TrackModel` that the menu asks for. -/
inductive Capability where
  | TRACKMODELCAPS_ADDTOAUTODJ
  | TRACKMODELCAPS_LOADTODECK
  | TRACKMODELCAPS_LOADTOSAMPLER
  | TRACKMODELCAPS_LOADTOPREVIEWDECK
  | TRACKMODELCAPS_ADDTOPLAYLIST
  | TRACKMODELCAPS_ADDTOCRATE
  | TRACKMODELCAPS_REMOVE
  | TRACKMODELCAPS_REMOVE_PLAYLIST
  | TRACKMODELCAPS_REMOVE_CRATE
  | TRACKMODELCAPS_EDITMETADATA
  | TRACKMODELCAPS_RESETPLAYED
  | TRACKMODELCAPS_HIDE
  | TRACKMODELCAPS_UNHIDE
  | TRACKMODELCAPS_PURGE
  | TRACKMODELCAPS_LOCKED
  deriving DecidableEq, Repr

/-- Modelled from the spec: the id type `DbId` behind `TrackId` and `CrateId` is
declared in a header that is not among the sources.  An id is an integer, and
the invalid id that a failed creation returns is negative (-1). -/
abbrev DbId := Int

/-- The method `DbId::isValid`. -/
def DbId.isValid (id : DbId) : Bool := decide (0 ≤ id)

abbrev TrackId := DbId
abbrev CrateId := DbId

/-- A `TrackPointer` that is not null: the address of a track object. -/
abbrev TrackPointer := Nat

/-- A `QModelIndex`: an opaque row of the track model. -/
abbrev QModelIndex := Nat

/-- The answers of the `TrackModel` the menu is bound to.  `trackmodel.h` is not
among the sources, so the model is a parameter: `getTrack` returns `none` for
a null `TrackPointer`. -/
structure TrackModel where
  hasCapabilities : Capability → Bool
  getTrack : QModelIndex → Option TrackPointer
  getTrackId : QModelIndex → TrackId

/-! ## Widgets -/

/-- A `QAction`: its text and whether it is enabled (a new action is). -/
structure QAction where
  text : String := ""
  enabled : Bool := true
  deriving DecidableEq, Repr

/-- The three values of `Qt::CheckState`. -/
inductive CheckState where
  | Unchecked
  | PartiallyChecked
  | Checked
  deriving DecidableEq, Repr

/-- A `QCheckBox` of the crate menu.  `crateId` is the dynamic property of that
name; `checked`, `tristate` and `noChange` are the three bits from which Qt
derives the check state. -/
structure QCheckBox where
  text : String := ""
  crateId : CrateId := -1
  enabled : Bool := true
  checked : Bool := false
  tristate : Bool := false
  noChange : Bool := false
  deriving DecidableEq, Repr

/-- The method `QCheckBox::checkState`. -/
def QCheckBox.checkState (c : QCheckBox) : CheckState :=
  if c.tristate && c.noChange then .PartiallyChecked
  else if c.checked then .Checked
  else .Unchecked

/-- The method `QAbstractButton::isChecked`. -/
def QCheckBox.isChecked (c : QCheckBox) : Bool := c.checked

/-- The method `QAbstractButton::setChecked`. -/
def QCheckBox.setChecked (c : QCheckBox) (b : Bool) : QCheckBox :=
  { c with checked := b, noChange := false }

/-- The method `QCheckBox::setTristate`. -/
def QCheckBox.setTristate (c : QCheckBox) (b : Bool) : QCheckBox :=
  { c with tristate := b }

/-- The method `QCheckBox::setCheckState`. -/
def QCheckBox.setCheckState (c : QCheckBox) (state : CheckState) : QCheckBox :=
  { c with
    tristate := if state = .PartiallyChecked then true else c.tristate
    noChange := decide (state = .PartiallyChecked)
    checked := decide (state ≠ .Unchecked) }

/-- An entry of a `QMenu`: a plain action, a `QWidgetAction` that carries a check
box (with the enabled flag of the action), or a separator. -/
inductive MenuItem where
  | action (a : QAction)
  | widgetAction (enabled : Bool) (checkBox : QCheckBox)
  | separator
  deriving DecidableEq, Repr

/-- The `WColorPickerAction`: its palette and the selected colour (`none` after
`resetSelectedColor`, `some c` after `setSelectedColor(c)`, where `c` itself
may be the empty optional colour). -/
structure WColorPickerAction where
  colorPalette : Nat := 0
  selectedColor : Option (Option Nat) := none
  deriving DecidableEq, Repr

/-- The menus and actions owned by the menu object that `updateMenus` and the
populate slots write to.  The pointers to them are members of the menu object
and start out null; `createMenus` and `createActions` make the menus and
actions of a feature only when the feature is enabled at that moment.
`created` lists the features whose menus and actions exist: a field below
stands for an existing widget only when its feature is in that list, otherwise
the pointer is null. -/
structure Widgets where
  created : List Feature := []
  m_pDeckMenu : List MenuItem := []
  m_pSamplerMenu : List MenuItem := []
  m_pPlaylistMenu : List MenuItem := []
  m_pCrateMenu : List MenuItem := []
  m_pRemoveAct : QAction := { text := "Remove" }
  m_pRemovePlaylistAct : QAction := { text := "Remove from Playlist" }
  m_pRemoveCrateAct : QAction := { text := "Remove from Crate" }
  m_pImportMetadataFromMusicBrainzAct : QAction := { text := "Import From MusicBrainz" }
  m_pCoverMenu : Option Nat := none
  m_pClearBeatsAction : QAction := { text := "BPM and Beatgrid" }
  m_pBpmLockAction : QAction := { text := "Lock BPM" }
  m_pBpmUnlockAction : QAction := { text := "Unlock BPM" }
  m_pBpmDoubleAction : QAction := { text := "Double BPM" }
  m_pBpmHalveAction : QAction := { text := "Halve BPM" }
  m_pBpmTwoThirdsAction : QAction := { text := "2/3 BPM" }
  m_pBpmThreeFourthsAction : QAction := { text := "3/4 BPM" }
  m_pBpmFourThirdsAction : QAction := { text := "4/3 BPM" }
  m_pBpmThreeHalvesAction : QAction := { text := "3/2 BPM" }
  m_pColorPickerAction : WColorPickerAction := {}
  m_pHideAct : QAction := { text := "Hide from Library" }
  m_pUnhideAct : QAction := { text := "Unhide from Library" }
  m_pPurgeAct : QAction := { text := "Purge from Library" }
  m_pPropertiesAct : QAction := { text := "Properties" }
  deriving DecidableEq, Repr

/-- Whether the menus and actions of a feature exist. -/
def Widgets.has (w : Widgets) (flag : Feature) : Bool :=
  decide (flag ∈ w.created)

/-! ## The menu object -/

/-- Modelled from the spec: the enumeration `mixxx::CueType` is declared in a
header that is not among the sources.  The spec knows the five kinds of cue
for which it has a clear command: main cue, hot cue, intro, outro and loop. -/
inductive CueType where
  | MainCue
  | HotCue
  | Intro
  | Outro
  | Loop
  deriving DecidableEq, Repr

/-- A cue point of a track: its type and its position. -/
structure Cue where
  type : CueType
  position : Int := 0
  deriving DecidableEq, Repr

/-- A tempo grid (the object behind a `BeatsPointer` that is not null). -/
abbrev Beats := Nat

/-- A value of `mixxx::ReplayGain`; the default-constructed value has neither a
ratio nor a peak. -/
structure ReplayGain where
  ratio : Option Nat := none
  peak : Option Nat := none
  deriving DecidableEq, Repr

/-- Modelled from the spec: the class `Track` is not among the sources.  A track
object has the attributes of the data model that the menu reads or writes: its
id, the tempo-lock flag, colour and cover, the tempo grid (`none` for a null
`BeatsPointer`), the play counter, the cue points, the key, the replay gain
and the two waveforms (`none` for a null `WaveformPointer`).  A getter reads
the attribute and a setter writes it. -/
structure Track where
  id : TrackId
  bpmLocked : Bool := false
  color : Option Nat := none
  coverInfo : Nat := 0
  beats : Option Beats := none
  timesPlayed : Nat := 0
  played : Bool := false
  cues : List Cue := []
  keys : Option Nat := none
  replayGain : ReplayGain := {}
  waveform : Option Nat := none
  waveformSummary : Option Nat := none
  deriving DecidableEq, Repr

/-- The track objects behind the track pointers. -/
abbrev TrackStore := TrackPointer → Track

/-- The member variables of `WTrackMenu` that the modelled functions touch. -/
structure WTrackMenu where
  m_pTrackModel : Option TrackModel := none
  m_bPlaylistMenuLoaded : Bool := false
  m_bCrateMenuLoaded : Bool := false
  m_eActiveFeatures : Features := 0
  m_eTrackModelFeatures : Features := Feature.TrackModelFeatures
  m_pTrackPointerList : List TrackPointer := []
  m_pTrackIndexList : List QModelIndex := []
  ui : Widgets := {}

/-- The function `WTrackMenu::featureIsEnabled`. -/
def featureIsEnabled (m : WTrackMenu) (flag : Feature) : Bool :=
  let optionIsSelected := testFlag m.m_eActiveFeatures flag.toInt
  if !optionIsSelected then
    false
  else
    match m.m_pTrackModel with
    | some pTrackModel =>
      match flag with
      | .AutoDJ => pTrackModel.hasCapabilities .TRACKMODELCAPS_ADDTOAUTODJ
      | .LoadTo =>
        pTrackModel.hasCapabilities .TRACKMODELCAPS_LOADTODECK ||
          pTrackModel.hasCapabilities .TRACKMODELCAPS_LOADTOSAMPLER ||
          pTrackModel.hasCapabilities .TRACKMODELCAPS_LOADTOPREVIEWDECK
      | .Playlist => pTrackModel.hasCapabilities .TRACKMODELCAPS_ADDTOPLAYLIST
      | .Crate => pTrackModel.hasCapabilities .TRACKMODELCAPS_ADDTOCRATE
      | .Remove =>
        pTrackModel.hasCapabilities .TRACKMODELCAPS_REMOVE ||
          pTrackModel.hasCapabilities .TRACKMODELCAPS_REMOVE_PLAYLIST ||
          pTrackModel.hasCapabilities .TRACKMODELCAPS_REMOVE_CRATE
      | .Metadata => pTrackModel.hasCapabilities .TRACKMODELCAPS_EDITMETADATA
      | .Reset =>
        pTrackModel.hasCapabilities .TRACKMODELCAPS_EDITMETADATA &&
          pTrackModel.hasCapabilities .TRACKMODELCAPS_RESETPLAYED
      | .BPM => pTrackModel.hasCapabilities .TRACKMODELCAPS_EDITMETADATA
      | .Color => pTrackModel.hasCapabilities .TRACKMODELCAPS_EDITMETADATA
      | .HideUnhidePurge =>
        pTrackModel.hasCapabilities .TRACKMODELCAPS_HIDE ||
          pTrackModel.hasCapabilities .TRACKMODELCAPS_UNHIDE ||
          pTrackModel.hasCapabilities .TRACKMODELCAPS_PURGE
      | .Properties => pTrackModel.hasCapabilities .TRACKMODELCAPS_EDITMETADATA
      | .FileBrowser => true
    | none => !testFlag m.m_eTrackModelFeatures flag.toInt

/-- The functions `WTrackMenu::createMenus` and `WTrackMenu::createActions`,
which the constructor calls one after the other: both make the widgets of a
feature under `if (featureIsEnabled(Feature::...))`, so afterwards the menus
and actions of exactly the features that are enabled at construction exist. -/
def createMenusAndActions (m : WTrackMenu) : Widgets :=
  { m.ui with created := Feature.all.filter fun flag => featureIsEnabled m flag }

/-- The member initialisers and the first statement of the constructor
`WTrackMenu::WTrackMenu`.  `VERIFY_OR_DEBUG_ASSERT(c) { block }` runs `block`
when `c` fails.  In `m_eActiveFeatures &= !m_eTrackModelFeatures` the operator
`!` of `QFlags` yields a `bool`, which `&=` takes as the integer 0 or 1. -/
def WTrackMenu.init (flags : Features) (trackModel : Option TrackModel) : WTrackMenu :=
  let m : WTrackMenu :=
    { m_pTrackModel := trackModel
      m_bPlaylistMenuLoaded := false
      m_bCrateMenuLoaded := false
      m_eActiveFeatures := flags
      m_eTrackModelFeatures := Feature.TrackModelFeatures }
  if trackModel.isSome || (m.m_eTrackModelFeatures &&& flags) == 0 then
    m
  else
    { m with
      m_eActiveFeatures :=
        m.m_eActiveFeatures &&& (if m.m_eTrackModelFeatures == 0 then 1 else 0) }

/-- The constructor `WTrackMenu::WTrackMenu`, as far as it sets the member
variables above: after the initialisers and the check of the flags it creates
the menus and actions of the features that are enabled then. -/
def WTrackMenu.new (flags : Features) (trackModel : Option TrackModel) : WTrackMenu :=
  let m := WTrackMenu.init flags trackModel
  { m with ui := createMenusAndActions m }

/-! ## The selection -/

/-- The function `WTrackMenu::getTrackIndices`. -/
def getTrackIndices (m : WTrackMenu) : List QModelIndex :=
  m.m_pTrackIndexList

/-- The function `WTrackMenu::getTrackIds`: with a track model the valid ids of
the stored indices, otherwise the ids of the stored track pointers. -/
def getTrackIds (m : WTrackMenu) (tracks : TrackStore) : List TrackId :=
  match m.m_pTrackModel with
  | some pTrackModel =>
    (getTrackIndices m).filterMap fun index =>
      let trackId := pTrackModel.getTrackId index
      if trackId.isValid then some trackId else none
  | none => m.m_pTrackPointerList.map fun pTrack => (tracks pTrack).id

/-- The function `WTrackMenu::getTrackPointers`: the stored pointers without a
track model, otherwise the tracks the model returns for the stored indices. -/
def getTrackPointers (m : WTrackMenu) : List TrackPointer :=
  match m.m_pTrackModel with
  | none => m.m_pTrackPointerList
  | some pTrackModel => (getTrackIndices m).filterMap pTrackModel.getTrack

/-- The function `WTrackMenu::clearTrackSelection`. -/
def clearTrackSelection (m : WTrackMenu) : WTrackMenu :=
  { m with m_pTrackPointerList := [], m_pTrackIndexList := [] }

/-! ## updateMenus -/

/-- Undefined behaviour a member function can run into. -/
inductive Fault where
  | nullTrackModel
  | nullWidget
  | indexOutOfRange
  deriving DecidableEq, Repr

/-- The control objects and settings `updateMenus` reads: the number of decks and
samplers (already converted to `int`), whether the `play` control of deck or
sampler `k` (counted from 0) is above zero, the setting
`[Controls],AllowTrackLoadToPlayingDeck`, and the track colour palette. -/
structure Controls where
  numDecks : Int := 0
  numSamplers : Int := 0
  deckPlaying : Nat → Bool := fun _ => false
  samplerPlaying : Nat → Bool := fun _ => false
  allowTrackLoadToPlayingDeck : Bool := false
  trackColorPalette : Nat := 0

/-- The `LoadTo` block of `updateMenus`: the deck menu is cleared and gets one
action per deck; the sampler menu is rebuilt when there is a sampler. -/
def updateMenus.loadTo (ctl : Controls) (singleTrackSelected : Bool) (w : Widgets) : Widgets :=
  let iNumDecks := ctl.numDecks
  let w := { w with m_pDeckMenu := [] }
  let w :=
    if iNumDecks > 0 then
      { w with
        m_pDeckMenu := w.m_pDeckMenu ++ (List.range iNumDecks.toNat).map fun k =>
          let i := k + 1
          let deckPlaying := ctl.deckPlaying (i - 1)
          let loadTrackIntoPlayingDeck := ctl.allowTrackLoadToPlayingDeck
          let deckEnabled := (!deckPlaying || loadTrackIntoPlayingDeck) && singleTrackSelected
          MenuItem.action { text := "Deck " ++ toString i, enabled := deckEnabled } }
    else w
  let iNumSamplers := ctl.numSamplers
  if iNumSamplers > 0 then
    { w with
      m_pSamplerMenu := (List.range iNumSamplers.toNat).map fun k =>
        let i := k + 1
        let samplerPlaying := ctl.samplerPlaying (i - 1)
        let samplerEnabled := !samplerPlaying && singleTrackSelected
        MenuItem.action { text := "Sampler " ++ toString i, enabled := samplerEnabled } }
  else w

/-- A call of a method of a menu or action of a feature: the pointer is null
unless the widgets of the feature were created. -/
def updateMenus.deref (created : Bool) (block : Widgets → Except Fault Widgets)
    (w : Widgets) : Except Fault Widgets :=
  if created then block w else .error .nullWidget

/-- The `Remove` block of `updateMenus`; it dereferences `m_pTrackModel`, and for
each of the three capabilities the model has it dereferences the action of that
capability; `created` says whether the actions of `Remove` exist. -/
def updateMenus.remove (pTrackModel : Option TrackModel) (created : Bool) (w : Widgets) :
    Except Fault Widgets :=
  match pTrackModel with
  | none => .error .nullTrackModel
  | some tm =>
    let locked := tm.hasCapabilities .TRACKMODELCAPS_LOCKED
    (if tm.hasCapabilities .TRACKMODELCAPS_REMOVE then
        updateMenus.deref created
          (fun w => .ok { w with m_pRemoveAct := { w.m_pRemoveAct with enabled := !locked } }) w
      else .ok w)
      >>= (fun w =>
        if tm.hasCapabilities .TRACKMODELCAPS_REMOVE_PLAYLIST then
          updateMenus.deref created
            (fun w =>
              .ok { w with
                m_pRemovePlaylistAct := { w.m_pRemovePlaylistAct with enabled := !locked } })
            w
        else .ok w)
      >>= (fun w =>
        if tm.hasCapabilities .TRACKMODELCAPS_REMOVE_CRATE then
          updateMenus.deref created
            (fun w =>
              .ok { w with
                m_pRemoveCrateAct := { w.m_pRemoveCrateAct with enabled := !locked } })
            w
        else .ok w)

/-- The `Metadata` block of `updateMenus`; it reads `trackPointers.last()`. -/
def updateMenus.metadata (tracks : TrackStore) (trackPointers : List TrackPointer)
    (singleTrackSelected : Bool) (w : Widgets) : Except Fault Widgets :=
  let w :=
    { w with
      m_pImportMetadataFromMusicBrainzAct :=
        { w.m_pImportMetadataFromMusicBrainzAct with enabled := singleTrackSelected } }
  match trackPointers.getLast? with
  | none => .error .indexOutOfRange
  | some pTrack => .ok { w with m_pCoverMenu := some (tracks pTrack).coverInfo }

/-- The `Reset` block of `updateMenus`.  The loop runs once per selected track
while `allowClear` holds, and every round looks at `trackPointers.at(0)`. -/
def updateMenus.reset (tracks : TrackStore) (trackPointers : List TrackPointer)
    (w : Widgets) : Widgets :=
  let allowClear :=
    match trackPointers with
    | [] => true
    | first :: rest =>
      (first :: rest).foldl
        (fun allowClear _ =>
          if allowClear && (tracks first).bpmLocked then false else allowClear)
        true
  { w with m_pClearBeatsAction := { w.m_pClearBeatsAction with enabled := allowClear } }

/-- The `BPM` block of `updateMenus`. -/
def updateMenus.bpm (tracks : TrackStore) (trackPointers : List TrackPointer)
    (w : Widgets) : Widgets :=
  let anyLocked :=
    trackPointers.foldl
      (fun anyLocked pTrack =>
        if !anyLocked && (tracks pTrack).bpmLocked then true else anyLocked)
      false
  { w with
    m_pBpmUnlockAction := { w.m_pBpmUnlockAction with enabled := anyLocked }
    m_pBpmLockAction := { w.m_pBpmLockAction with enabled := !anyLocked }
    m_pBpmDoubleAction := { w.m_pBpmDoubleAction with enabled := !anyLocked }
    m_pBpmHalveAction := { w.m_pBpmHalveAction with enabled := !anyLocked }
    m_pBpmTwoThirdsAction := { w.m_pBpmTwoThirdsAction with enabled := !anyLocked }
    m_pBpmThreeFourthsAction := { w.m_pBpmThreeFourthsAction with enabled := !anyLocked }
    m_pBpmFourThirdsAction := { w.m_pBpmFourThirdsAction with enabled := !anyLocked }
    m_pBpmThreeHalvesAction := { w.m_pBpmThreeHalvesAction with enabled := !anyLocked } }

/-- The `Color` block of `updateMenus`; it reads `trackPointers.at(0)`. -/
def updateMenus.color (ctl : Controls) (tracks : TrackStore)
    (trackPointers : List TrackPointer) (w : Widgets) : Except Fault Widgets :=
  let picker := { w.m_pColorPickerAction with colorPalette := ctl.trackColorPalette }
  match trackPointers with
  | [] => .error .indexOutOfRange
  | pTrack :: rest =>
    let trackColor := (tracks pTrack).color
    let multipleTrackColors := rest.any fun p => trackColor != (tracks p).color
    if multipleTrackColors then
      .ok { w with m_pColorPickerAction := { picker with selectedColor := none } }
    else
      .ok { w with m_pColorPickerAction := { picker with selectedColor := some trackColor } }

/-- The `HideUnhidePurge` block of `updateMenus`; it dereferences
`m_pTrackModel`, and for each of the three capabilities the model has it
dereferences the action of that capability; `created` says whether the actions
of `HideUnhidePurge` exist. -/
def updateMenus.hideUnhidePurge (pTrackModel : Option TrackModel) (created : Bool)
    (w : Widgets) : Except Fault Widgets :=
  match pTrackModel with
  | none => .error .nullTrackModel
  | some tm =>
    let locked := tm.hasCapabilities .TRACKMODELCAPS_LOCKED
    (if tm.hasCapabilities .TRACKMODELCAPS_HIDE then
        updateMenus.deref created
          (fun w => .ok { w with m_pHideAct := { w.m_pHideAct with enabled := !locked } }) w
      else .ok w)
      >>= (fun w =>
        if tm.hasCapabilities .TRACKMODELCAPS_UNHIDE then
          updateMenus.deref created
            (fun w => .ok { w with m_pUnhideAct := { w.m_pUnhideAct with enabled := !locked } })
            w
        else .ok w)
      >>= (fun w =>
        if tm.hasCapabilities .TRACKMODELCAPS_PURGE then
          updateMenus.deref created
            (fun w => .ok { w with m_pPurgeAct := { w.m_pPurgeAct with enabled := !locked } })
            w
        else .ok w)

/-- The `Properties` block of `updateMenus`. -/
def updateMenus.properties (singleTrackSelected : Bool) (w : Widgets) : Widgets :=
  { w with m_pPropertiesAct := { w.m_pPropertiesAct with enabled := singleTrackSelected } }

/-- A block of `updateMenus` under its guard `if (featureIsEnabled(...))`. -/
def updateMenus.guarded (enabled : Bool) (block : Widgets → Except Fault Widgets)
    (w : Widgets) : Except Fault Widgets :=
  if enabled then block w else .ok w

/-- The widgets after `updateMenus`: the blocks in source order, each guarded by
its feature.  The blocks of `LoadTo`, `Metadata`, `Color` and `Properties` begin
with a call through a pointer to a menu or action of their feature, and in the
blocks of `Reset` and `BPM` only a loop that cannot fail comes before that call;
the blocks of `Remove` and `HideUnhidePurge` make such calls for the capabilities
the track model has.  Whether the widgets of a feature exist does not change
during the call. -/
def updateMenus.widgets (m : WTrackMenu) (ctl : Controls) (tracks : TrackStore) :
    Except Fault Widgets :=
  let trackPointers := getTrackPointers m
  let singleTrackSelected := trackPointers.length == 1
  Except.ok m.ui
    >>= updateMenus.guarded (featureIsEnabled m .LoadTo)
      (updateMenus.deref (m.ui.has .LoadTo)
        fun w => .ok (updateMenus.loadTo ctl singleTrackSelected w))
    >>= updateMenus.guarded (featureIsEnabled m .Remove)
      (updateMenus.remove m.m_pTrackModel (m.ui.has .Remove))
    >>= updateMenus.guarded (featureIsEnabled m .Metadata)
      (updateMenus.deref (m.ui.has .Metadata)
        (updateMenus.metadata tracks trackPointers singleTrackSelected))
    >>= updateMenus.guarded (featureIsEnabled m .Reset)
      (updateMenus.deref (m.ui.has .Reset)
        fun w => .ok (updateMenus.reset tracks trackPointers w))
    >>= updateMenus.guarded (featureIsEnabled m .BPM)
      (updateMenus.deref (m.ui.has .BPM)
        fun w => .ok (updateMenus.bpm tracks trackPointers w))
    >>= updateMenus.guarded (featureIsEnabled m .Color)
      (updateMenus.deref (m.ui.has .Color) (updateMenus.color ctl tracks trackPointers))
    >>= updateMenus.guarded (featureIsEnabled m .HideUnhidePurge)
      (updateMenus.hideUnhidePurge m.m_pTrackModel (m.ui.has .HideUnhidePurge))
    >>= updateMenus.guarded (featureIsEnabled m .Properties)
      (updateMenus.deref (m.ui.has .Properties)
        fun w => .ok (updateMenus.properties singleTrackSelected w))

/-- The function `WTrackMenu::updateMenus`: besides the widgets it resets the two
loaded flags of the lazily filled submenus when their feature is enabled. -/
def updateMenus (m : WTrackMenu) (ctl : Controls) (tracks : TrackStore) :
    Except Fault WTrackMenu :=
  match updateMenus.widgets m ctl tracks with
  | .error fault => .error fault
  | .ok w =>
    .ok { m with
      ui := w
      m_bPlaylistMenuLoaded :=
        if featureIsEnabled m .Playlist then false else m.m_bPlaylistMenuLoaded
      m_bCrateMenuLoaded :=
        if featureIsEnabled m .Crate then false else m.m_bCrateMenuLoaded }

/-! ## The collaborators -/

/-- A row of `CrateSummary`: a crate with the number of its tracks among the
track ids the query was made for (`getTrackCount`, a `uint`). -/
structure CrateSummary where
  id : CrateId
  name : String := ""
  locked : Bool := false
  trackCount : Nat := 0
  deriving DecidableEq, Repr

/-- The answers of the track collection and its DAOs during one call.  Their
sources are not part of src, so they are parameters: the track lookup by id
(`none` for a null pointer), the playlist id for a name (-1 if there is none),
the id `createPlaylist` returns for a name, the crate summary query, the
id `CrateFeatureHelper::createEmptyCrate` returns, and the playlist table of
the `PlaylistDAO`: the number of playlists, the id of the playlist at a
position, and the name, the hidden flag and the locked flag of a playlist id. -/
structure TrackCollection where
  getTrackById : TrackId → Option TrackPointer := fun _ => none
  getPlaylistIdFromName : String → Int := fun _ => -1
  createPlaylist : String → Int := fun _ => -1
  selectCratesWithTrackCount : List TrackId → List CrateSummary := fun _ => []
  createEmptyCrate : CrateId := -1
  playlistCount : Int := 0
  getPlaylistId : Int → Int := fun _ => -1
  getPlaylistName : Int → String := fun _ => ""
  isHidden : Int → Bool := fun _ => false
  isPlaylistLocked : Int → Bool := fun _ => false

/-- The argument `PlaylistDAO::AutoDJSendLoc`. -/
inductive AutoDJSendLoc where
  | TOP
  | BOTTOM
  | REPLACE
  deriving DecidableEq, Repr

/-- A call the menu makes to a collaborator or to the user interface, in the
order of the call log. -/
inductive Call where
  | qWarning (msg : String)
  | getText (title label : String)
  | warning (title text : String)
  | getPlaylistIdFromName (name : String)
  | createPlaylist (name : String)
  | appendTracksToPlaylist (trackIds : List TrackId) (iPlaylistId : Int)
  | addTracksToAutoDJQueue (trackIds : List TrackId) (loc : AutoDJSendLoc)
  | unhideTracks (trackIds : List TrackId)
  | selectCratesWithTrackCount (trackIds : List TrackId)
  | createEmptyCrate
  | addCrateTracks (crateId : CrateId) (trackIds : List TrackId)
  | removeCrateTracks (crateId : CrateId) (trackIds : List TrackId)
  | playlistCount
  | getPlaylistId (position : Int)
  | getPlaylistName (iPlaylistId : Int)
  | isHidden (iPlaylistId : Int)
  | isPlaylistLocked (iPlaylistId : Int)
  | deleteAnalysesForTrack (trackId : TrackId)
  | TrackModel_removeTracks (indices : List QModelIndex)
  | TrackModel_hideTracks (indices : List QModelIndex)
  | TrackModel_unhideTracks (indices : List QModelIndex)
  | TrackModel_purgeTracks (indices : List QModelIndex)
  deriving DecidableEq, Repr

/-! ## Loading a selection -/

/-- The function `WTrackMenu::loadTracks(TrackIdList)`.  `DEBUG_ASSERT` does not
end the function, so the pointers are stored whether or not a model is set. -/
def loadTracks_TrackIdList (m : WTrackMenu) (tc : TrackCollection) (ctl : Controls)
    (tracks : TrackStore) (trackIdList : List TrackId) : Except Fault WTrackMenu :=
  let m := clearTrackSelection m
  let trackPointers := trackIdList.filterMap fun trackId => tc.getTrackById trackId
  let m := { m with m_pTrackPointerList := trackPointers }
  if !m.m_pTrackPointerList.isEmpty then updateMenus m ctl tracks else .ok m

/-- The function `WTrackMenu::loadTracks(QModelIndexList)`; without a track model
`VERIFY_OR_DEBUG_ASSERT` returns right after the selection was cleared. -/
def loadTracks_QModelIndexList (m : WTrackMenu) (ctl : Controls) (tracks : TrackStore)
    (indexList : List QModelIndex) : Except Fault WTrackMenu :=
  let m := clearTrackSelection m
  match m.m_pTrackModel with
  | none => .ok m
  | some pTrackModel =>
    let indices := indexList.filter fun index => (pTrackModel.getTrack index).isSome
    let m := { m with m_pTrackIndexList := indices }
    if !m.m_pTrackIndexList.isEmpty then updateMenus m ctl tracks else .ok m

/-! ## The crate submenu -/

/-- The conversion `(uint)n` of an `int` that is not negative. -/
def toUInt (n : Nat) : Nat := n % 4294967296

/-- The entry `slotPopulateCrateMenu` builds for one crate: a check box inside a
`QWidgetAction`, unchecked, checked or partially checked by the track count. -/
def slotPopulateCrateMenu.entry (crate : CrateSummary) (trackIds : List TrackId) : MenuItem :=
  let pCheckBox : QCheckBox := { text := crate.name, crateId := crate.id, enabled := !crate.locked }
  let pCheckBox :=
    if crate.trackCount == 0 then
      pCheckBox.setChecked false
    else if crate.trackCount == toUInt trackIds.length then
      pCheckBox.setChecked true
    else
      (pCheckBox.setTristate true).setCheckState .PartiallyChecked
  MenuItem.widgetAction (!crate.locked) pCheckBox

/-- The function `WTrackMenu::slotPopulateCrateMenu`, with the calls it makes. -/
def slotPopulateCrateMenu (m : WTrackMenu) (tc : TrackCollection) (tracks : TrackStore) :
    WTrackMenu × List Call :=
  if m.m_bCrateMenuLoaded then
    (m, [])
  else
    let trackIds := getTrackIds m tracks
    let allCrates := tc.selectCratesWithTrackCount trackIds
    let entries := allCrates.map fun crate => slotPopulateCrateMenu.entry crate trackIds
    let menu := entries ++ [MenuItem.separator, MenuItem.action { text := "Add to New Crate" }]
    ({ m with ui := { m.ui with m_pCrateMenu := menu }, m_bCrateMenuLoaded := true },
      [Call.selectCratesWithTrackCount trackIds])

/-- The function `WTrackMenu::updateSelectionCrates`: the check box afterwards
(`none` when the widget is not a check box) and the calls made. -/
def updateSelectionCrates (m : WTrackMenu) (tc : TrackCollection) (tracks : TrackStore)
    (pWidget : Option QCheckBox) : Option QCheckBox × List Call :=
  match pWidget with
  | none => (none, [Call.qWarning "crateId is not of CrateId type"])
  | some pCheckBox =>
    let crateId := pCheckBox.crateId
    let trackIds := getTrackIds m tracks
    if trackIds.isEmpty then
      (some pCheckBox, [Call.qWarning "No tracks selected for crate"])
    else
      let pCheckBox := pCheckBox.setTristate false
      if !pCheckBox.isChecked then
        if crateId.isValid then
          (some pCheckBox, [Call.removeCrateTracks crateId trackIds])
        else
          (some pCheckBox, [])
      else
        let created : CrateId × List Call :=
          if !crateId.isValid then (tc.createEmptyCrate, [Call.createEmptyCrate])
          else (crateId, [])
        let crateId := created.1
        if crateId.isValid then
          (some pCheckBox,
            created.2 ++ [Call.unhideTracks trackIds, Call.addCrateTracks crateId trackIds])
        else
          (some pCheckBox, created.2)

/-- The function `WTrackMenu::addSelectionToNewCrate`. -/
def addSelectionToNewCrate (m : WTrackMenu) (tc : TrackCollection) (tracks : TrackStore) :
    List Call :=
  let trackIds := getTrackIds m tracks
  if trackIds.isEmpty then
    [Call.qWarning "No tracks selected for crate"]
  else
    let crateId := tc.createEmptyCrate
    if crateId.isValid then
      [Call.createEmptyCrate, Call.unhideTracks trackIds, Call.addCrateTracks crateId trackIds]
    else
      [Call.createEmptyCrate]

/-- The function `WTrackMenu::addToAutoDJ`. -/
def addToAutoDJ (m : WTrackMenu) (tracks : TrackStore) (loc : AutoDJSendLoc) : List Call :=
  let trackIds := getTrackIds m tracks
  if trackIds.isEmpty then
    [Call.qWarning "No tracks selected for AutoDJ"]
  else
    [Call.unhideTracks trackIds, Call.addTracksToAutoDJQueue trackIds loc]

/-! ## Adding the selection to a playlist -/

/-- How the name dialog of `addSelectionToPlaylist` ends: the user cancelled, a
usable name was given, or the dialog is still waiting for an answer. -/
inductive NameLoop where
  | cancelled
  | accepted (name : String)
  | waiting
  deriving DecidableEq, Repr

/-- The `do ... while (!validNameGiven)` loop of `addSelectionToPlaylist`.  Each
answer of the user is the `ok` flag of `QInputDialog::getText` and the trimmed
text; one answer is used up per round. -/
def addSelectionToPlaylist.nameLoop (tc : TrackCollection) :
    List (Bool × String) → List Call × NameLoop
  | [] => ([Call.getText "Create New Playlist" "Enter name for new playlist:"], .waiting)
  | (ok, name) :: answers =>
    let shown := Call.getText "Create New Playlist" "Enter name for new playlist:"
    if !ok then
      ([shown], .cancelled)
    else if tc.getPlaylistIdFromName name != -1 then
      let next := addSelectionToPlaylist.nameLoop tc answers
      ([shown, Call.getPlaylistIdFromName name,
          Call.warning "Playlist Creation Failed" "A playlist by that name already exists."]
        ++ next.1, next.2)
    else if name.isEmpty then
      let next := addSelectionToPlaylist.nameLoop tc answers
      ([shown, Call.getPlaylistIdFromName name,
          Call.warning "Playlist Creation Failed" "A playlist cannot have a blank name."]
        ++ next.1, next.2)
    else
      ([shown, Call.getPlaylistIdFromName name], .accepted name)

/-- The function `WTrackMenu::addSelectionToPlaylist`: the calls it makes, and
whether it has returned (it has not while the name dialog waits). -/
def addSelectionToPlaylist (m : WTrackMenu) (tc : TrackCollection) (tracks : TrackStore)
    (iPlaylistId : Int) (answers : List (Bool × String)) : List Call × Bool :=
  let trackIds := getTrackIds m tracks
  if trackIds.isEmpty then
    ([Call.qWarning "No tracks selected for playlist"], true)
  else if iPlaylistId == -1 then
    match addSelectionToPlaylist.nameLoop tc answers with
    | (log, .cancelled) => (log, true)
    | (log, .waiting) => (log, false)
    | (log, .accepted name) =>
      let iPlaylistId := tc.createPlaylist name
      if iPlaylistId == -1 then
        (log ++ [Call.createPlaylist name,
            Call.warning "Playlist Creation Failed"
              ("An unknown error occurred while creating playlist: " ++ name)], true)
      else
        (log ++ [Call.createPlaylist name, Call.unhideTracks trackIds,
            Call.appendTracksToPlaylist trackIds iPlaylistId], true)
  else
    ([Call.unhideTracks trackIds, Call.appendTracksToPlaylist trackIds iPlaylistId], true)

/-! ## Crate membership in the collection -/

/-- Modelled from the spec: the crate side of the collection backend.  The
functions `addCrateTracks`, `removeCrateTracks` and `unhideTracks` of the track
collection are not part of src.  The membership of a crate is a set of track
ids, and there is a set of hidden tracks. -/
structure Library where
  crateTracks : CrateId → Finset TrackId
  hidden : Finset TrackId

/-- Modelled from the spec: what a logged call does to the crate membership and
to the hidden tracks: adding unites the ids with the crate, removing takes them
away, unhiding takes them out of the hidden set; the other calls leave both
alone. -/
def Library.apply (lib : Library) : Call → Library
  | .addCrateTracks crateId trackIds =>
    { lib with
      crateTracks :=
        Function.update lib.crateTracks crateId (lib.crateTracks crateId ∪ trackIds.toFinset) }
  | .removeCrateTracks crateId trackIds =>
    { lib with
      crateTracks :=
        Function.update lib.crateTracks crateId (lib.crateTracks crateId \ trackIds.toFinset) }
  | .unhideTracks trackIds => { lib with hidden := lib.hidden \ trackIds.toFinset }
  | _ => lib

/-- The library after a whole call log. -/
def Library.run (lib : Library) (log : List Call) : Library :=
  log.foldl Library.apply lib

/-- The function `WTrackMenu::loadTrack(TrackId)`. -/
def loadTrack_TrackId (m : WTrackMenu) (tc : TrackCollection) (ctl : Controls)
    (tracks : TrackStore) (trackId : TrackId) : Except Fault WTrackMenu :=
  loadTracks_TrackIdList m tc ctl tracks [trackId]

/-- The function `WTrackMenu::loadTrack(QModelIndex)`. -/
def loadTrack_QModelIndex (m : WTrackMenu) (ctl : Controls) (tracks : TrackStore)
    (index : QModelIndex) : Except Fault WTrackMenu :=
  loadTracks_QModelIndexList m ctl tracks [index]

/-- The states of a menu that can be reached from its construction by calls of
`loadTracks`, `loadTrack` (both overloads) and `clearTrackSelection`.  Every
call may see other answers of the collection, other controls and other track
objects, and between two calls the track model may change its answers.  A call
that runs into a fault has no state afterwards. -/
inductive Reachable : WTrackMenu → Prop where
  | construct (flags : Features) (trackModel : Option TrackModel) :
    Reachable (WTrackMenu.new flags trackModel)
  | loadTracks_TrackIdList {m m' : WTrackMenu} (tc : TrackCollection) (ctl : Controls)
      (tracks : TrackStore) (trackIdList : List TrackId) :
    Reachable m → Mixxx.loadTracks_TrackIdList m tc ctl tracks trackIdList = .ok m' →
      Reachable m'
  | loadTracks_QModelIndexList {m m' : WTrackMenu} (ctl : Controls) (tracks : TrackStore)
      (indexList : List QModelIndex) :
    Reachable m → Mixxx.loadTracks_QModelIndexList m ctl tracks indexList = .ok m' →
      Reachable m'
  | loadTrack_TrackId {m m' : WTrackMenu} (tc : TrackCollection) (ctl : Controls)
      (tracks : TrackStore) (trackId : TrackId) :
    Reachable m → Mixxx.loadTrack_TrackId m tc ctl tracks trackId = .ok m' → Reachable m'
  | loadTrack_QModelIndex {m m' : WTrackMenu} (ctl : Controls) (tracks : TrackStore)
      (index : QModelIndex) :
    Reachable m → Mixxx.loadTrack_QModelIndex m ctl tracks index = .ok m' → Reachable m'
  | clearTrackSelection {m : WTrackMenu} :
    Reachable m → Reachable (Mixxx.clearTrackSelection m)
  | modelChanges {m : WTrackMenu} (tm tm' : TrackModel) :
    Reachable m → m.m_pTrackModel = some tm → Reachable { m with m_pTrackModel := some tm' }

/-! ## The playlist submenu -/

/-- The code units of a character in a `QString`, which holds its text as
UTF-16: one unit for a character below U+10000, a high and a low surrogate for
the others. -/
def QChar.units (c : Char) : List Nat :=
  if c.toNat < 0x10000 then [c.toNat]
  else [0xD800 + (c.toNat - 0x10000) / 0x400, 0xDC00 + (c.toNat - 0x10000) % 0x400]

/-- The code units of a `QString`. -/
def QString.utf16 (s : String) : List Nat :=
  s.data.flatMap QChar.units

/-- The order of two sequences of code units by their values, the first
difference deciding and a proper beginning coming first. -/
def QString.lessThan.go : List Nat → List Nat → Bool
  | _, [] => false
  | [], _ :: _ => true
  | a :: as, b :: bs =>
    if a < b then true
    else if b < a then false
    else QString.lessThan.go as bs

/-- The comparison `operator<` of `QString`, by which a `QMap` orders its keys:
it compares the code units of the two strings. -/
def QString.lessThan (s t : String) : Bool :=
  QString.lessThan.go (QString.utf16 s) (QString.utf16 t)

/-- The method `QMap<QString, int>::insert` on the entries of the map in
ascending order of their keys: a new key goes to its place in that order, a
key that is already there gets the new value. -/
def QMap.insert (key : String) (value : Int) : List (String × Int) → List (String × Int)
  | [] => [(key, value)]
  | (k, v) :: rest =>
    if QString.lessThan key k then (key, value) :: (k, v) :: rest
    else if QString.lessThan k key then (k, v) :: QMap.insert key value rest
    else (key, value) :: rest

/-- The entries of a `QMap<QString, int>` stand in ascending order of their
keys, as its iterator visits them. -/
def QMap.Ascending (l : List (String × Int)) : Prop :=
  l.Pairwise fun a b => QString.lessThan a.1 b.1 = true

/-- The map from playlist names to playlist ids that `slotPopulatePlaylistMenu`
fills from the playlist table, position by position. -/
def slotPopulatePlaylistMenu.playlists (tc : TrackCollection) : List (String × Int) :=
  (List.range tc.playlistCount.toNat).foldl
    (fun playlists (i : Nat) =>
      let iPlaylistId := tc.getPlaylistId (i : Int)
      QMap.insert (tc.getPlaylistName iPlaylistId) iPlaylistId playlists)
    []

/-- The function `WTrackMenu::slotPopulatePlaylistMenu`, with the calls it makes:
one action per playlist of the map that is not hidden, enabled unless the
playlist is locked, then a separator and "Create New Playlist". -/
def slotPopulatePlaylistMenu (m : WTrackMenu) (tc : TrackCollection) : WTrackMenu × List Call :=
  if m.m_bPlaylistMenuLoaded then
    (m, [])
  else
    let playlists := slotPopulatePlaylistMenu.playlists tc
    let filled : List Call :=
      ((List.range tc.playlistCount.toNat).map fun (i : Nat) =>
        [Call.getPlaylistId (i : Int), Call.getPlaylistName (tc.getPlaylistId (i : Int))]).flatten
    let actions :=
      (playlists.filter fun it => !tc.isHidden it.2).map fun it =>
        let locked := tc.isPlaylistLocked it.2
        MenuItem.action { text := it.1, enabled := !locked }
    let asked : List Call :=
      (playlists.map fun it =>
        if !tc.isHidden it.2 then [Call.isHidden it.2, Call.isPlaylistLocked it.2]
        else [Call.isHidden it.2]).flatten
    let menu :=
      actions ++ [MenuItem.separator, MenuItem.action { text := "Create New Playlist" }]
    ({ m with ui := { m.ui with m_pPlaylistMenu := menu }, m_bPlaylistMenuLoaded := true },
      Call.playlistCount :: filled ++ asked)

/-! ## Remove, hide, unhide, purge -/

/-- The function `WTrackMenu::slotRemove`: the calls it makes. -/
def slotRemove (m : WTrackMenu) : List Call :=
  match m.m_pTrackModel with
  | some _ =>
    let indices := getTrackIndices m
    if !indices.isEmpty then [Call.TrackModel_removeTracks indices] else []
  | none => []

/-- The function `WTrackMenu::slotHide`: the calls it makes. -/
def slotHide (m : WTrackMenu) : List Call :=
  match m.m_pTrackModel with
  | some _ =>
    let indices := getTrackIndices m
    if !indices.isEmpty then [Call.TrackModel_hideTracks indices] else []
  | none => []

/-- The function `WTrackMenu::slotUnhide`: the calls it makes. -/
def slotUnhide (m : WTrackMenu) : List Call :=
  match m.m_pTrackModel with
  | some _ =>
    let indices := getTrackIndices m
    if !indices.isEmpty then [Call.TrackModel_unhideTracks indices] else []
  | none => []

/-- The function `WTrackMenu::slotPurge`: the calls it makes. -/
def slotPurge (m : WTrackMenu) : List Call :=
  match m.m_pTrackModel with
  | some _ =>
    let indices := getTrackIndices m
    if !indices.isEmpty then [Call.TrackModel_purgeTracks indices] else []
  | none => []

/-! ## Batch commands on the selected tracks -/

/-- The loop `for (const auto& pTrack : trackPointers)` whose body changes the
track object behind `pTrack`: the tracks afterwards. -/
def forEachTrack (trackPointers : List TrackPointer) (body : Track → Track)
    (tracks : TrackStore) : TrackStore :=
  trackPointers.foldl
    (fun tracks pTrack => fun q => if q = pTrack then body (tracks pTrack) else tracks q)
    tracks

/-- The method `Track::removeCuesOfType`. -/
def Track.removeCuesOfType (t : Track) (type : CueType) : Track :=
  { t with cues := t.cues.filter fun cue => cue.type != type }

/-- The method `Track::resetPlayCounter`. -/
def Track.resetPlayCounter (t : Track) : Track :=
  { t with timesPlayed := 0, played := false }

/-- The function `WTrackMenu::slotScaleBpm`; `scaleBeats` is `Beats::scale`, which
is not among the sources. -/
def slotScaleBpm (m : WTrackMenu) (scaleBeats : Int → Beats → Beats) (scale : Int)
    (tracks : TrackStore) : TrackStore :=
  forEachTrack (getTrackPointers m)
    (fun pTrack =>
      if !pTrack.bpmLocked then
        match pTrack.beats with
        | some pBeats => { pTrack with beats := some (scaleBeats scale pBeats) }
        | none => pTrack
      else pTrack)
    tracks

/-- The function `WTrackMenu::lockBpm`. -/
def lockBpm (m : WTrackMenu) (lock : Bool) (tracks : TrackStore) : TrackStore :=
  forEachTrack (getTrackPointers m) (fun pTrack => { pTrack with bpmLocked := lock }) tracks

/-- The function `WTrackMenu::slotClearPlayCount`. -/
def slotClearPlayCount (m : WTrackMenu) (tracks : TrackStore) : TrackStore :=
  forEachTrack (getTrackPointers m) (fun pTrack => pTrack.resetPlayCounter) tracks

/-- The function `WTrackMenu::slotClearBeats`. -/
def slotClearBeats (m : WTrackMenu) (tracks : TrackStore) : TrackStore :=
  forEachTrack (getTrackPointers m)
    (fun pTrack => if !pTrack.bpmLocked then { pTrack with beats := none } else pTrack)
    tracks

/-- The function `WTrackMenu::slotClearMainCue`. -/
def slotClearMainCue (m : WTrackMenu) (tracks : TrackStore) : TrackStore :=
  forEachTrack (getTrackPointers m) (fun pTrack => pTrack.removeCuesOfType .MainCue) tracks

/-- The function `WTrackMenu::slotClearOutroCue`. -/
def slotClearOutroCue (m : WTrackMenu) (tracks : TrackStore) : TrackStore :=
  forEachTrack (getTrackPointers m) (fun pTrack => pTrack.removeCuesOfType .Outro) tracks

/-- The function `WTrackMenu::slotClearIntroCue`. -/
def slotClearIntroCue (m : WTrackMenu) (tracks : TrackStore) : TrackStore :=
  forEachTrack (getTrackPointers m) (fun pTrack => pTrack.removeCuesOfType .Intro) tracks

/-- The function `WTrackMenu::slotClearKey`. -/
def slotClearKey (m : WTrackMenu) (tracks : TrackStore) : TrackStore :=
  forEachTrack (getTrackPointers m) (fun pTrack => { pTrack with keys := none }) tracks

/-- The function `WTrackMenu::slotClearReplayGain`. -/
def slotClearReplayGain (m : WTrackMenu) (tracks : TrackStore) : TrackStore :=
  forEachTrack (getTrackPointers m) (fun pTrack => { pTrack with replayGain := {} }) tracks

/-- The function `WTrackMenu::slotClearWaveform`: the tracks afterwards and the
calls to the analysis DAO, one per selected track. -/
def slotClearWaveform (m : WTrackMenu) (tracks : TrackStore) : TrackStore × List Call :=
  (getTrackPointers m).foldl
    (fun state pTrack =>
      ((fun q =>
          if q = pTrack then
            { state.1 pTrack with waveform := none, waveformSummary := none }
          else state.1 q),
        state.2 ++ [Call.deleteAnalysesForTrack (state.1 pTrack).id]))
    (tracks, [])

/-- The function `WTrackMenu::slotClearLoop`. -/
def slotClearLoop (m : WTrackMenu) (tracks : TrackStore) : TrackStore :=
  forEachTrack (getTrackPointers m) (fun pTrack => pTrack.removeCuesOfType .Loop) tracks

/-- The function `WTrackMenu::slotClearHotCues`. -/
def slotClearHotCues (m : WTrackMenu) (tracks : TrackStore) : TrackStore :=
  forEachTrack (getTrackPointers m) (fun pTrack => pTrack.removeCuesOfType .HotCue) tracks

/-- The function `WTrackMenu::slotClearAllMetadata`: the ten slots in the order
of the source. -/
def slotClearAllMetadata (m : WTrackMenu) (tracks : TrackStore) : TrackStore × List Call :=
  let tracks := slotClearBeats m tracks
  let tracks := slotClearPlayCount m tracks
  let tracks := slotClearMainCue m tracks
  let tracks := slotClearHotCues m tracks
  let tracks := slotClearIntroCue m tracks
  let tracks := slotClearOutroCue m tracks
  let tracks := slotClearLoop m tracks
  let tracks := slotClearKey m tracks
  let tracks := slotClearReplayGain m tracks
  slotClearWaveform m tracks

/-! ## The batch commands with the order of their calls -/

/-- The methods of `Track` through which the clear commands change a track. -/
inductive TrackMethod where
  | setBeats
  | resetPlayCounter
  | removeCuesOfType (type : CueType)
  | resetKeys
  | setReplayGain
  | setWaveform
  | setWaveformSummary
  deriving DecidableEq, Repr

/-- What a command does, call by call: it calls a method of the track behind a
pointer, or it calls the backend. -/
inductive Effect where
  | track (pTrack : TrackPointer) (method : TrackMethod)
  | backend (call : Call)
  deriving DecidableEq, Repr

/-- The call to the backend in an effect, if it is one. -/
def Effect.backendCall : Effect → Option Call
  | .track _ _ => none
  | .backend call => some call

/-- Whether an effect clears something other than a waveform on a track: a call
of a method of `Track` that is neither `setWaveform` nor `setWaveformSummary`. -/
def Effect.clearsTrack : Effect → Bool
  | .track _ .setWaveform => false
  | .track _ .setWaveformSummary => false
  | .track _ _ => true
  | .backend _ => false

/-- The loop `for (const auto& pTrack : trackPointers)` together with the order
of what happens: `body` gives the track object after one round and the calls
of that round in their order; they are appended to the calls made so far. -/
def forEachTrack.traced (trackPointers : List TrackPointer)
    (body : TrackPointer → Track → Track × List Effect)
    (state : TrackStore × List Effect) : TrackStore × List Effect :=
  trackPointers.foldl
    (fun state pTrack =>
      ((fun q => if q = pTrack then (body pTrack (state.1 pTrack)).1 else state.1 q),
        state.2 ++ (body pTrack (state.1 pTrack)).2))
    state

/-- The function `WTrackMenu::slotClearBeats`, call by call. -/
def slotClearBeats.traced (m : WTrackMenu) (state : TrackStore × List Effect) :
    TrackStore × List Effect :=
  forEachTrack.traced (getTrackPointers m)
    (fun p pTrack =>
      if !pTrack.bpmLocked then ({ pTrack with beats := none }, [Effect.track p .setBeats])
      else (pTrack, []))
    state

/-- The function `WTrackMenu::slotClearPlayCount`, call by call. -/
def slotClearPlayCount.traced (m : WTrackMenu) (state : TrackStore × List Effect) :
    TrackStore × List Effect :=
  forEachTrack.traced (getTrackPointers m)
    (fun p pTrack => (pTrack.resetPlayCounter, [Effect.track p .resetPlayCounter])) state

/-- The function `WTrackMenu::slotClearMainCue`, call by call. -/
def slotClearMainCue.traced (m : WTrackMenu) (state : TrackStore × List Effect) :
    TrackStore × List Effect :=
  forEachTrack.traced (getTrackPointers m)
    (fun p pTrack =>
      (pTrack.removeCuesOfType .MainCue, [Effect.track p (.removeCuesOfType .MainCue)]))
    state

/-- The function `WTrackMenu::slotClearHotCues`, call by call. -/
def slotClearHotCues.traced (m : WTrackMenu) (state : TrackStore × List Effect) :
    TrackStore × List Effect :=
  forEachTrack.traced (getTrackPointers m)
    (fun p pTrack =>
      (pTrack.removeCuesOfType .HotCue, [Effect.track p (.removeCuesOfType .HotCue)]))
    state

/-- The function `WTrackMenu::slotClearIntroCue`, call by call. -/
def slotClearIntroCue.traced (m : WTrackMenu) (state : TrackStore × List Effect) :
    TrackStore × List Effect :=
  forEachTrack.traced (getTrackPointers m)
    (fun p pTrack =>
      (pTrack.removeCuesOfType .Intro, [Effect.track p (.removeCuesOfType .Intro)]))
    state

/-- The function `WTrackMenu::slotClearOutroCue`, call by call. -/
def slotClearOutroCue.traced (m : WTrackMenu) (state : TrackStore × List Effect) :
    TrackStore × List Effect :=
  forEachTrack.traced (getTrackPointers m)
    (fun p pTrack =>
      (pTrack.removeCuesOfType .Outro, [Effect.track p (.removeCuesOfType .Outro)]))
    state

/-- The function `WTrackMenu::slotClearLoop`, call by call. -/
def slotClearLoop.traced (m : WTrackMenu) (state : TrackStore × List Effect) :
    TrackStore × List Effect :=
  forEachTrack.traced (getTrackPointers m)
    (fun p pTrack =>
      (pTrack.removeCuesOfType .Loop, [Effect.track p (.removeCuesOfType .Loop)]))
    state

/-- The function `WTrackMenu::slotClearKey`, call by call. -/
def slotClearKey.traced (m : WTrackMenu) (state : TrackStore × List Effect) :
    TrackStore × List Effect :=
  forEachTrack.traced (getTrackPointers m)
    (fun p pTrack => ({ pTrack with keys := none }, [Effect.track p .resetKeys])) state

/-- The function `WTrackMenu::slotClearReplayGain`, call by call. -/
def slotClearReplayGain.traced (m : WTrackMenu) (state : TrackStore × List Effect) :
    TrackStore × List Effect :=
  forEachTrack.traced (getTrackPointers m)
    (fun p pTrack => ({ pTrack with replayGain := {} }, [Effect.track p .setReplayGain])) state

/-- The function `WTrackMenu::slotClearWaveform`, call by call: for every track
the analysis DAO is asked to delete the analyses of its id, then the two
waveforms are set to null. -/
def slotClearWaveform.traced (m : WTrackMenu) (state : TrackStore × List Effect) :
    TrackStore × List Effect :=
  forEachTrack.traced (getTrackPointers m)
    (fun p pTrack =>
      ({ pTrack with waveform := none, waveformSummary := none },
        [Effect.backend (Call.deleteAnalysesForTrack pTrack.id), Effect.track p .setWaveform,
          Effect.track p .setWaveformSummary]))
    state

/-- The function `WTrackMenu::slotClearAllMetadata`, call by call: the ten slots
in the order of the source, starting with no call made. -/
def slotClearAllMetadata.traced (m : WTrackMenu) (tracks : TrackStore) :
    TrackStore × List Effect :=
  let state := slotClearBeats.traced m (tracks, [])
  let state := slotClearPlayCount.traced m state
  let state := slotClearMainCue.traced m state
  let state := slotClearHotCues.traced m state
  let state := slotClearIntroCue.traced m state
  let state := slotClearOutroCue.traced m state
  let state := slotClearLoop.traced m state
  let state := slotClearKey.traced m state
  let state := slotClearReplayGain.traced m state
  slotClearWaveform.traced m state

/-! ## Clear all metadata, as the spec words it -/

/-- The ten commands of which the spec composes "Clear all metadata". -/
inductive ClearCommand where
  | clearTempoGrid
  | clearPlayCount
  | clearMainCue
  | clearHotCues
  | clearIntroCue
  | clearOutroCue
  | clearLoopCue
  | clearKey
  | clearReplayGain
  | clearWaveform
  deriving DecidableEq, Repr

/-- The order in which the spec composes the ten commands. -/
def clearAllMetadataOrder : List ClearCommand :=
  [.clearTempoGrid, .clearPlayCount, .clearMainCue, .clearHotCues, .clearIntroCue,
    .clearOutroCue, .clearLoopCue, .clearKey, .clearReplayGain, .clearWaveform]

/-- The mutation of one track by a command, in the words of the spec: clearing
the tempo grid skips a track whose tempo-lock flag is set, the other commands
go ahead unconditionally. -/
def ClearCommand.perTrack : ClearCommand → Track → Track
  | .clearTempoGrid, t => if t.bpmLocked then t else { t with beats := none }
  | .clearPlayCount, t => t.resetPlayCounter
  | .clearMainCue, t => t.removeCuesOfType .MainCue
  | .clearHotCues, t => t.removeCuesOfType .HotCue
  | .clearIntroCue, t => t.removeCuesOfType .Intro
  | .clearOutroCue, t => t.removeCuesOfType .Outro
  | .clearLoopCue, t => t.removeCuesOfType .Loop
  | .clearKey, t => { t with keys := none }
  | .clearReplayGain, t => { t with replayGain := {} }
  | .clearWaveform, t => { t with waveform := none, waveformSummary := none }

/-- One step of a batch: a command applied to one track.  Clearing the waveform
also issues the deletion of the analyses of the track; no other command calls
the backend. -/
def ClearCommand.step (c : ClearCommand) (pTrack : TrackPointer)
    (state : TrackStore × List Call) : TrackStore × List Call :=
  ((fun q => if q = pTrack then c.perTrack (state.1 pTrack) else state.1 q),
    state.2 ++
      (if c = .clearWaveform then [Call.deleteAnalysesForTrack (state.1 pTrack).id] else []))

/-- The steps of "Clear all metadata" in the order of their execution: command
after command in the order of the spec, and within a command the resolved
tracks in resolver order. -/
def clearAllMetadataSteps (m : WTrackMenu) : List (ClearCommand × TrackPointer) :=
  clearAllMetadataOrder.flatMap fun c => (getTrackPointers m).map fun p => (c, p)

/-- "Clear all metadata" as the spec defines it: the steps run one after the
other, starting with no call made. -/
def clearAllMetadataSpec (m : WTrackMenu) (tracks : TrackStore) : TrackStore × List Call :=
  (clearAllMetadataSteps m).foldl (fun state s => s.1.step s.2 state) (tracks, [])

/-! ## Example objects -/

/-- A track model that advertises exactly the capabilities of the given list. -/
def modelWithCaps (caps : List Capability) : TrackModel :=
  { hasCapabilities := fun c => decide (c ∈ caps)
    getTrack := fun i => if i < 100 then some i else none
    getTrackId := fun i => if i < 100 then (i : Int) else -1 }

/-- Three tracks, with ids 10, 11 and 12 at the addresses 0, 1 and 2; every
other address holds a track without a valid id. -/
def threeTracks : TrackStore := fun p =>
  if p < 3 then { id := 10 + (p : Int) } else { id := -1 }

/-- A menu constructed without a track model, with every feature requested that
needs none (all twelve flags but `Remove` and `HideUnhidePurge`), that has the
three tracks selected. -/
def menuOfThree : WTrackMenu :=
  { WTrackMenu.new 3567 none with m_pTrackPointerList := [0, 1, 2] }

/-- A collection with the crate "Favorites" (id 7), which holds two of the
queried tracks, and a playlist "Old" (id 3); new playlists get the id 9. -/
def smallCollection : TrackCollection :=
  { getTrackById := fun id => if 10 ≤ id ∧ id ≤ 12 then some (id - 10).toNat else none
    getPlaylistIdFromName := fun name => if name = "Old" then 3 else -1
    createPlaylist := fun _ => 9
    selectCratesWithTrackCount := fun _ => [{ id := 7, name := "Favorites", trackCount := 2 }]
    createEmptyCrate := 8 }

/-- A library in which crate 7 holds the tracks 10 and 11 and track 12 is hidden. -/
def smallLibrary : Library :=
  { crateTracks := fun c => if c = 7 then {10, 11} else ∅
    hidden := {12} }

/-- A menu constructed with a track model that can add to playlists and edit
metadata, with the features `Playlist` and `BPM` requested. -/
def menuWithModel : WTrackMenu :=
  WTrackMenu.new 132
    (some (modelWithCaps [.TRACKMODELCAPS_ADDTOPLAYLIST, .TRACKMODELCAPS_EDITMETADATA]))

/-- A collection with four playlists in table order: "Rock" (id 1, locked),
"Ambient" (id 2), "Secret" (id 3, hidden) and "Jazz" (id 4). -/
def playlistCollection : TrackCollection :=
  { playlistCount := 4
    getPlaylistId := fun i => i + 1
    getPlaylistName := fun id =>
      if id = 1 then "Rock" else if id = 2 then "Ambient" else if id = 3 then "Secret"
      else "Jazz"
    isHidden := fun id => decide (id = 3)
    isPlaylistLocked := fun id => decide (id = 1) }

/-- Two tracks with tempo grids: the track at address 0 (id 10) is not locked,
the track at address 1 (id 11) is tempo-locked; it has been played four times
and has a hot cue and a loop. -/
def lockedSecond : TrackStore := fun p =>
  if p = 1 then
    { id := 11, bpmLocked := true, beats := some 120, timesPlayed := 4, played := true
      cues := [{ type := .HotCue, position := 5 }, { type := .Loop, position := 9 }]
      waveform := some 1, waveformSummary := some 2 }
  else { id := 10 + (p : Int), beats := some 90 }

/-- The menu with three tracks selected after both submenus were populated. -/
def loadedMenu : WTrackMenu :=
  (slotPopulateCrateMenu (slotPopulatePlaylistMenu menuOfThree playlistCollection).1
    smallCollection threeTracks).1

/-! ## Theorems -/

/-- No feature flag is set in the empty flag word. -/
theorem testFlag_zero (flag : Feature) : testFlag 0 flag.toInt = false := by
  cases flag <;> decide

/-- The active features of a new menu: the requested flags, or none at all when
the constructor finds a source-dependent flag requested without a track model. -/
theorem new_activeFeatures (flags : Features) (trackModel : Option TrackModel) :
    (WTrackMenu.new flags trackModel).m_eActiveFeatures =
      if trackModel.isSome || (Feature.TrackModelFeatures &&& flags) == 0 then flags else 0 := by
  show (WTrackMenu.init flags trackModel).m_eActiveFeatures = _
  unfold WTrackMenu.init
  have h0 : (if Feature.TrackModelFeatures == 0 then 1 else 0 : Nat) = 0 := by decide
  by_cases hc : (trackModel.isSome || (Feature.TrackModelFeatures &&& flags) == 0) = true
  · simp only [hc, if_true]
  · simp only [hc, h0, Nat.and_zero]
    rfl

/-- C1: whatever the track model and its capabilities, a feature that
`featureIsEnabled` reports enabled is in the active feature set of the menu;
and on a freshly constructed menu a feature that was not among the requested
flags is never reported enabled. -/
theorem featureIsEnabled_subset_configured :
    (∀ (m : WTrackMenu) (flag : Feature),
        featureIsEnabled m flag = true → testFlag m.m_eActiveFeatures flag.toInt = true) ∧
    (∀ (flags : Features) (trackModel : Option TrackModel) (flag : Feature),
        testFlag flags flag.toInt = false →
          featureIsEnabled (WTrackMenu.new flags trackModel) flag = false) := by
  have h1 : ∀ (m : WTrackMenu) (flag : Feature),
      featureIsEnabled m flag = true → testFlag m.m_eActiveFeatures flag.toInt = true := by
    intro m flag h
    unfold featureIsEnabled at h
    by_contra hc
    simp [hc] at h
  refine ⟨h1, ?_⟩
  intro flags trackModel flag hflag
  by_contra hen
  have hact := h1 _ flag (by simpa using hen)
  rw [new_activeFeatures] at hact
  split at hact
  · rw [hflag] at hact
    exact Bool.noConfusion hact
  · rw [testFlag_zero] at hact
    exact Bool.noConfusion hact

/-- Witness of C1: a menu without a track model that was asked for `LoadTo` only
reports `LoadTo` enabled and `Crate` disabled. -/
theorem featureIsEnabled_subset_configured_witness :
    testFlag (2 : Features) Feature.LoadTo.toInt = true ∧
      featureIsEnabled (WTrackMenu.new 2 none) Feature.Crate = false :=
  ⟨featureIsEnabled_subset_configured.1 { m_eActiveFeatures := 2 } Feature.LoadTo (by decide),
    featureIsEnabled_subset_configured.2 2 none Feature.Crate (by decide)⟩

/-- Without a track model the answer is: active and not source-dependent. -/
theorem featureIsEnabled_of_none (m : WTrackMenu) (hnone : m.m_pTrackModel = none)
    (flag : Feature) :
    featureIsEnabled m flag =
      (testFlag m.m_eActiveFeatures flag.toInt &&
        !testFlag m.m_eTrackModelFeatures flag.toInt) := by
  unfold featureIsEnabled
  rw [hnone]
  cases testFlag m.m_eActiveFeatures flag.toInt <;> simp

/-- With a track model, `LoadTo` needs one of the three load capabilities. -/
theorem featureIsEnabled_loadTo (m : WTrackMenu) (tm : TrackModel)
    (hsome : m.m_pTrackModel = some tm) :
    featureIsEnabled m Feature.LoadTo =
      (testFlag m.m_eActiveFeatures Feature.LoadTo.toInt &&
        (tm.hasCapabilities .TRACKMODELCAPS_LOADTODECK ||
          tm.hasCapabilities .TRACKMODELCAPS_LOADTOSAMPLER ||
          tm.hasCapabilities .TRACKMODELCAPS_LOADTOPREVIEWDECK)) := by
  unfold featureIsEnabled
  rw [hsome]
  cases testFlag m.m_eActiveFeatures Feature.LoadTo.toInt <;> simp

/-- With a track model, `Remove` needs one of the three remove capabilities. -/
theorem featureIsEnabled_remove (m : WTrackMenu) (tm : TrackModel)
    (hsome : m.m_pTrackModel = some tm) :
    featureIsEnabled m Feature.Remove =
      (testFlag m.m_eActiveFeatures Feature.Remove.toInt &&
        (tm.hasCapabilities .TRACKMODELCAPS_REMOVE ||
          tm.hasCapabilities .TRACKMODELCAPS_REMOVE_PLAYLIST ||
          tm.hasCapabilities .TRACKMODELCAPS_REMOVE_CRATE)) := by
  unfold featureIsEnabled
  rw [hsome]
  cases testFlag m.m_eActiveFeatures Feature.Remove.toInt <;> simp

/-- With a track model, `Reset` needs edit-metadata and reset-played. -/
theorem featureIsEnabled_reset (m : WTrackMenu) (tm : TrackModel)
    (hsome : m.m_pTrackModel = some tm) :
    featureIsEnabled m Feature.Reset =
      (testFlag m.m_eActiveFeatures Feature.Reset.toInt &&
        (tm.hasCapabilities .TRACKMODELCAPS_EDITMETADATA &&
          tm.hasCapabilities .TRACKMODELCAPS_RESETPLAYED)) := by
  unfold featureIsEnabled
  rw [hsome]
  cases testFlag m.m_eActiveFeatures Feature.Reset.toInt <;> simp

/-- With a track model, `HideUnhidePurge` needs hide, unhide or purge. -/
theorem featureIsEnabled_hideUnhidePurge (m : WTrackMenu) (tm : TrackModel)
    (hsome : m.m_pTrackModel = some tm) :
    featureIsEnabled m Feature.HideUnhidePurge =
      (testFlag m.m_eActiveFeatures Feature.HideUnhidePurge.toInt &&
        (tm.hasCapabilities .TRACKMODELCAPS_HIDE ||
          tm.hasCapabilities .TRACKMODELCAPS_UNHIDE ||
          tm.hasCapabilities .TRACKMODELCAPS_PURGE)) := by
  unfold featureIsEnabled
  rw [hsome]
  cases testFlag m.m_eActiveFeatures Feature.HideUnhidePurge.toInt <;> simp

/-- The source-dependent features are `Remove` and `HideUnhidePurge`. -/
theorem trackModelFeatures_iff (flag : Feature) :
    testFlag Feature.TrackModelFeatures flag.toInt = true ↔
      flag = Feature.Remove ∨ flag = Feature.HideUnhidePurge := by
  cases flag <;> decide

/-- A disjunction of three Boolean answers, read as a proposition. -/
theorem or3_of_and_eq_true {a b c d : Bool} (h : (a && (b || c || d)) = true) :
    b = true ∨ c = true ∨ d = true := by
  cases a <;> cases b <;> cases c <;> cases d <;> simp_all

/-- C2: on a menu without a track model `featureIsEnabled` answers true exactly
for the features that are in the active set and not in the source-dependent
set; so a source-dependent feature is never enabled there. -/
theorem featureIsEnabled_without_model (m : WTrackMenu) (hnone : m.m_pTrackModel = none) :
    (∀ flag : Feature,
        featureIsEnabled m flag =
          (testFlag m.m_eActiveFeatures flag.toInt &&
            !testFlag m.m_eTrackModelFeatures flag.toInt)) ∧
    (∀ flag : Feature,
        testFlag m.m_eTrackModelFeatures flag.toInt = true → featureIsEnabled m flag = false) := by
  refine ⟨featureIsEnabled_of_none m hnone, ?_⟩
  intro flag hdep
  rw [featureIsEnabled_of_none m hnone, hdep]
  simp

/-- Witness of C2: without a track model and with every flag requested, `Color`
is enabled and `Remove` is not. -/
theorem featureIsEnabled_without_model_witness :
    featureIsEnabled { m_eActiveFeatures := 4095 } Feature.Color =
        (testFlag 4095 Feature.Color.toInt &&
          !testFlag Feature.TrackModelFeatures Feature.Color.toInt) ∧
      featureIsEnabled { m_eActiveFeatures := 4095 } Feature.Remove = false :=
  ⟨(featureIsEnabled_without_model { m_eActiveFeatures := 4095 } rfl).1 Feature.Color,
    (featureIsEnabled_without_model { m_eActiveFeatures := 4095 } rfl).2 Feature.Remove
      (by decide)⟩

/-- C3: on a menu bound to a track model, `LoadTo`, `Remove` and `Reset` follow
the capability table: `LoadTo` needs one of the three load capabilities,
`Remove` one of the three remove capabilities, `Reset` both edit-metadata and
reset-played; each also has to be in the active set. -/
theorem featureIsEnabled_capability_table (m : WTrackMenu) (tm : TrackModel)
    (hsome : m.m_pTrackModel = some tm) :
    featureIsEnabled m Feature.LoadTo =
        (testFlag m.m_eActiveFeatures Feature.LoadTo.toInt &&
          (tm.hasCapabilities .TRACKMODELCAPS_LOADTODECK ||
            tm.hasCapabilities .TRACKMODELCAPS_LOADTOSAMPLER ||
            tm.hasCapabilities .TRACKMODELCAPS_LOADTOPREVIEWDECK)) ∧
      featureIsEnabled m Feature.Remove =
        (testFlag m.m_eActiveFeatures Feature.Remove.toInt &&
          (tm.hasCapabilities .TRACKMODELCAPS_REMOVE ||
            tm.hasCapabilities .TRACKMODELCAPS_REMOVE_PLAYLIST ||
            tm.hasCapabilities .TRACKMODELCAPS_REMOVE_CRATE)) ∧
      featureIsEnabled m Feature.Reset =
        (testFlag m.m_eActiveFeatures Feature.Reset.toInt &&
          (tm.hasCapabilities .TRACKMODELCAPS_EDITMETADATA &&
            tm.hasCapabilities .TRACKMODELCAPS_RESETPLAYED)) :=
  ⟨featureIsEnabled_loadTo m tm hsome, featureIsEnabled_remove m tm hsome,
    featureIsEnabled_reset m tm hsome⟩

/-- Witness of C3: a model that can only edit metadata does not enable `Reset`,
although it is requested. -/
theorem featureIsEnabled_capability_table_witness :
    featureIsEnabled
        { m_pTrackModel := some (modelWithCaps [.TRACKMODELCAPS_EDITMETADATA])
          m_eActiveFeatures := 4095 } Feature.Reset =
      (testFlag 4095 Feature.Reset.toInt &&
        ((modelWithCaps [.TRACKMODELCAPS_EDITMETADATA]).hasCapabilities
            .TRACKMODELCAPS_EDITMETADATA &&
          (modelWithCaps [.TRACKMODELCAPS_EDITMETADATA]).hasCapabilities
            .TRACKMODELCAPS_RESETPLAYED)) :=
  (featureIsEnabled_capability_table
    { m_pTrackModel := some (modelWithCaps [.TRACKMODELCAPS_EDITMETADATA])
      m_eActiveFeatures := 4095 }
    (modelWithCaps [.TRACKMODELCAPS_EDITMETADATA]) rfl).2.2

/-- C4: bound to a track model without any capability, every source-dependent
feature is disabled; and in general `Remove` (resp. `HideUnhidePurge`) is
enabled only if a track model is bound that has one of the remove (resp. hide,
unhide, purge) capabilities. -/
theorem featureIsEnabled_source_dependent (m : WTrackMenu) :
    (∀ tm : TrackModel, m.m_pTrackModel = some tm →
        (∀ c : Capability, tm.hasCapabilities c = false) →
        ∀ flag : Feature, testFlag Feature.TrackModelFeatures flag.toInt = true →
          featureIsEnabled m flag = false) ∧
    (m.m_eTrackModelFeatures = Feature.TrackModelFeatures →
        (featureIsEnabled m Feature.Remove = true →
          ∃ tm : TrackModel, m.m_pTrackModel = some tm ∧
            (tm.hasCapabilities .TRACKMODELCAPS_REMOVE = true ∨
              tm.hasCapabilities .TRACKMODELCAPS_REMOVE_PLAYLIST = true ∨
              tm.hasCapabilities .TRACKMODELCAPS_REMOVE_CRATE = true)) ∧
        (featureIsEnabled m Feature.HideUnhidePurge = true →
          ∃ tm : TrackModel, m.m_pTrackModel = some tm ∧
            (tm.hasCapabilities .TRACKMODELCAPS_HIDE = true ∨
              tm.hasCapabilities .TRACKMODELCAPS_UNHIDE = true ∨
              tm.hasCapabilities .TRACKMODELCAPS_PURGE = true))) := by
  refine ⟨?_, ?_⟩
  · intro tm hsome hcaps flag hdep
    rcases (trackModelFeatures_iff flag).1 hdep with h | h
    · subst h
      rw [featureIsEnabled_remove m tm hsome]
      simp [hcaps]
    · subst h
      rw [featureIsEnabled_hideUnhidePurge m tm hsome]
      simp [hcaps]
  · intro htmf
    refine ⟨?_, ?_⟩
    · intro hen
      cases hm : m.m_pTrackModel with
      | none =>
        rw [featureIsEnabled_of_none m hm, htmf] at hen
        revert hen
        cases testFlag m.m_eActiveFeatures Feature.Remove.toInt <;> decide
      | some tm =>
        rw [featureIsEnabled_remove m tm hm] at hen
        exact ⟨tm, rfl, or3_of_and_eq_true hen⟩
    · intro hen
      cases hm : m.m_pTrackModel with
      | none =>
        rw [featureIsEnabled_of_none m hm, htmf] at hen
        revert hen
        cases testFlag m.m_eActiveFeatures Feature.HideUnhidePurge.toInt <;> decide
      | some tm =>
        rw [featureIsEnabled_hideUnhidePurge m tm hm] at hen
        exact ⟨tm, rfl, or3_of_and_eq_true hen⟩

/-- Witness of C4: with every flag requested, a model without capabilities
leaves `Remove` disabled, and a menu whose `Remove` is enabled is bound to a
model with a remove capability. -/
theorem featureIsEnabled_source_dependent_witness :
    featureIsEnabled { m_pTrackModel := some (modelWithCaps []), m_eActiveFeatures := 4095 }
        Feature.Remove = false ∧
      ∃ tm : TrackModel,
        (some (modelWithCaps [.TRACKMODELCAPS_REMOVE_CRATE]) : Option TrackModel) = some tm ∧
          (tm.hasCapabilities .TRACKMODELCAPS_REMOVE = true ∨
            tm.hasCapabilities .TRACKMODELCAPS_REMOVE_PLAYLIST = true ∨
            tm.hasCapabilities .TRACKMODELCAPS_REMOVE_CRATE = true) :=
  ⟨(featureIsEnabled_source_dependent
        { m_pTrackModel := some (modelWithCaps []), m_eActiveFeatures := 4095 }).1
      (modelWithCaps []) rfl (fun c => by cases c <;> rfl) Feature.Remove (by decide),
    ((featureIsEnabled_source_dependent
        { m_pTrackModel := some (modelWithCaps [.TRACKMODELCAPS_REMOVE_CRATE])
          m_eActiveFeatures := 4095 }).2 rfl).1 (by decide)⟩

/-- The check box built for a crate shows the crate id and the state given by
the track count of the crate within the selection. -/
theorem entry_checkState (crate : CrateSummary) (trackIds : List TrackId)
    (hlen : trackIds.length < 2147483648) :
    ∃ cb : QCheckBox,
      slotPopulateCrateMenu.entry crate trackIds = MenuItem.widgetAction (!crate.locked) cb ∧
        cb.crateId = crate.id ∧
        cb.checkState =
          if crate.trackCount = 0 then CheckState.Unchecked
          else if crate.trackCount = trackIds.length then CheckState.Checked
          else CheckState.PartiallyChecked := by
  have hu : toUInt trackIds.length = trackIds.length := by
    unfold toUInt
    exact Nat.mod_eq_of_lt (by omega)
  unfold slotPopulateCrateMenu.entry
  rw [hu]
  by_cases h0 : crate.trackCount = 0
  · have hb0 : (crate.trackCount == 0) = true := by simpa using h0
    simp only [hb0, if_true, if_pos h0]
    exact ⟨_, rfl, rfl, rfl⟩
  · have hb0 : (crate.trackCount == 0) = false := by simpa using h0
    by_cases h1 : crate.trackCount = trackIds.length
    · have hb1 : (crate.trackCount == trackIds.length) = true := by simpa using h1
      simp only [hb0, hb1, if_true, if_pos h1, if_neg h0, Bool.false_eq_true, if_false]
      exact ⟨_, rfl, rfl, rfl⟩
    · have hb1 : (crate.trackCount == trackIds.length) = false := by simpa using h1
      simp only [hb0, hb1, if_neg h1, if_neg h0, Bool.false_eq_true, if_false]
      exact ⟨_, rfl, rfl, rfl⟩

/-- C5: when the crate menu is not loaded yet, `slotPopulateCrateMenu` gives
every crate summary of the query, at the position of the summary, a check box
that is unchecked when the track count of the crate is 0, checked when it
equals the number of selected track ids, and partially checked otherwise. -/
theorem slotPopulateCrateMenu_checkState (m : WTrackMenu) (tc : TrackCollection)
    (tracks : TrackStore) (hload : m.m_bCrateMenuLoaded = false)
    (hlen : (getTrackIds m tracks).length < 2147483648) (i : Nat) (crate : CrateSummary)
    (hcrate : (tc.selectCratesWithTrackCount (getTrackIds m tracks))[i]? = some crate) :
    ∃ cb : QCheckBox,
      (slotPopulateCrateMenu m tc tracks).1.ui.m_pCrateMenu[i]? =
          some (MenuItem.widgetAction (!crate.locked) cb) ∧
        cb.crateId = crate.id ∧
        cb.checkState =
          if crate.trackCount = 0 then CheckState.Unchecked
          else if crate.trackCount = (getTrackIds m tracks).length then CheckState.Checked
          else CheckState.PartiallyChecked := by
  obtain ⟨cb, hentry, hid, hstate⟩ := entry_checkState crate (getTrackIds m tracks) hlen
  refine ⟨cb, ?_, hid, hstate⟩
  have hi : i < (tc.selectCratesWithTrackCount (getTrackIds m tracks)).length := by
    by_contra hge
    rw [List.getElem?_eq_none (by omega)] at hcrate
    exact Option.noConfusion hcrate
  unfold slotPopulateCrateMenu
  simp only [hload, Bool.false_eq_true, if_false]
  rw [List.getElem?_append_left (by simpa using hi), List.getElem?_map, hcrate]
  simp [hentry]

/-- Witness of C5: three tracks are selected and the crate "Favorites" holds two
of them, so its check box is partially checked. -/
theorem slotPopulateCrateMenu_checkState_witness :
    ∃ cb : QCheckBox,
      (slotPopulateCrateMenu menuOfThree smallCollection threeTracks).1.ui.m_pCrateMenu[0]? =
          some (MenuItem.widgetAction true cb) ∧
        cb.crateId = 7 ∧ cb.checkState = CheckState.PartiallyChecked :=
  slotPopulateCrateMenu_checkState menuOfThree smallCollection threeTracks rfl (by decide) 0
    { id := 7, name := "Favorites", trackCount := 2 } rfl

/-- The library after `unhideTracks` and `addCrateTracks`: the crate is united
with the ids. -/
theorem run_unhide_add (lib : Library) (crateId : CrateId) (ids : List TrackId) :
    (lib.run [Call.unhideTracks ids, Call.addCrateTracks crateId ids]).crateTracks =
      Function.update lib.crateTracks crateId (lib.crateTracks crateId ∪ ids.toFinset) := by
  simp [Library.run, Library.apply]

/-- The library after `removeCrateTracks`: the ids are taken out of the crate. -/
theorem run_remove (lib : Library) (crateId : CrateId) (ids : List TrackId) :
    (lib.run [Call.removeCrateTracks crateId ids]).crateTracks =
      Function.update lib.crateTracks crateId (lib.crateTracks crateId \ ids.toFinset) := by
  simp [Library.run, Library.apply]

/-- The calls of `updateSelectionCrates` on a ticked check box of an existing
crate. -/
theorem updateSelectionCrates_checked (m : WTrackMenu) (tc : TrackCollection)
    (tracks : TrackStore) (pCheckBox : QCheckBox) (hsel : getTrackIds m tracks ≠ [])
    (hvalid : pCheckBox.crateId.isValid = true) (hchecked : pCheckBox.isChecked = true) :
    (updateSelectionCrates m tc tracks (some pCheckBox)).2 =
      [Call.unhideTracks (getTrackIds m tracks),
        Call.addCrateTracks pCheckBox.crateId (getTrackIds m tracks)] := by
  have hne : (getTrackIds m tracks).isEmpty = false := by
    cases h : getTrackIds m tracks with
    | nil => exact absurd h hsel
    | cons a l => rfl
  have hc : (pCheckBox.setTristate false).isChecked = true := hchecked
  simp [updateSelectionCrates, hne, hc, hvalid]

/-- The calls of `updateSelectionCrates` on a cleared check box of an existing
crate. -/
theorem updateSelectionCrates_unchecked (m : WTrackMenu) (tc : TrackCollection)
    (tracks : TrackStore) (pCheckBox : QCheckBox) (hsel : getTrackIds m tracks ≠ [])
    (hvalid : pCheckBox.crateId.isValid = true) (hchecked : pCheckBox.isChecked = false) :
    (updateSelectionCrates m tc tracks (some pCheckBox)).2 =
      [Call.removeCrateTracks pCheckBox.crateId (getTrackIds m tracks)] := by
  have hne : (getTrackIds m tracks).isEmpty = false := by
    cases h : getTrackIds m tracks with
    | nil => exact absurd h hsel
    | cons a l => rfl
  have hc : (pCheckBox.setTristate false).isChecked = false := hchecked
  simp [updateSelectionCrates, hne, hc, hvalid]

/-- C6: for a selection that is not empty and a check box of a valid crate,
`updateSelectionCrates` on a ticked box calls `unhideTracks` and `addCrateTracks`
with all selected ids, so the crate becomes the old membership united with the
selected ids (the new members are exactly the selected ids that were missing,
old members stay); on a cleared box it calls `removeCrateTracks` with all
selected ids, so the crate becomes the old membership without them.  In both
cases ids outside the selection keep their membership, and other crates stay
as they are. -/
theorem updateSelectionCrates_membership (m : WTrackMenu) (tc : TrackCollection)
    (tracks : TrackStore) (pCheckBox : QCheckBox) (lib : Library)
    (hsel : getTrackIds m tracks ≠ []) (hvalid : pCheckBox.crateId.isValid = true) :
    (pCheckBox.isChecked = true →
        (updateSelectionCrates m tc tracks (some pCheckBox)).2 =
            [Call.unhideTracks (getTrackIds m tracks),
              Call.addCrateTracks pCheckBox.crateId (getTrackIds m tracks)] ∧
          (lib.run (updateSelectionCrates m tc tracks (some pCheckBox)).2).crateTracks
              pCheckBox.crateId =
            lib.crateTracks pCheckBox.crateId ∪ (getTrackIds m tracks).toFinset ∧
          (lib.run (updateSelectionCrates m tc tracks (some pCheckBox)).2).crateTracks
                pCheckBox.crateId \ lib.crateTracks pCheckBox.crateId =
            (getTrackIds m tracks).toFinset \ lib.crateTracks pCheckBox.crateId) ∧
      (pCheckBox.isChecked = false →
        (updateSelectionCrates m tc tracks (some pCheckBox)).2 =
            [Call.removeCrateTracks pCheckBox.crateId (getTrackIds m tracks)] ∧
          (lib.run (updateSelectionCrates m tc tracks (some pCheckBox)).2).crateTracks
              pCheckBox.crateId =
            lib.crateTracks pCheckBox.crateId \ (getTrackIds m tracks).toFinset) ∧
      (∀ t : TrackId, t ∉ getTrackIds m tracks →
        (t ∈ (lib.run (updateSelectionCrates m tc tracks (some pCheckBox)).2).crateTracks
              pCheckBox.crateId ↔
          t ∈ lib.crateTracks pCheckBox.crateId)) ∧
      (∀ other : CrateId, other ≠ pCheckBox.crateId →
        (lib.run (updateSelectionCrates m tc tracks (some pCheckBox)).2).crateTracks other =
          lib.crateTracks other) := by
  cases hchecked : pCheckBox.isChecked with
  | true =>
    have hlog := updateSelectionCrates_checked m tc tracks pCheckBox hsel hvalid hchecked
    rw [hlog, run_unhide_add]
    refine ⟨fun _ => ⟨rfl, ?_, ?_⟩, fun h => Bool.noConfusion h, ?_, ?_⟩
    · simp
    · simp only [Function.update_same]
      ext t
      simp only [Finset.mem_sdiff, Finset.mem_union]
      tauto
    · intro t ht
      simp [ht]
    · intro other hother
      simp [Function.update_noteq hother]
  | false =>
    have hlog := updateSelectionCrates_unchecked m tc tracks pCheckBox hsel hvalid hchecked
    rw [hlog, run_remove]
    refine ⟨fun h => Bool.noConfusion h, fun _ => ⟨rfl, ?_⟩, ?_, ?_⟩
    · simp
    · intro t ht
      simp [ht]
    · intro other hother
      simp [Function.update_noteq hother]

/-- Witness of C6: ticking the partially checked box of crate 7 with the tracks
10, 11 and 12 selected makes the crate hold the old members and the selection. -/
theorem updateSelectionCrates_membership_witness :
    (smallLibrary.run
          (updateSelectionCrates menuOfThree smallCollection threeTracks
            (some { crateId := 7, checked := true, tristate := true, noChange := true })).2).crateTracks
        7 =
      smallLibrary.crateTracks 7 ∪ (getTrackIds menuOfThree threeTracks).toFinset :=
  ((updateSelectionCrates_membership menuOfThree smallCollection threeTracks
      { crateId := 7, checked := true, tristate := true, noChange := true } smallLibrary
      (by decide) (by decide)).1 rfl).2.1

/-- A selection that is not empty passes the `isEmpty` test. -/
theorem isEmpty_eq_false_of_ne_nil {α : Type} {l : List α} (h : l ≠ []) : l.isEmpty = false := by
  cases l with
  | nil => exact absurd rfl h
  | cons a l => rfl

/-- C7: when `createEmptyCrate` returns an invalid crate id, neither
`addSelectionToNewCrate` nor `updateSelectionCrates` (ticked box without a valid
crate id) calls `unhideTracks` or `addCrateTracks`, whatever the selection: for
a selection that is not empty the only call is the failed `createEmptyCrate`.
When the returned id is valid, both add all selected ids to the new crate. -/
theorem crate_creation_all_or_nothing (m : WTrackMenu) (tc : TrackCollection)
    (tracks : TrackStore) (pCheckBox : QCheckBox)
    (hchecked : pCheckBox.isChecked = true) (hnew : pCheckBox.crateId.isValid = false) :
    (tc.createEmptyCrate.isValid = false →
        (∀ c ∈ addSelectionToNewCrate m tc tracks,
            (∀ ids, c ≠ Call.unhideTracks ids) ∧ ∀ id ids, c ≠ Call.addCrateTracks id ids) ∧
          (∀ c ∈ (updateSelectionCrates m tc tracks (some pCheckBox)).2,
            (∀ ids, c ≠ Call.unhideTracks ids) ∧ ∀ id ids, c ≠ Call.addCrateTracks id ids) ∧
          (getTrackIds m tracks ≠ [] →
            addSelectionToNewCrate m tc tracks = [Call.createEmptyCrate] ∧
              (updateSelectionCrates m tc tracks (some pCheckBox)).2 =
                [Call.createEmptyCrate])) ∧
      (tc.createEmptyCrate.isValid = true → getTrackIds m tracks ≠ [] →
        addSelectionToNewCrate m tc tracks =
            [Call.createEmptyCrate, Call.unhideTracks (getTrackIds m tracks),
              Call.addCrateTracks tc.createEmptyCrate (getTrackIds m tracks)] ∧
          (updateSelectionCrates m tc tracks (some pCheckBox)).2 =
            [Call.createEmptyCrate, Call.unhideTracks (getTrackIds m tracks),
              Call.addCrateTracks tc.createEmptyCrate (getTrackIds m tracks)]) := by
  have hc : (pCheckBox.setTristate false).isChecked = true := hchecked
  refine ⟨fun hfail => ?_, fun hok hsel => ?_⟩
  · cases hsel : getTrackIds m tracks with
    | nil =>
      refine ⟨?_, ?_, fun h => absurd rfl h⟩
      · intro c hcmem
        simp only [addSelectionToNewCrate, hsel, List.isEmpty_nil, if_true,
          List.mem_singleton] at hcmem
        subst hcmem
        exact ⟨fun _ h => Call.noConfusion h, fun _ _ h => Call.noConfusion h⟩
      · intro c hcmem
        simp only [updateSelectionCrates, hsel, List.isEmpty_nil, if_true,
          List.mem_singleton] at hcmem
        subst hcmem
        exact ⟨fun _ h => Call.noConfusion h, fun _ _ h => Call.noConfusion h⟩
    | cons a l =>
      have h1 : addSelectionToNewCrate m tc tracks = [Call.createEmptyCrate] := by
        simp [addSelectionToNewCrate, hsel, hfail]
      have h2 : (updateSelectionCrates m tc tracks (some pCheckBox)).2 =
          [Call.createEmptyCrate] := by
        simp [updateSelectionCrates, hsel, hc, hnew, hfail]
      refine ⟨?_, ?_, fun _ => ⟨h1, h2⟩⟩
      · intro c hcmem
        rw [h1, List.mem_singleton] at hcmem
        subst hcmem
        exact ⟨fun _ h => Call.noConfusion h, fun _ _ h => Call.noConfusion h⟩
      · intro c hcmem
        rw [h2, List.mem_singleton] at hcmem
        subst hcmem
        exact ⟨fun _ h => Call.noConfusion h, fun _ _ h => Call.noConfusion h⟩
  · have hne := isEmpty_eq_false_of_ne_nil hsel
    constructor
    · simp [addSelectionToNewCrate, hne, hok]
    · simp [updateSelectionCrates, hne, hc, hnew, hok]

/-- Witness of C7: with three tracks selected and a collection whose crate
creation fails, the only call is `createEmptyCrate`; with one that returns
crate 8 the three ids are added to crate 8. -/
theorem crate_creation_all_or_nothing_witness :
    addSelectionToNewCrate menuOfThree { createEmptyCrate := -1 } threeTracks =
        [Call.createEmptyCrate] ∧
      (updateSelectionCrates menuOfThree smallCollection threeTracks
          (some { checked := true })).2 =
        [Call.createEmptyCrate, Call.unhideTracks (getTrackIds menuOfThree threeTracks),
          Call.addCrateTracks smallCollection.createEmptyCrate
            (getTrackIds menuOfThree threeTracks)] :=
  ⟨(((crate_creation_all_or_nothing menuOfThree { createEmptyCrate := -1 } threeTracks
        { checked := true } rfl rfl).1 rfl).2.2 (by decide)).1,
    ((crate_creation_all_or_nothing menuOfThree smallCollection threeTracks
        { checked := true } rfl rfl).2 rfl (by decide)).2⟩

/-- C9: when no track id is selected, `addSelectionToPlaylist` (for every
playlist id and whatever the user would answer), `updateSelectionCrates`,
`addSelectionToNewCrate` and `addToAutoDJ` only log a warning: they return, make
no call to the collection, show no dialog, and leave the check box as it is. -/
theorem empty_selection_is_noop (m : WTrackMenu) (tc : TrackCollection) (tracks : TrackStore)
    (hempty : getTrackIds m tracks = []) :
    (∀ (iPlaylistId : Int) (answers : List (Bool × String)),
        addSelectionToPlaylist m tc tracks iPlaylistId answers =
          ([Call.qWarning "No tracks selected for playlist"], true)) ∧
      (∀ pCheckBox : QCheckBox,
        updateSelectionCrates m tc tracks (some pCheckBox) =
          (some pCheckBox, [Call.qWarning "No tracks selected for crate"])) ∧
      updateSelectionCrates m tc tracks none =
        (none, [Call.qWarning "crateId is not of CrateId type"]) ∧
      addSelectionToNewCrate m tc tracks = [Call.qWarning "No tracks selected for crate"] ∧
      (∀ loc : AutoDJSendLoc,
        addToAutoDJ m tracks loc = [Call.qWarning "No tracks selected for AutoDJ"]) := by
  refine ⟨?_, ?_, rfl, ?_, ?_⟩
  · intro iPlaylistId answers
    simp [addSelectionToPlaylist, hempty]
  · intro pCheckBox
    simp [updateSelectionCrates, hempty]
  · simp [addSelectionToNewCrate, hempty]
  · intro loc
    simp [addToAutoDJ, hempty]

/-- Witness of C9: a menu with nothing selected asked to create a playlist only
logs the warning, although the user would have given a fine name. -/
theorem empty_selection_is_noop_witness :
    addSelectionToPlaylist {} smallCollection threeTracks (-1) [(true, "New")] =
      ([Call.qWarning "No tracks selected for playlist"], true) :=
  (empty_selection_is_noop {} smallCollection threeTracks rfl).1 (-1) [(true, "New")]

/-- The name dialog loop only shows dialogs and looks names up; and a name it
accepts is not blank and not the name of an existing playlist. -/
theorem nameLoop_spec (tc : TrackCollection) (answers : List (Bool × String)) :
    (∀ c ∈ (addSelectionToPlaylist.nameLoop tc answers).1,
        (∀ n, c ≠ Call.createPlaylist n) ∧ (∀ ids, c ≠ Call.unhideTracks ids) ∧
          ∀ ids pid, c ≠ Call.appendTracksToPlaylist ids pid) ∧
      ∀ name, (addSelectionToPlaylist.nameLoop tc answers).2 = NameLoop.accepted name →
        tc.getPlaylistIdFromName name = -1 ∧ name.isEmpty = false := by
  induction answers with
  | nil =>
    refine ⟨?_, ?_⟩
    · intro c hc
      simp only [addSelectionToPlaylist.nameLoop, List.mem_singleton] at hc
      subst hc
      exact ⟨fun _ h => Call.noConfusion h, fun _ h => Call.noConfusion h,
        fun _ _ h => Call.noConfusion h⟩
    · intro name h
      simp [addSelectionToPlaylist.nameLoop] at h
  | cons a answers ih =>
    obtain ⟨ok, text⟩ := a
    unfold addSelectionToPlaylist.nameLoop
    cases ok with
    | false =>
      refine ⟨?_, ?_⟩
      · intro c hc
        simp only [Bool.not_false, if_true, List.mem_singleton] at hc
        subst hc
        exact ⟨fun _ h => Call.noConfusion h, fun _ h => Call.noConfusion h,
          fun _ _ h => Call.noConfusion h⟩
      · intro name h
        simp at h
    | true =>
      simp only [Bool.not_true, Bool.false_eq_true, if_false]
      by_cases hex : (tc.getPlaylistIdFromName text != -1) = true
      · simp only [hex, if_true]
        refine ⟨?_, ih.2⟩
        intro c hc
        simp only [List.cons_append, List.nil_append, List.mem_cons] at hc
        rcases hc with h | h | h | h
        · subst h
          exact ⟨fun _ h => Call.noConfusion h, fun _ h => Call.noConfusion h,
            fun _ _ h => Call.noConfusion h⟩
        · subst h
          exact ⟨fun _ h => Call.noConfusion h, fun _ h => Call.noConfusion h,
            fun _ _ h => Call.noConfusion h⟩
        · subst h
          exact ⟨fun _ h => Call.noConfusion h, fun _ h => Call.noConfusion h,
            fun _ _ h => Call.noConfusion h⟩
        · exact ih.1 c h
      · simp only [hex, Bool.false_eq_true, if_false]
        have hid : tc.getPlaylistIdFromName text = -1 := by simpa using hex
        by_cases hblank : text.isEmpty = true
        · simp only [hblank, if_true]
          refine ⟨?_, ih.2⟩
          intro c hc
          simp only [List.cons_append, List.nil_append, List.mem_cons] at hc
          rcases hc with h | h | h | h
          · subst h
            exact ⟨fun _ h => Call.noConfusion h, fun _ h => Call.noConfusion h,
              fun _ _ h => Call.noConfusion h⟩
          · subst h
            exact ⟨fun _ h => Call.noConfusion h, fun _ h => Call.noConfusion h,
              fun _ _ h => Call.noConfusion h⟩
          · subst h
            exact ⟨fun _ h => Call.noConfusion h, fun _ h => Call.noConfusion h,
              fun _ _ h => Call.noConfusion h⟩
          · exact ih.1 c h
        · simp only [hblank, Bool.false_eq_true, if_false]
          refine ⟨?_, ?_⟩
          · intro c hc
            simp only [List.mem_cons, List.mem_singleton, List.not_mem_nil, or_false] at hc
            rcases hc with h | h
            · subst h
              exact ⟨fun _ h => Call.noConfusion h, fun _ h => Call.noConfusion h,
                fun _ _ h => Call.noConfusion h⟩
            · subst h
              exact ⟨fun _ h => Call.noConfusion h, fun _ h => Call.noConfusion h,
                fun _ _ h => Call.noConfusion h⟩
          · intro name h
            have hname : text = name := by simpa using h
            subst hname
            exact ⟨hid, by simpa using hblank⟩

/-- The name dialog loop ends as soon as the user cancels or gives a name that
is neither blank nor taken. -/
theorem nameLoop_ends (tc : TrackCollection) (answers : List (Bool × String))
    (h : ∃ a ∈ answers, a.1 = false ∨ (tc.getPlaylistIdFromName a.2 = -1 ∧ a.2.isEmpty = false)) :
    (addSelectionToPlaylist.nameLoop tc answers).2 ≠ NameLoop.waiting := by
  induction answers with
  | nil =>
    obtain ⟨a, ha, _⟩ := h
    exact absurd ha (List.not_mem_nil a)
  | cons b answers ih =>
    obtain ⟨ok, text⟩ := b
    unfold addSelectionToPlaylist.nameLoop
    cases ok with
    | false => simp
    | true =>
      simp only [Bool.not_true, Bool.false_eq_true, if_false]
      have hrest : (tc.getPlaylistIdFromName text != -1) = true ∨ text.isEmpty = true →
          (addSelectionToPlaylist.nameLoop tc answers).2 ≠ NameLoop.waiting := by
        intro hbad
        apply ih
        obtain ⟨a, ha, hgood⟩ := h
        rcases List.mem_cons.1 ha with hab | hin
        · subst hab
          rcases hgood with hg | ⟨hg1, hg2⟩
          · exact Bool.noConfusion hg
          · rcases hbad with hb | hb
            · simp [hg1] at hb
            · simp only at hg2
              rw [hg2] at hb
              exact Bool.noConfusion hb
        · exact ⟨a, hin, hgood⟩
      by_cases hex : (tc.getPlaylistIdFromName text != -1) = true
      · simp only [hex, if_true]
        exact hrest (Or.inl hex)
      · simp only [hex, Bool.false_eq_true, if_false]
        by_cases hblank : text.isEmpty = true
        · simp only [hblank, if_true]
          exact hrest (Or.inr hblank)
        · simp [hblank]

/-- C8: `addSelectionToPlaylist` called with -1 for a new playlist, whatever the
selection and the answers of the user: `createPlaylist` is only called with a
name for which no playlist exists; tracks are only appended to the id that
`createPlaylist` returned for such a name, never to -1; and when
`createPlaylist` returns -1 the function returns without calling
`unhideTracks` or `appendTracksToPlaylist`.  The function returns as soon as
the user cancels or gives a usable name. -/
theorem addSelectionToPlaylist_new_playlist (m : WTrackMenu) (tc : TrackCollection)
    (tracks : TrackStore) (answers : List (Bool × String)) :
    (∀ name, Call.createPlaylist name ∈ (addSelectionToPlaylist m tc tracks (-1) answers).1 →
        tc.getPlaylistIdFromName name = -1) ∧
      (∀ ids pid,
        Call.appendTracksToPlaylist ids pid ∈
            (addSelectionToPlaylist m tc tracks (-1) answers).1 →
          pid ≠ -1 ∧
            ∃ name, Call.createPlaylist name ∈
                  (addSelectionToPlaylist m tc tracks (-1) answers).1 ∧
                tc.getPlaylistIdFromName name = -1 ∧ pid = tc.createPlaylist name) ∧
      (∀ name, Call.createPlaylist name ∈ (addSelectionToPlaylist m tc tracks (-1) answers).1 →
        tc.createPlaylist name = -1 →
          (addSelectionToPlaylist m tc tracks (-1) answers).2 = true ∧
            (∀ ids, Call.unhideTracks ids ∉
                (addSelectionToPlaylist m tc tracks (-1) answers).1) ∧
            ∀ ids pid, Call.appendTracksToPlaylist ids pid ∉
                (addSelectionToPlaylist m tc tracks (-1) answers).1) ∧
      ((∃ a ∈ answers,
          a.1 = false ∨ (tc.getPlaylistIdFromName a.2 = -1 ∧ a.2.isEmpty = false)) →
        (addSelectionToPlaylist m tc tracks (-1) answers).2 = true) := by
  have hloop := nameLoop_spec tc answers
  have hends := nameLoop_ends tc answers
  unfold addSelectionToPlaylist
  by_cases hemp : (getTrackIds m tracks).isEmpty = true
  · simp [hemp]
  · simp only [hemp, Bool.false_eq_true, if_false, beq_self_eq_true, if_true]
    rcases hres : addSelectionToPlaylist.nameLoop tc answers with ⟨log, res⟩
    rw [hres] at hloop hends
    obtain ⟨hlog, hacc⟩ := hloop
    simp only at hlog hacc hends
    cases res with
    | cancelled =>
      simp only
      refine ⟨?_, ?_, ?_, fun _ => trivial⟩
      · intro name hmem
        exact absurd rfl ((hlog _ hmem).1 name)
      · intro ids pid hmem
        exact absurd rfl ((hlog _ hmem).2.2 ids pid)
      · intro name hmem
        exact absurd rfl ((hlog _ hmem).1 name)
    | waiting =>
      simp only
      refine ⟨?_, ?_, ?_, fun h => absurd rfl (hends h)⟩
      · intro name hmem
        exact absurd rfl ((hlog _ hmem).1 name)
      · intro ids pid hmem
        exact absurd rfl ((hlog _ hmem).2.2 ids pid)
      · intro name hmem
        exact absurd rfl ((hlog _ hmem).1 name)
    | accepted name =>
      obtain ⟨hfree, _⟩ := hacc name rfl
      have hcreate : ∀ (rest : List Call) (n : String),
          (∀ c ∈ rest, ∀ k, c ≠ Call.createPlaylist k) →
          Call.createPlaylist n ∈ log ++ Call.createPlaylist name :: rest → n = name := by
        intro rest n hrest hmem
        rcases List.mem_append.1 hmem with h | h
        · exact absurd rfl ((hlog _ h).1 n)
        · rcases List.mem_cons.1 h with h | h
          · exact Call.createPlaylist.inj h
          · exact absurd rfl (hrest _ h n)
      simp only
      by_cases hfail : (tc.createPlaylist name == -1) = true
      · have hfail2 : tc.createPlaylist name = -1 := by simpa using hfail
        simp only [hfail, if_true]
        have hno : ∀ c ∈ log ++ [Call.createPlaylist name,
            Call.warning "Playlist Creation Failed"
              ("An unknown error occurred while creating playlist: " ++ name)],
            (∀ ids, c ≠ Call.unhideTracks ids) ∧
              ∀ ids pid, c ≠ Call.appendTracksToPlaylist ids pid := by
          intro c hc
          rcases List.mem_append.1 hc with h | h
          · exact ⟨(hlog _ h).2.1, (hlog _ h).2.2⟩
          · simp only [List.mem_cons, List.mem_singleton, List.not_mem_nil, or_false] at h
            rcases h with h | h <;> subst h <;>
              exact ⟨fun _ h => Call.noConfusion h, fun _ _ h => Call.noConfusion h⟩
        refine ⟨?_, ?_, ?_, fun _ => trivial⟩
        · intro n hmem
          have := hcreate _ n (by simp) hmem
          rw [this]
          exact hfree
        · intro ids pid hmem
          exact absurd rfl ((hno _ hmem).2 ids pid)
        · intro n _ _
          exact ⟨trivial, fun ids hmem => absurd rfl ((hno _ hmem).1 ids),
            fun ids pid hmem => absurd rfl ((hno _ hmem).2 ids pid)⟩
      · have hok : tc.createPlaylist name ≠ -1 := by simpa using hfail
        simp only [hfail, Bool.false_eq_true, if_false]
        refine ⟨?_, ?_, ?_, fun _ => trivial⟩
        · intro n hmem
          have := hcreate _ n (by simp) hmem
          rw [this]
          exact hfree
        · intro ids pid hmem
          rcases List.mem_append.1 hmem with h | h
          · exact absurd rfl ((hlog _ h).2.2 ids pid)
          · simp only [List.mem_cons, List.mem_singleton, List.not_mem_nil, or_false] at h
            rcases h with h | h | h
            · exact Call.noConfusion h
            · exact Call.noConfusion h
            · have hpid : pid = tc.createPlaylist name := (Call.appendTracksToPlaylist.inj h).2
              exact ⟨by rw [hpid]; exact hok,
                name, List.mem_append_right _ (List.mem_cons_self _ _), hfree, hpid⟩
        · intro n hmem hbad
          have := hcreate _ n (by simp) hmem
          rw [this] at hbad
          exact absurd hbad hok

/-- Witness of C8: the user first types the name of an existing playlist, then
a blank name, then "New".  With a collection that creates playlist 9 the three
tracks are appended to playlist 9, which was created under the free name; with
one whose `createPlaylist` fails nothing is unhidden or appended. -/
theorem addSelectionToPlaylist_new_playlist_witness :
    ((9 : Int) ≠ -1 ∧
        ∃ name, Call.createPlaylist name ∈
              (addSelectionToPlaylist menuOfThree smallCollection threeTracks (-1)
                [(true, "Old"), (true, ""), (true, "New")]).1 ∧
            smallCollection.getPlaylistIdFromName name = -1 ∧
            9 = smallCollection.createPlaylist name) ∧
      ((addSelectionToPlaylist menuOfThree {} threeTracks (-1) [(true, ""), (true, "New")]).2 =
          true ∧
        (∀ ids, Call.unhideTracks ids ∉
            (addSelectionToPlaylist menuOfThree {} threeTracks (-1)
              [(true, ""), (true, "New")]).1) ∧
        ∀ ids pid, Call.appendTracksToPlaylist ids pid ∉
            (addSelectionToPlaylist menuOfThree {} threeTracks (-1)
              [(true, ""), (true, "New")]).1) :=
  ⟨(addSelectionToPlaylist_new_playlist menuOfThree smallCollection threeTracks
        [(true, "Old"), (true, ""), (true, "New")]).2.1 [10, 11, 12] 9 (by decide),
    (addSelectionToPlaylist_new_playlist menuOfThree {} threeTracks
        [(true, ""), (true, "New")]).2.2.1 "New" (by decide) rfl⟩

/-- A run that succeeds, followed by a guarded block that succeeds under its
guard, succeeds. -/
theorem guarded_ok (x : Except Fault Widgets) (enabled : Bool)
    (block : Widgets → Except Fault Widgets) (hx : ∃ w, x = .ok w)
    (hblock : enabled = true → ∀ w, ∃ w', block w = .ok w') :
    ∃ w', (x >>= updateMenus.guarded enabled block) = .ok w' := by
  obtain ⟨w, rfl⟩ := hx
  cases enabled with
  | true => exact hblock rfl w
  | false => exact ⟨w, rfl⟩

/-- A block behind a pointer that is not null does not fail when the block does
not. -/
theorem deref_ok (block : Widgets → Except Fault Widgets) (w : Widgets)
    (hblock : ∃ w', block w = .ok w') : ∃ w', updateMenus.deref true block w = .ok w' :=
  hblock

/-- A block behind a pointer ended well: the pointer was not null, and the block
ended well. -/
theorem deref_inv {created : Bool} {block : Widgets → Except Fault Widgets} {w w' : Widgets}
    (h : updateMenus.deref created block w = .ok w') : created = true ∧ block w = .ok w' := by
  cases created with
  | true => exact ⟨rfl, h⟩
  | false => exact Except.noConfusion h

/-- The `Remove` block does not fail when a track model is set and the actions
of `Remove` exist. -/
theorem remove_ok (pTrackModel : Option TrackModel) (w : Widgets)
    (h : pTrackModel.isSome = true) :
    ∃ w', updateMenus.remove pTrackModel true w = .ok w' := by
  cases pTrackModel with
  | none => exact Bool.noConfusion h
  | some tm =>
    simp only [updateMenus.remove]
    cases tm.hasCapabilities .TRACKMODELCAPS_REMOVE <;>
      cases tm.hasCapabilities .TRACKMODELCAPS_REMOVE_PLAYLIST <;>
        cases tm.hasCapabilities .TRACKMODELCAPS_REMOVE_CRATE <;> exact ⟨_, rfl⟩

/-- The `HideUnhidePurge` block does not fail when a track model is set and the
actions of `HideUnhidePurge` exist. -/
theorem hideUnhidePurge_ok (pTrackModel : Option TrackModel) (w : Widgets)
    (h : pTrackModel.isSome = true) :
    ∃ w', updateMenus.hideUnhidePurge pTrackModel true w = .ok w' := by
  cases pTrackModel with
  | none => exact Bool.noConfusion h
  | some tm =>
    simp only [updateMenus.hideUnhidePurge]
    cases tm.hasCapabilities .TRACKMODELCAPS_HIDE <;>
      cases tm.hasCapabilities .TRACKMODELCAPS_UNHIDE <;>
        cases tm.hasCapabilities .TRACKMODELCAPS_PURGE <;> exact ⟨_, rfl⟩

/-- The `Metadata` block does not fail on a list of tracks that is not empty. -/
theorem metadata_ok (tracks : TrackStore) (trackPointers : List TrackPointer) (single : Bool)
    (w : Widgets) (h : trackPointers ≠ []) :
    ∃ w', updateMenus.metadata tracks trackPointers single w = .ok w' := by
  unfold updateMenus.metadata
  cases hl : trackPointers.getLast? with
  | none => exact absurd (List.getLast?_eq_none_iff.1 hl) h
  | some p => exact ⟨_, rfl⟩

/-- The `Color` block does not fail on a list of tracks that is not empty. -/
theorem color_ok (ctl : Controls) (tracks : TrackStore) (trackPointers : List TrackPointer)
    (w : Widgets) (h : trackPointers ≠ []) :
    ∃ w', updateMenus.color ctl tracks trackPointers w = .ok w' := by
  cases trackPointers with
  | nil => exact absurd rfl h
  | cons p rest =>
    unfold updateMenus.color
    simp only
    split
    · exact ⟨_, rfl⟩
    · exact ⟨_, rfl⟩

/-- The widgets can be updated without a fault when some track is selected, the
features that need the track model are only enabled when there is one, and the
menus and actions of every enabled feature exist. -/
theorem widgets_ok (m : WTrackMenu) (ctl : Controls) (tracks : TrackStore)
    (hsel : getTrackPointers m ≠ [])
    (hrem : featureIsEnabled m .Remove = true → m.m_pTrackModel.isSome = true)
    (hhup : featureIsEnabled m .HideUnhidePurge = true → m.m_pTrackModel.isSome = true)
    (hcreated : ∀ flag : Feature, featureIsEnabled m flag = true → flag ∈ m.ui.created) :
    ∃ w, updateMenus.widgets m ctl tracks = .ok w := by
  have hc : ∀ flag : Feature, featureIsEnabled m flag = true → m.ui.has flag = true :=
    fun flag h => decide_eq_true (hcreated flag h)
  unfold updateMenus.widgets
  refine guarded_ok _ _ _ ?_ (fun h w => by rw [hc _ h]; exact ⟨_, rfl⟩)
  refine guarded_ok _ _ _ ?_ (fun h w => by rw [hc _ h]; exact hideUnhidePurge_ok _ w (hhup h))
  refine guarded_ok _ _ _ ?_ (fun h w => by rw [hc _ h]; exact color_ok _ _ _ w hsel)
  refine guarded_ok _ _ _ ?_ (fun h w => by rw [hc _ h]; exact ⟨_, rfl⟩)
  refine guarded_ok _ _ _ ?_ (fun h w => by rw [hc _ h]; exact ⟨_, rfl⟩)
  refine guarded_ok _ _ _ ?_ (fun h w => by rw [hc _ h]; exact metadata_ok _ _ _ w hsel)
  refine guarded_ok _ _ _ ?_ (fun h w => by rw [hc _ h]; exact remove_ok _ w (hrem h))
  refine guarded_ok _ _ _ ?_ (fun h w => by rw [hc _ h]; exact ⟨_, rfl⟩)
  exact ⟨_, rfl⟩

/-- When the widgets can be updated, `updateMenus` succeeds and leaves the track
model, the feature sets and both selection lists as they were. -/
theorem updateMenus_ok (m : WTrackMenu) (ctl : Controls) (tracks : TrackStore)
    (h : ∃ w, updateMenus.widgets m ctl tracks = .ok w) :
    ∃ m', updateMenus m ctl tracks = .ok m' ∧ m'.m_pTrackModel = m.m_pTrackModel ∧
      m'.m_eActiveFeatures = m.m_eActiveFeatures ∧
      m'.m_eTrackModelFeatures = m.m_eTrackModelFeatures ∧
      m'.m_pTrackPointerList = m.m_pTrackPointerList ∧
      m'.m_pTrackIndexList = m.m_pTrackIndexList := by
  obtain ⟨w, hw⟩ := h
  unfold updateMenus
  rw [hw]
  exact ⟨_, rfl, rfl, rfl, rfl, rfl, rfl⟩

/-- Re-resolving the indices that resolved gives the tracks of the input. -/
theorem filterMap_filter_isSome {α β : Type} (f : α → Option β) (l : List α) :
    (l.filter fun a => (f a).isSome).filterMap f = l.filterMap f := by
  induction l with
  | nil => rfl
  | cons a l ih =>
    cases h : f a with
    | none => simp [List.filter_cons, List.filterMap_cons, h, ih]
    | some b => simp [List.filter_cons, List.filterMap_cons, h, ih]

/-- What a successful `updateMenus` leaves behind: the track model, the feature
sets and both selection lists are untouched, the widgets are those computed by
the blocks, and each loaded flag is reset when its feature is enabled. -/
theorem updateMenus_inv (m m' : WTrackMenu) (ctl : Controls) (tracks : TrackStore)
    (h : updateMenus m ctl tracks = .ok m') :
    m'.m_pTrackModel = m.m_pTrackModel ∧ m'.m_eActiveFeatures = m.m_eActiveFeatures ∧
      m'.m_eTrackModelFeatures = m.m_eTrackModelFeatures ∧
      m'.m_pTrackPointerList = m.m_pTrackPointerList ∧
      m'.m_pTrackIndexList = m.m_pTrackIndexList ∧
      updateMenus.widgets m ctl tracks = .ok m'.ui ∧
      m'.m_bPlaylistMenuLoaded =
        (if featureIsEnabled m .Playlist then false else m.m_bPlaylistMenuLoaded) ∧
      m'.m_bCrateMenuLoaded =
        (if featureIsEnabled m .Crate then false else m.m_bCrateMenuLoaded) := by
  unfold updateMenus at h
  cases hw : updateMenus.widgets m ctl tracks with
  | error e =>
    rw [hw] at h
    exact Except.noConfusion h
  | ok w =>
    rw [hw] at h
    have hm : m' = _ := (Except.ok.inj h).symm
    subst hm
    exact ⟨rfl, rfl, rfl, rfl, rfl, rfl, rfl, rfl⟩

/-- After a successful `loadTracks(TrackIdList)` the index list is empty. -/
theorem loadTracks_TrackIdList_indexList (m m' : WTrackMenu) (tc : TrackCollection)
    (ctl : Controls) (tracks : TrackStore) (trackIdList : List TrackId)
    (h : loadTracks_TrackIdList m tc ctl tracks trackIdList = .ok m') :
    m'.m_pTrackIndexList = [] := by
  unfold loadTracks_TrackIdList at h
  simp only [clearTrackSelection] at h
  split at h
  · rw [(updateMenus_inv _ _ _ _ h).2.2.2.2.1]
  · rw [← Except.ok.inj h]

/-- After a successful `loadTracks(QModelIndexList)` the pointer list is empty. -/
theorem loadTracks_QModelIndexList_pointerList (m m' : WTrackMenu) (ctl : Controls)
    (tracks : TrackStore) (indexList : List QModelIndex)
    (h : loadTracks_QModelIndexList m ctl tracks indexList = .ok m') :
    m'.m_pTrackPointerList = [] := by
  unfold loadTracks_QModelIndexList at h
  simp only [clearTrackSelection] at h
  split at h
  · rw [← Except.ok.inj h]
  · split at h
    · rw [(updateMenus_inv _ _ _ _ h).2.2.2.1]
    · rw [← Except.ok.inj h]

/-- C11: in every state that can be reached from the construction of the menu by
calls of `loadTracks`, `loadTrack` (both overloads) and `clearTrackSelection`,
the list of track pointers or the list of indices is empty: the two are never
populated together. -/
theorem selection_lists_exclusive (m : WTrackMenu) (h : Reachable m) :
    m.m_pTrackPointerList = [] ∨ m.m_pTrackIndexList = [] := by
  induction h with
  | construct flags trackModel =>
    left
    show (WTrackMenu.init flags trackModel).m_pTrackPointerList = []
    unfold WTrackMenu.init
    simp only
    split <;> rfl
  | loadTracks_TrackIdList tc ctl tracks trackIdList _ hstep _ =>
    exact Or.inr (loadTracks_TrackIdList_indexList _ _ tc ctl tracks trackIdList hstep)
  | loadTracks_QModelIndexList ctl tracks indexList _ hstep _ =>
    exact Or.inl (loadTracks_QModelIndexList_pointerList _ _ ctl tracks indexList hstep)
  | loadTrack_TrackId tc ctl tracks trackId _ hstep _ =>
    exact Or.inr (loadTracks_TrackIdList_indexList _ _ tc ctl tracks [trackId] hstep)
  | loadTrack_QModelIndex ctl tracks index _ hstep _ =>
    exact Or.inl (loadTracks_QModelIndexList_pointerList _ _ ctl tracks [index] hstep)
  | clearTrackSelection _ _ => exact Or.inl rfl
  | modelChanges tm tm' _ _ ih => exact ih

/-- Witness of C11: a new menu without a track model loads the tracks 10 and 12,
then the single track 11; the state it ends in has no stored index. -/
theorem selection_lists_exclusive_witness :
    ∃ m₁ m₂, loadTracks_TrackIdList (WTrackMenu.new 132 none) smallCollection {} threeTracks
          [10, 12] = .ok m₁ ∧
        loadTrack_TrackId m₁ smallCollection {} threeTracks 11 = .ok m₂ ∧
        m₂.m_pTrackPointerList = [1] ∧
        (m₂.m_pTrackPointerList = [] ∨ m₂.m_pTrackIndexList = []) :=
  ⟨_, _, rfl, rfl, rfl,
    selection_lists_exclusive _
      (Reachable.loadTrack_TrackId smallCollection {} threeTracks 11
        (Reachable.loadTracks_TrackIdList smallCollection {} threeTracks [10, 12]
          (Reachable.construct 132 none) rfl)
        rfl)⟩

/-- C12: the id overload of `loadTracks` on a menu that was constructed with a
track model does not stop at its assertion.  Given the id 10 it stores the
track found for it and updates the menus ("Unlock BPM" is switched off); with
every feature requested it goes on to read the last of an empty list of
tracks.  The index overload on a menu without a track model returns with the
selection cleared and the menus untouched. -/
theorem loadTracks_wrong_mode :
    (∃ m', loadTracks_TrackIdList menuWithModel smallCollection {} threeTracks [10] = .ok m' ∧
        m'.m_pTrackPointerList = [0] ∧
        menuWithModel.ui.m_pBpmUnlockAction.enabled = true ∧
        m'.ui.m_pBpmUnlockAction.enabled = false) ∧
      loadTracks_TrackIdList
          (WTrackMenu.new 4095 (some (modelWithCaps [.TRACKMODELCAPS_EDITMETADATA])))
          smallCollection {} threeTracks [10] =
        .error Fault.indexOutOfRange ∧
      loadTracks_QModelIndexList menuOfThree {} threeTracks [5] =
        .ok (clearTrackSelection menuOfThree) :=
  ⟨⟨_, rfl, rfl, rfl, rfl⟩, rfl, rfl⟩

/-- Keeping the valid ids of a list of indices, written with `filter` and `map`. -/
theorem filterMap_valid_ids (getTrackId : QModelIndex → TrackId) (indices : List QModelIndex) :
    (indices.filterMap fun index =>
        let trackId := getTrackId index
        if trackId.isValid then some trackId else none) =
      (indices.filter fun index => (getTrackId index).isValid).map getTrackId := by
  induction indices with
  | nil => rfl
  | cons i rest ih =>
    cases h : (getTrackId i).isValid with
    | true => simp [List.filterMap_cons, List.filter_cons, h, ih]
    | false => simp [List.filterMap_cons, List.filter_cons, h, ih]

/-- C13: with a track model `getTrackIds` returns, in stored order, the track id
the model gives for exactly those stored indices whose id is valid, so every
returned id is valid; without a track model it returns the ids of the stored
track pointers in stored order, as many as `getTrackPointers` returns. -/
theorem getTrackIds_of_mode (m : WTrackMenu) (tracks : TrackStore) :
    (∀ tm : TrackModel, m.m_pTrackModel = some tm →
        getTrackIds m tracks =
            (m.m_pTrackIndexList.filter fun index => (tm.getTrackId index).isValid).map
              tm.getTrackId ∧
          ∀ id ∈ getTrackIds m tracks, id.isValid = true) ∧
      (m.m_pTrackModel = none →
        getTrackIds m tracks = m.m_pTrackPointerList.map (fun pTrack => (tracks pTrack).id) ∧
          getTrackPointers m = m.m_pTrackPointerList ∧
          (getTrackIds m tracks).length = (getTrackPointers m).length) := by
  refine ⟨?_, ?_⟩
  · intro tm hsome
    have heq : getTrackIds m tracks =
        (m.m_pTrackIndexList.filter fun index => (tm.getTrackId index).isValid).map
          tm.getTrackId := by
      unfold getTrackIds
      rw [hsome]
      exact filterMap_valid_ids tm.getTrackId (getTrackIndices m)
    refine ⟨heq, ?_⟩
    intro id hid
    rw [heq] at hid
    obtain ⟨i, hi, rfl⟩ := List.mem_map.1 hid
    exact (List.mem_filter.1 hi).2
  · intro hnone
    have h1 : getTrackIds m tracks =
        m.m_pTrackPointerList.map (fun pTrack => (tracks pTrack).id) := by
      unfold getTrackIds
      rw [hnone]
    have h2 : getTrackPointers m = m.m_pTrackPointerList := by
      unfold getTrackPointers
      rw [hnone]
    exact ⟨h1, h2, by rw [h1, h2, List.length_map]⟩

/-- Witness of C13: a menu bound to a model whose rows below 100 have valid ids
stores the rows 5, 200 and 7 and reports the ids 5 and 7; the menu with three
tracks selected reports three ids. -/
theorem getTrackIds_of_mode_witness :
    getTrackIds
          { m_pTrackModel := some (modelWithCaps []), m_pTrackIndexList := [5, 200, 7] }
          threeTracks =
        ([5, 200, 7].filter fun index => ((modelWithCaps []).getTrackId index).isValid).map
          (modelWithCaps []).getTrackId ∧
      (getTrackIds menuOfThree threeTracks).length = (getTrackPointers menuOfThree).length :=
  ⟨((getTrackIds_of_mode
        { m_pTrackModel := some (modelWithCaps []), m_pTrackIndexList := [5, 200, 7] }
        threeTracks).1 (modelWithCaps []) rfl).1,
    ((getTrackIds_of_mode menuOfThree threeTracks).2 rfl).2.2⟩

/-- C16: without a track model `slotRemove`, `slotHide`, `slotUnhide` and
`slotPurge` make no call at all; with a track model each passes exactly the
stored index list to `removeTracks`, `hideTracks`, `unhideTracks` resp.
`purgeTracks` of the model when that list is not empty, and makes no call when
it is empty. -/
theorem destructive_slots_need_indices (m : WTrackMenu) :
    (m.m_pTrackModel = none →
        slotRemove m = [] ∧ slotHide m = [] ∧ slotUnhide m = [] ∧ slotPurge m = []) ∧
      (∀ tm : TrackModel, m.m_pTrackModel = some tm →
        (m.m_pTrackIndexList ≠ [] →
          slotRemove m = [Call.TrackModel_removeTracks m.m_pTrackIndexList] ∧
            slotHide m = [Call.TrackModel_hideTracks m.m_pTrackIndexList] ∧
            slotUnhide m = [Call.TrackModel_unhideTracks m.m_pTrackIndexList] ∧
            slotPurge m = [Call.TrackModel_purgeTracks m.m_pTrackIndexList]) ∧
        (m.m_pTrackIndexList = [] →
          slotRemove m = [] ∧ slotHide m = [] ∧ slotUnhide m = [] ∧ slotPurge m = [])) := by
  refine ⟨?_, ?_⟩
  · intro hnone
    simp [slotRemove, slotHide, slotUnhide, slotPurge, hnone]
  · intro tm hsome
    refine ⟨?_, ?_⟩
    · intro hne
      have h := isEmpty_eq_false_of_ne_nil hne
      simp [slotRemove, slotHide, slotUnhide, slotPurge, hsome, getTrackIndices, h]
    · intro hnil
      simp [slotRemove, slotHide, slotUnhide, slotPurge, hsome, getTrackIndices, hnil]

/-- Witness of C16: the menu with three tracks and no track model removes
nothing; a menu bound to a model with the rows 4 and 9 stored passes these rows
to `purgeTracks`. -/
theorem destructive_slots_need_indices_witness :
    slotRemove menuOfThree = [] ∧
      slotPurge { m_pTrackModel := some (modelWithCaps []), m_pTrackIndexList := [4, 9] } =
        [Call.TrackModel_purgeTracks [4, 9]] :=
  ⟨((destructive_slots_need_indices menuOfThree).1 rfl).1,
    (((destructive_slots_need_indices
        { m_pTrackModel := some (modelWithCaps []), m_pTrackIndexList := [4, 9] }).2
      (modelWithCaps []) rfl).1 (by decide)).2.2.2⟩

/-- A populate slot whose menu is loaded changes nothing and asks nothing. -/
theorem populate_of_loaded (m : WTrackMenu) (tc : TrackCollection) (tracks : TrackStore) :
    (m.m_bPlaylistMenuLoaded = true → slotPopulatePlaylistMenu m tc = (m, [])) ∧
      (m.m_bCrateMenuLoaded = true → slotPopulateCrateMenu m tc tracks = (m, [])) := by
  refine ⟨?_, ?_⟩
  · intro h
    simp [slotPopulatePlaylistMenu, h]
  · intro h
    simp [slotPopulateCrateMenu, h]

/-- After a populate slot the menu it fills is loaded, and the flag of the other
menu is as before. -/
theorem populate_sets_loaded (m : WTrackMenu) (tc : TrackCollection) (tracks : TrackStore) :
    (slotPopulatePlaylistMenu m tc).1.m_bPlaylistMenuLoaded = true ∧
      (slotPopulateCrateMenu m tc tracks).1.m_bCrateMenuLoaded = true ∧
      (slotPopulatePlaylistMenu m tc).1.m_bCrateMenuLoaded = m.m_bCrateMenuLoaded ∧
      (slotPopulateCrateMenu m tc tracks).1.m_bPlaylistMenuLoaded = m.m_bPlaylistMenuLoaded := by
  refine ⟨?_, ?_, ?_, ?_⟩
  · unfold slotPopulatePlaylistMenu
    cases h : m.m_bPlaylistMenuLoaded <;> simp [h]
  · unfold slotPopulateCrateMenu
    cases h : m.m_bCrateMenuLoaded <;> simp [h]
  · unfold slotPopulatePlaylistMenu
    cases h : m.m_bPlaylistMenuLoaded <;> simp
  · unfold slotPopulateCrateMenu
    cases h : m.m_bCrateMenuLoaded <;> simp

/-- C17: once `slotPopulatePlaylistMenu` (resp. `slotPopulateCrateMenu`) has run,
every further run of it, whatever the collection then answers and whether or
not the other submenu was populated in between, makes no call and returns the
menu object as it is: entries and loaded flag are unchanged. -/
theorem populate_cache_hit (m : WTrackMenu) (tc tc₁ tc₂ : TrackCollection)
    (tracks tracks₁ tracks₂ : TrackStore) :
    slotPopulatePlaylistMenu (slotPopulatePlaylistMenu m tc).1 tc₂ =
        ((slotPopulatePlaylistMenu m tc).1, []) ∧
      slotPopulateCrateMenu (slotPopulateCrateMenu m tc tracks).1 tc₂ tracks₂ =
        ((slotPopulateCrateMenu m tc tracks).1, []) ∧
      slotPopulatePlaylistMenu
          (slotPopulateCrateMenu (slotPopulatePlaylistMenu m tc).1 tc₁ tracks₁).1 tc₂ =
        ((slotPopulateCrateMenu (slotPopulatePlaylistMenu m tc).1 tc₁ tracks₁).1, []) ∧
      slotPopulateCrateMenu
          (slotPopulatePlaylistMenu (slotPopulateCrateMenu m tc tracks).1 tc₁).1 tc₂ tracks₂ =
        ((slotPopulatePlaylistMenu (slotPopulateCrateMenu m tc tracks).1 tc₁).1, []) := by
  refine ⟨?_, ?_, ?_, ?_⟩
  · exact (populate_of_loaded _ tc₂ tracks₂).1 (populate_sets_loaded m tc tracks).1
  · exact (populate_of_loaded _ tc₂ tracks₂).2 (populate_sets_loaded m tc tracks).2.1
  · apply (populate_of_loaded _ tc₂ tracks₂).1
    rw [(populate_sets_loaded _ tc₁ tracks₁).2.2.2]
    exact (populate_sets_loaded m tc tracks).1
  · apply (populate_of_loaded _ tc₂ tracks₂).2
    rw [(populate_sets_loaded _ tc₁ tracks₁).2.2.1]
    exact (populate_sets_loaded m tc tracks).2.1

/-- The loop over the selected tracks applies its body to a track as often as
the track occurs in the selection, and to no other track. -/
theorem forEachTrack_apply (trackPointers : List TrackPointer) (body : Track → Track)
    (tracks : TrackStore) (p : TrackPointer) :
    forEachTrack trackPointers body tracks p = body^[trackPointers.count p] (tracks p) := by
  unfold forEachTrack
  induction trackPointers generalizing tracks with
  | nil => rfl
  | cons q rest ih =>
    rw [List.foldl_cons, ih]
    by_cases hpq : p = q
    · subst hpq
      simp [Function.iterate_succ_apply]
    · have hqp : ¬ q = p := fun h => hpq h.symm
      simp [hpq, List.count_cons, hqp]

/-- A body that changes nothing the second time acts like one application, however
often the track is selected. -/
theorem iterate_of_idempotent (body : Track → Track) (t : Track)
    (hidem : body (body t) = body t) (n : Nat) (hn : 0 < n) : body^[n] t = body t := by
  induction n with
  | zero => exact absurd hn (Nat.lt_irrefl 0)
  | succ k ih =>
    cases k with
    | zero => rfl
    | succ j =>
      rw [Function.iterate_succ_apply']
      rw [ih (Nat.succ_pos j)]
      exact hidem

/-- Scaling the grid of a track that is not locked `n` times. -/
theorem iterate_scale (scaleBeats : Int → Beats → Beats) (scale : Int) (t : Track) (b : Beats)
    (hlock : t.bpmLocked = false) (hb : t.beats = some b) (n : Nat) :
    (fun pTrack : Track =>
        if !pTrack.bpmLocked then
          match pTrack.beats with
          | some pBeats => { pTrack with beats := some (scaleBeats scale pBeats) }
          | none => pTrack
        else pTrack)^[n] t =
      { t with beats := some ((scaleBeats scale)^[n] b) } := by
  induction n generalizing t b with
  | zero =>
    simp only [Function.iterate_zero, id_eq]
    rw [← hb]
  | succ k ih =>
    rw [Function.iterate_succ_apply]
    simp only [hlock, hb, Bool.not_false, if_true]
    rw [ih { t with bpmLocked := false, beats := some (scaleBeats scale b) }
      (scaleBeats scale b) rfl rfl]
    simp [Function.iterate_succ_apply, hlock]

/-- C14: `slotClearBeats` leaves every selected track whose tempo is locked as it
is and takes the tempo grid (and nothing else) from every selected track that
is not locked; `slotScaleBpm` leaves every locked track as it is and scales
the grid of every selected track that is not locked and has one, once per
occurrence in the selection.  Tracks outside the selection are untouched by
both. -/
theorem tempo_lock_skips_track (m : WTrackMenu) (tracks : TrackStore)
    (scaleBeats : Int → Beats → Beats) (scale : Int) (p : TrackPointer) :
    (p ∈ getTrackPointers m → (tracks p).bpmLocked = true →
        slotClearBeats m tracks p = tracks p ∧
          slotScaleBpm m scaleBeats scale tracks p = tracks p) ∧
      (p ∈ getTrackPointers m → (tracks p).bpmLocked = false →
        slotClearBeats m tracks p = { tracks p with beats := none } ∧
          ∀ b, (tracks p).beats = some b →
            slotScaleBpm m scaleBeats scale tracks p =
              { tracks p with
                beats := some ((scaleBeats scale)^[(getTrackPointers m).count p] b) }) ∧
      (p ∉ getTrackPointers m →
        slotClearBeats m tracks p = tracks p ∧
          slotScaleBpm m scaleBeats scale tracks p = tracks p) := by
  refine ⟨?_, ?_, ?_⟩
  · intro hmem hlock
    have hpos : 0 < (getTrackPointers m).count p := List.count_pos_iff.2 hmem
    constructor
    · unfold slotClearBeats
      rw [forEachTrack_apply, iterate_of_idempotent _ _ (by simp [hlock]) _ hpos]
      simp [hlock]
    · unfold slotScaleBpm
      rw [forEachTrack_apply, iterate_of_idempotent _ _ (by simp [hlock]) _ hpos]
      simp [hlock]
  · intro hmem hlock
    have hpos : 0 < (getTrackPointers m).count p := List.count_pos_iff.2 hmem
    constructor
    · unfold slotClearBeats
      rw [forEachTrack_apply, iterate_of_idempotent _ _ (by simp [hlock]) _ hpos]
      simp [hlock]
    · intro b hb
      unfold slotScaleBpm
      rw [forEachTrack_apply]
      exact iterate_scale scaleBeats scale (tracks p) b hlock hb _
  · intro hnot
    have h0 : (getTrackPointers m).count p = 0 := List.count_eq_zero_of_not_mem hnot
    constructor
    · unfold slotClearBeats
      rw [forEachTrack_apply, h0]
      rfl
    · unfold slotScaleBpm
      rw [forEachTrack_apply, h0]
      rfl

/-- Witness of C14: track 0 (not locked) and track 1 (locked) are selected.
Clearing and doubling leave track 1 as it is; track 0 loses its grid when
cleared and has its grid doubled once when scaled. -/
theorem tempo_lock_skips_track_witness :
    (slotClearBeats { m_pTrackPointerList := [0, 1] } lockedSecond 1 = lockedSecond 1 ∧
        slotScaleBpm { m_pTrackPointerList := [0, 1] } (fun s b => b * s.toNat) 2
            lockedSecond 1 =
          lockedSecond 1) ∧
      slotClearBeats { m_pTrackPointerList := [0, 1] } lockedSecond 0 =
        { lockedSecond 0 with beats := none } ∧
      slotScaleBpm { m_pTrackPointerList := [0, 1] } (fun s b => b * s.toNat) 2
          lockedSecond 0 =
        { lockedSecond 0 with
          beats := some ((fun b => b * (2 : Int).toNat)^[[0, 1].count 0] 90) } :=
  ⟨(tempo_lock_skips_track { m_pTrackPointerList := [0, 1] } lockedSecond
        (fun s b => b * s.toNat) 2 1).1 (by decide) rfl,
    ((tempo_lock_skips_track { m_pTrackPointerList := [0, 1] } lockedSecond
        (fun s b => b * s.toNat) 2 0).2.1 (by decide) rfl).1,
    ((tempo_lock_skips_track { m_pTrackPointerList := [0, 1] } lockedSecond
        (fun s b => b * s.toNat) 2 0).2.1 (by decide) rfl).2 90 rfl⟩

/-- C15, counterexample: the tempo-locked track 1 is the only selected track; it
still has its tempo grid after `slotClearAllMetadata`. -/
theorem slotClearAllMetadata_keeps_locked_grid :
    getTrackPointers { m_pTrackPointerList := [1] } = [1] ∧
      (lockedSecond 1).bpmLocked = true ∧
      ((slotClearAllMetadata { m_pTrackPointerList := [1] } lockedSecond).1 1).beats =
        some 120 := by
  decide

/-- The loop over a single selected track applies its body to that track once. -/
theorem forEachTrack_single (p : TrackPointer) (body : Track → Track) (tracks : TrackStore) :
    forEachTrack [p] body tracks = fun q => if q = p then body (tracks p) else tracks q := rfl

/-- C15, amended: with a single track selected, after `slotClearAllMetadata` the
track has play count 0, no cues of any type, no key, the default replay gain
and no waveform, and the analysis DAO was asked once to delete the analyses of
its id; the tempo grid is gone if the track was not tempo-locked and is the old
one if it was.  Id, lock flag, colour and cover are as before. -/
theorem slotClearAllMetadata_single (m : WTrackMenu) (tracks : TrackStore) (p : TrackPointer)
    (hsel : getTrackPointers m = [p]) :
    ((slotClearAllMetadata m tracks).1 p).timesPlayed = 0 ∧
      ((slotClearAllMetadata m tracks).1 p).played = false ∧
      ((slotClearAllMetadata m tracks).1 p).cues = [] ∧
      ((slotClearAllMetadata m tracks).1 p).keys = none ∧
      ((slotClearAllMetadata m tracks).1 p).replayGain = {} ∧
      ((slotClearAllMetadata m tracks).1 p).waveform = none ∧
      ((slotClearAllMetadata m tracks).1 p).waveformSummary = none ∧
      (slotClearAllMetadata m tracks).2 = [Call.deleteAnalysesForTrack (tracks p).id] ∧
      ((tracks p).bpmLocked = false → ((slotClearAllMetadata m tracks).1 p).beats = none) ∧
      ((tracks p).bpmLocked = true →
        ((slotClearAllMetadata m tracks).1 p).beats = (tracks p).beats) ∧
      ((slotClearAllMetadata m tracks).1 p).id = (tracks p).id ∧
      ((slotClearAllMetadata m tracks).1 p).bpmLocked = (tracks p).bpmLocked ∧
      ((slotClearAllMetadata m tracks).1 p).color = (tracks p).color ∧
      ((slotClearAllMetadata m tracks).1 p).coverInfo = (tracks p).coverInfo := by
  simp only [slotClearAllMetadata, slotClearBeats, slotClearPlayCount, slotClearMainCue,
    slotClearHotCues, slotClearIntroCue, slotClearOutroCue, slotClearLoop, slotClearKey,
    slotClearReplayGain, slotClearWaveform, hsel, forEachTrack_single, List.foldl_cons,
    List.foldl_nil, if_true, List.nil_append, Track.removeCuesOfType, Track.resetPlayCounter]
  refine ⟨trivial, trivial, ?_, trivial, trivial, trivial, trivial, ?_, ?_, ?_, ?_, ?_, ?_, ?_⟩
  · rw [List.eq_nil_iff_forall_not_mem]
    intro cue hcue
    simp only [List.mem_filter, bne_iff_ne, ne_eq] at hcue
    obtain ⟨⟨⟨⟨⟨_, h1⟩, h2⟩, h3⟩, h4⟩, h5⟩ := hcue
    cases hc : cue.type with
    | MainCue => exact h1 hc
    | HotCue => exact h2 hc
    | Intro => exact h3 hc
    | Outro => exact h4 hc
    | Loop => exact h5 hc
  · cases h : (tracks p).bpmLocked <;> simp [h]
  · intro h
    simp [h]
  · intro h
    simp [h]
  · cases h : (tracks p).bpmLocked <;> simp [h]
  · cases h : (tracks p).bpmLocked <;> simp [h]
  · cases h : (tracks p).bpmLocked <;> simp [h]
  · cases h : (tracks p).bpmLocked <;> simp [h]

/-- Witness of C15 as amended: the locked track 1, which has a hot cue and a
loop, alone is selected; afterwards its play count is 0, its cues are gone and
its analyses were deleted. -/
theorem slotClearAllMetadata_single_witness :
    ((slotClearAllMetadata { m_pTrackPointerList := [1] } lockedSecond).1 1).timesPlayed = 0 ∧
      ((slotClearAllMetadata { m_pTrackPointerList := [1] } lockedSecond).1 1).cues = [] ∧
      (slotClearAllMetadata { m_pTrackPointerList := [1] } lockedSecond).2 =
        [Call.deleteAnalysesForTrack (lockedSecond 1).id] :=
  ⟨(slotClearAllMetadata_single { m_pTrackPointerList := [1] } lockedSecond 1 rfl).1,
    (slotClearAllMetadata_single { m_pTrackPointerList := [1] } lockedSecond 1 rfl).2.2.1,
    (slotClearAllMetadata_single { m_pTrackPointerList := [1] } lockedSecond 1
      rfl).2.2.2.2.2.2.2.1⟩

/-- The answer of `featureIsEnabled` depends on the track model and the two
feature sets only. -/
theorem featureIsEnabled_congr (m₁ m₂ : WTrackMenu)
    (hmodel : m₁.m_pTrackModel = m₂.m_pTrackModel)
    (hactive : m₁.m_eActiveFeatures = m₂.m_eActiveFeatures)
    (htmf : m₁.m_eTrackModelFeatures = m₂.m_eTrackModelFeatures) (flag : Feature) :
    featureIsEnabled m₁ flag = featureIsEnabled m₂ flag := by
  unfold featureIsEnabled
  rw [hmodel, hactive, htmf]

/-- In a menu whose source-dependent set is `TrackModelFeatures` whenever it has
no track model, `Remove` and `HideUnhidePurge` are only enabled with a model. -/
theorem null_guards (m : WTrackMenu)
    (hinv : m.m_pTrackModel = none → m.m_eTrackModelFeatures = Feature.TrackModelFeatures) :
    (featureIsEnabled m .Remove = true → m.m_pTrackModel.isSome = true) ∧
      (featureIsEnabled m .HideUnhidePurge = true → m.m_pTrackModel.isSome = true) := by
  cases hm : m.m_pTrackModel with
  | some tm => exact ⟨fun _ => rfl, fun _ => rfl⟩
  | none =>
    have htmf := hinv hm
    refine ⟨?_, ?_⟩
    · intro hen
      rw [featureIsEnabled_of_none m hm, htmf] at hen
      revert hen
      cases testFlag m.m_eActiveFeatures Feature.Remove.toInt <;> decide
    · intro hen
      rw [featureIsEnabled_of_none m hm, htmf] at hen
      revert hen
      cases testFlag m.m_eActiveFeatures Feature.HideUnhidePurge.toInt <;> decide

/-- `updateMenus` returns when a track is selected, the menu keeps to the
source-dependent set, and the menus and actions of the enabled features exist. -/
theorem updateMenus_returns (m : WTrackMenu) (ctl : Controls) (tracks : TrackStore)
    (hsel : getTrackPointers m ≠ [])
    (hinv : m.m_pTrackModel = none → m.m_eTrackModelFeatures = Feature.TrackModelFeatures)
    (hcreated : ∀ flag : Feature, featureIsEnabled m flag = true → flag ∈ m.ui.created) :
    ∃ m', updateMenus m ctl tracks = .ok m' := by
  obtain ⟨m', hok, _⟩ := updateMenus_ok m ctl tracks
    (widgets_ok m ctl tracks hsel (null_guards m hinv).1 (null_guards m hinv).2 hcreated)
  exact ⟨m', hok⟩

/-- `loadTracks(TrackIdList)` on a menu without a track model, given a list in
which some id resolves, is `updateMenus` on the menu with the resolved tracks
stored, and that returns. -/
theorem loadTracks_TrackIdList_resolved (m : WTrackMenu) (tc : TrackCollection)
    (ctl : Controls) (tracks : TrackStore) (trackIdList : List TrackId)
    (hnone : m.m_pTrackModel = none)
    (htmf : m.m_eTrackModelFeatures = Feature.TrackModelFeatures)
    (hcreated : ∀ flag : Feature, featureIsEnabled m flag = true → flag ∈ m.ui.created)
    (hres : ∃ id ∈ trackIdList, (tc.getTrackById id).isSome = true) :
    ∃ m', loadTracks_TrackIdList m tc ctl tracks trackIdList = .ok m' ∧
      updateMenus
          { m with
            m_pTrackPointerList := trackIdList.filterMap tc.getTrackById
            m_pTrackIndexList := [] }
          ctl tracks = .ok m' := by
  have hne : trackIdList.filterMap tc.getTrackById ≠ [] := by
    obtain ⟨id, hid, hsome⟩ := hres
    obtain ⟨p, hp⟩ := Option.isSome_iff_exists.1 hsome
    intro hnil
    have : p ∈ trackIdList.filterMap tc.getTrackById := List.mem_filterMap.2 ⟨id, hid, hp⟩
    rw [hnil] at this
    exact List.not_mem_nil _ this
  obtain ⟨m', hok⟩ := updateMenus_returns
    { m with
      m_pTrackPointerList := trackIdList.filterMap tc.getTrackById
      m_pTrackIndexList := [] }
    ctl tracks (by simpa [getTrackPointers, hnone] using hne) (fun _ => htmf) hcreated
  refine ⟨m', ?_, hok⟩
  unfold loadTracks_TrackIdList
  simp only [clearTrackSelection, isEmpty_eq_false_of_ne_nil hne, Bool.not_false, if_true]
  exact hok

/-- `loadTracks(QModelIndexList)` on a menu with a track model, given a list in
which some index resolves, is `updateMenus` on the menu with the resolved
indices stored, and that returns. -/
theorem loadTracks_QModelIndexList_resolved (m : WTrackMenu) (tm : TrackModel)
    (ctl : Controls) (tracks : TrackStore) (indexList : List QModelIndex)
    (hsome : m.m_pTrackModel = some tm)
    (hcreated : ∀ flag : Feature, featureIsEnabled m flag = true → flag ∈ m.ui.created)
    (hres : ∃ index ∈ indexList, (tm.getTrack index).isSome = true) :
    ∃ m', loadTracks_QModelIndexList m ctl tracks indexList = .ok m' ∧
      updateMenus
          { m with
            m_pTrackPointerList := []
            m_pTrackIndexList := indexList.filter fun index => (tm.getTrack index).isSome }
          ctl tracks = .ok m' := by
  have hne : (indexList.filter fun index => (tm.getTrack index).isSome) ≠ [] := by
    obtain ⟨i, hi, hs⟩ := hres
    intro hnil
    have : i ∈ indexList.filter fun index => (tm.getTrack index).isSome :=
      List.mem_filter.2 ⟨hi, hs⟩
    rw [hnil] at this
    exact List.not_mem_nil _ this
  have hptrs : getTrackPointers
      { m with
        m_pTrackPointerList := []
        m_pTrackIndexList := indexList.filter fun index => (tm.getTrack index).isSome } ≠
      [] := by
    simp only [getTrackPointers, hsome, getTrackIndices]
    rw [filterMap_filter_isSome]
    obtain ⟨i, hi, hs⟩ := hres
    obtain ⟨p, hp⟩ := Option.isSome_iff_exists.1 hs
    intro hnil
    have : p ∈ indexList.filterMap tm.getTrack := List.mem_filterMap.2 ⟨i, hi, hp⟩
    rw [hnil] at this
    exact List.not_mem_nil _ this
  obtain ⟨m', hok⟩ := updateMenus_returns _ ctl tracks hptrs
    (fun h => by rw [show _ = m.m_pTrackModel from rfl, hsome] at h; exact Option.noConfusion h)
    hcreated
  refine ⟨m', ?_, hok⟩
  unfold loadTracks_QModelIndexList
  simp only [clearTrackSelection, hsome, isEmpty_eq_false_of_ne_nil hne, Bool.not_false,
    if_true]
  rw [hsome] at hok
  exact hok

/-- `loadTracks(TrackIdList)` with a list in which no id resolves returns with
the selection cleared and nothing else changed. -/
theorem loadTracks_TrackIdList_unresolved (m : WTrackMenu) (tc : TrackCollection)
    (ctl : Controls) (tracks : TrackStore) (trackIdList : List TrackId)
    (hall : ∀ id ∈ trackIdList, tc.getTrackById id = none) :
    loadTracks_TrackIdList m tc ctl tracks trackIdList = .ok (clearTrackSelection m) := by
  have hres : trackIdList.filterMap (fun trackId => tc.getTrackById trackId) = [] := by
    rw [List.filterMap_eq_nil_iff]
    exact hall
  unfold loadTracks_TrackIdList
  simp only [hres]
  rfl

/-- `loadTracks(QModelIndexList)` with a list in which no index resolves returns
with the selection cleared and nothing else changed. -/
theorem loadTracks_QModelIndexList_unresolved (m : WTrackMenu) (tm : TrackModel)
    (ctl : Controls) (tracks : TrackStore) (indexList : List QModelIndex)
    (hsome : m.m_pTrackModel = some tm)
    (hall : ∀ index ∈ indexList, tm.getTrack index = none) :
    loadTracks_QModelIndexList m ctl tracks indexList = .ok (clearTrackSelection m) := by
  have hres : indexList.filter (fun index => (tm.getTrack index).isSome) = [] := by
    rw [List.filter_eq_nil_iff]
    intro a ha
    rw [hall a ha]
    simp
  unfold loadTracks_QModelIndexList
  simp only [clearTrackSelection, hsome, hres]
  rfl

/-- Given a list in which some id resolves, `loadTracks(TrackIdList)` is
`updateMenus` on the menu with the resolved tracks stored. -/
theorem loadTracks_TrackIdList_call (m : WTrackMenu) (tc : TrackCollection)
    (ctl : Controls) (tracks : TrackStore) (trackIdList : List TrackId)
    (hres : ∃ id ∈ trackIdList, (tc.getTrackById id).isSome = true) :
    loadTracks_TrackIdList m tc ctl tracks trackIdList =
      updateMenus
        { m with
          m_pTrackPointerList := trackIdList.filterMap tc.getTrackById
          m_pTrackIndexList := [] }
        ctl tracks := by
  have hne : trackIdList.filterMap tc.getTrackById ≠ [] := by
    obtain ⟨id, hid, hsome⟩ := hres
    obtain ⟨p, hp⟩ := Option.isSome_iff_exists.1 hsome
    intro hnil
    have : p ∈ trackIdList.filterMap tc.getTrackById := List.mem_filterMap.2 ⟨id, hid, hp⟩
    rw [hnil] at this
    exact List.not_mem_nil _ this
  unfold loadTracks_TrackIdList
  simp only [clearTrackSelection, isEmpty_eq_false_of_ne_nil hne, Bool.not_false, if_true]

/-- Given a list in which some index resolves, `loadTracks(QModelIndexList)` on a
menu with a track model is `updateMenus` on the menu with the resolved indices
stored. -/
theorem loadTracks_QModelIndexList_call (m : WTrackMenu) (tm : TrackModel)
    (ctl : Controls) (tracks : TrackStore) (indexList : List QModelIndex)
    (hsome : m.m_pTrackModel = some tm)
    (hres : ∃ index ∈ indexList, (tm.getTrack index).isSome = true) :
    loadTracks_QModelIndexList m ctl tracks indexList =
      updateMenus
        { m with
          m_pTrackPointerList := []
          m_pTrackIndexList := indexList.filter fun index => (tm.getTrack index).isSome }
        ctl tracks := by
  have hne : (indexList.filter fun index => (tm.getTrack index).isSome) ≠ [] := by
    obtain ⟨i, hi, hs⟩ := hres
    intro hnil
    have : i ∈ indexList.filter fun index => (tm.getTrack index).isSome :=
      List.mem_filter.2 ⟨hi, hs⟩
    rw [hnil] at this
    exact List.not_mem_nil _ this
  unfold loadTracks_QModelIndexList
  simp only [clearTrackSelection, hsome, isEmpty_eq_false_of_ne_nil hne, Bool.not_false,
    if_true]

/-- What a successful `loadTracks(TrackIdList)` on a menu without a track model
leaves behind: the tracks found for the input ids, and no index. -/
theorem loadTracks_TrackIdList_result (m m' : WTrackMenu) (tc : TrackCollection)
    (ctl : Controls) (tracks : TrackStore) (trackIdList : List TrackId)
    (hnone : m.m_pTrackModel = none)
    (h : loadTracks_TrackIdList m tc ctl tracks trackIdList = .ok m') :
    getTrackPointers m' = trackIdList.filterMap tc.getTrackById ∧
      m'.m_pTrackIndexList = [] := by
  unfold loadTracks_TrackIdList at h
  simp only [clearTrackSelection] at h
  split at h
  · have hinv := updateMenus_inv _ _ _ _ h
    refine ⟨?_, hinv.2.2.2.2.1⟩
    unfold getTrackPointers
    rw [hinv.1, hinv.2.2.2.1]
    simp only [hnone]
  · rename_i hempty
    have hnil : trackIdList.filterMap (fun trackId => tc.getTrackById trackId) = [] := by
      simpa using hempty
    rw [← Except.ok.inj h]
    refine ⟨?_, rfl⟩
    unfold getTrackPointers
    simp only [hnone]

/-- What a successful `loadTracks(QModelIndexList)` on a menu with a track model
leaves behind: the input indices that have a track, and no pointer. -/
theorem loadTracks_QModelIndexList_result (m m' : WTrackMenu) (tm : TrackModel)
    (ctl : Controls) (tracks : TrackStore) (indexList : List QModelIndex)
    (hsome : m.m_pTrackModel = some tm)
    (h : loadTracks_QModelIndexList m ctl tracks indexList = .ok m') :
    m'.m_pTrackIndexList = indexList.filter (fun index => (tm.getTrack index).isSome) ∧
      getTrackPointers m' = indexList.filterMap tm.getTrack ∧
      m'.m_pTrackPointerList = [] := by
  unfold loadTracks_QModelIndexList at h
  simp only [clearTrackSelection, hsome] at h
  have key : m'.m_pTrackModel = some tm ∧
      m'.m_pTrackIndexList = indexList.filter (fun index => (tm.getTrack index).isSome) ∧
      m'.m_pTrackPointerList = [] := by
    split at h
    · have hinv := updateMenus_inv _ _ _ _ h
      exact ⟨hinv.1, hinv.2.2.2.2.1, hinv.2.2.2.1⟩
    · rw [← Except.ok.inj h]
      exact ⟨rfl, rfl, rfl⟩
  refine ⟨key.2.1, ?_, key.2.2⟩
  unfold getTrackPointers getTrackIndices
  rw [key.1]
  simp only [key.2.1]
  exact filterMap_filter_isSome tm.getTrack indexList

/-- `loadTracks(TrackIdList)` on a menu without a track model returns when the
menus and actions of the enabled features exist. -/
theorem loadTracks_TrackIdList_returns (m : WTrackMenu) (tc : TrackCollection)
    (ctl : Controls) (tracks : TrackStore) (trackIdList : List TrackId)
    (hnone : m.m_pTrackModel = none)
    (htmf : m.m_eTrackModelFeatures = Feature.TrackModelFeatures)
    (hcreated : ∀ flag : Feature, featureIsEnabled m flag = true → flag ∈ m.ui.created) :
    ∃ m', loadTracks_TrackIdList m tc ctl tracks trackIdList = .ok m' := by
  by_cases hres : ∃ id ∈ trackIdList, (tc.getTrackById id).isSome = true
  · obtain ⟨m', hok, _⟩ :=
      loadTracks_TrackIdList_resolved m tc ctl tracks trackIdList hnone htmf hcreated hres
    exact ⟨m', hok⟩
  · refine ⟨_, loadTracks_TrackIdList_unresolved m tc ctl tracks trackIdList ?_⟩
    intro id hid
    cases hget : tc.getTrackById id with
    | none => rfl
    | some p => exact absurd ⟨id, hid, by rw [hget]; rfl⟩ hres

/-- `loadTracks(QModelIndexList)` returns when the menus and actions of the
enabled features exist. -/
theorem loadTracks_QModelIndexList_returns (m : WTrackMenu) (ctl : Controls)
    (tracks : TrackStore) (indexList : List QModelIndex)
    (hcreated : ∀ flag : Feature, featureIsEnabled m flag = true → flag ∈ m.ui.created) :
    ∃ m', loadTracks_QModelIndexList m ctl tracks indexList = .ok m' := by
  cases hmodel : m.m_pTrackModel with
  | none =>
    unfold loadTracks_QModelIndexList
    simp only [clearTrackSelection, hmodel]
    exact ⟨_, rfl⟩
  | some tm =>
    by_cases hres : ∃ index ∈ indexList, (tm.getTrack index).isSome = true
    · obtain ⟨m', hok, _⟩ :=
        loadTracks_QModelIndexList_resolved m tm ctl tracks indexList hmodel hcreated hres
      exact ⟨m', hok⟩
    · refine ⟨_, loadTracks_QModelIndexList_unresolved m tm ctl tracks indexList hmodel ?_⟩
      intro index hindex
      cases hget : tm.getTrack index with
      | none => rfl
      | some p => exact absurd ⟨index, hindex, by rw [hget]; rfl⟩ hres

/-- C10: after `loadTracks(TrackIdList)` on a menu without a track model
`getTrackPointers` returns the tracks the collection finds for the input ids,
in input order; after `loadTracks(QModelIndexList)` on a menu with a track
model the stored indices are the input indices for which the model has a
track, in input order.  Neither result depends on the lists stored before, and
when nothing resolves the call returns with both lists empty.  Both calls
return when the menus and actions of the enabled features exist and, without a
track model, the source-dependent set is `TrackModelFeatures`. -/
theorem loadTracks_resolves (m : WTrackMenu) (tc : TrackCollection) (ctl : Controls)
    (tracks : TrackStore) :
    (m.m_pTrackModel = none → ∀ (trackIdList : List TrackId) (m' : WTrackMenu),
        loadTracks_TrackIdList m tc ctl tracks trackIdList = .ok m' →
          getTrackPointers m' = trackIdList.filterMap tc.getTrackById ∧
            m'.m_pTrackIndexList = []) ∧
      (∀ tm : TrackModel, m.m_pTrackModel = some tm →
        ∀ (indexList : List QModelIndex) (m' : WTrackMenu),
          loadTracks_QModelIndexList m ctl tracks indexList = .ok m' →
            m'.m_pTrackIndexList = indexList.filter (fun index => (tm.getTrack index).isSome) ∧
              getTrackPointers m' = indexList.filterMap tm.getTrack ∧
              m'.m_pTrackPointerList = []) ∧
      ((∀ flag : Feature, featureIsEnabled m flag = true → flag ∈ m.ui.created) →
        (m.m_pTrackModel = none → m.m_eTrackModelFeatures = Feature.TrackModelFeatures →
          ∀ trackIdList : List TrackId,
            ∃ m', loadTracks_TrackIdList m tc ctl tracks trackIdList = .ok m') ∧
          ∀ indexList : List QModelIndex,
            ∃ m', loadTracks_QModelIndexList m ctl tracks indexList = .ok m') ∧
      (∀ (oldPointers : List TrackPointer) (oldIndices : List QModelIndex)
          (trackIdList : List TrackId) (indexList : List QModelIndex),
        loadTracks_TrackIdList
              { m with m_pTrackPointerList := oldPointers, m_pTrackIndexList := oldIndices }
              tc ctl tracks trackIdList =
            loadTracks_TrackIdList m tc ctl tracks trackIdList ∧
          loadTracks_QModelIndexList
              { m with m_pTrackPointerList := oldPointers, m_pTrackIndexList := oldIndices }
              ctl tracks indexList =
            loadTracks_QModelIndexList m ctl tracks indexList) ∧
      (∀ trackIdList : List TrackId, (∀ id ∈ trackIdList, tc.getTrackById id = none) →
        loadTracks_TrackIdList m tc ctl tracks trackIdList = .ok (clearTrackSelection m)) ∧
      (∀ tm : TrackModel, m.m_pTrackModel = some tm →
        ∀ indexList : List QModelIndex, (∀ index ∈ indexList, tm.getTrack index = none) →
          loadTracks_QModelIndexList m ctl tracks indexList = .ok (clearTrackSelection m)) := by
  refine ⟨?_, ?_, ?_, ?_, ?_, ?_⟩
  · intro hnone trackIdList m' hok
    exact loadTracks_TrackIdList_result m m' tc ctl tracks trackIdList hnone hok
  · intro tm hsome indexList m' hok
    exact loadTracks_QModelIndexList_result m m' tm ctl tracks indexList hsome hok
  · intro hcreated
    refine ⟨?_, ?_⟩
    · intro hnone htmf trackIdList
      exact loadTracks_TrackIdList_returns m tc ctl tracks trackIdList hnone htmf hcreated
    · intro indexList
      exact loadTracks_QModelIndexList_returns m ctl tracks indexList hcreated
  · intro oldPointers oldIndices trackIdList indexList
    exact ⟨rfl, rfl⟩
  · intro trackIdList hall
    exact loadTracks_TrackIdList_unresolved m tc ctl tracks trackIdList hall
  · intro tm hsome indexList hall
    exact loadTracks_QModelIndexList_unresolved m tm ctl tracks indexList hsome hall

/-- Witness of C10: a menu that has three tracks selected is given the ids 12, 99
and 10, of which the collection does not know 99: it ends with the tracks at
the addresses 2 and 0.  A menu constructed with a model that has tracks for
the rows below 100 is given the rows 5, 200 and 7: it ends with the rows 5 and
7. -/
theorem loadTracks_resolves_witness :
    (∃ m', loadTracks_TrackIdList menuOfThree smallCollection {} threeTracks [12, 99, 10] =
          .ok m' ∧
        getTrackPointers m' = [2, 0] ∧ m'.m_pTrackIndexList = []) ∧
      ∃ m', loadTracks_QModelIndexList menuWithModel {} threeTracks [5, 200, 7] = .ok m' ∧
        m'.m_pTrackIndexList = [5, 7] ∧ getTrackPointers m' = [5, 7] ∧
        m'.m_pTrackPointerList = [] :=
  ⟨(((loadTracks_resolves menuOfThree smallCollection {} threeTracks).2.2.1
        (fun flag => by cases flag <;> decide)).1 rfl rfl [12, 99, 10]).imp
      fun m' hok =>
        ⟨hok, (loadTracks_resolves menuOfThree smallCollection {} threeTracks).1 rfl
          [12, 99, 10] m' hok⟩,
    (((loadTracks_resolves menuWithModel smallCollection {} threeTracks).2.2.1
        (fun flag => by cases flag <;> decide)).2 [5, 200, 7]).imp
      fun m' hok =>
        ⟨hok, (loadTracks_resolves menuWithModel smallCollection {} threeTracks).2.1
          (modelWithCaps [.TRACKMODELCAPS_ADDTOPLAYLIST, .TRACKMODELCAPS_EDITMETADATA]) rfl
          [5, 200, 7] m' hok⟩⟩

/-- A populate slot whose menu is not loaded asks the collection: the playlist
slot starts with `playlistCount`, the crate slot makes the one summary query
for the ids of the selection. -/
theorem populate_of_not_loaded (m : WTrackMenu) (tc : TrackCollection) (tracks : TrackStore) :
    (m.m_bPlaylistMenuLoaded = false →
        ∃ rest, (slotPopulatePlaylistMenu m tc).2 = Call.playlistCount :: rest) ∧
      (m.m_bCrateMenuLoaded = false →
        (slotPopulateCrateMenu m tc tracks).2 =
          [Call.selectCratesWithTrackCount (getTrackIds m tracks)]) := by
  refine ⟨?_, ?_⟩
  · intro h
    unfold slotPopulatePlaylistMenu
    simp only [h, Bool.false_eq_true, if_false]
    exact ⟨_, rfl⟩
  · intro h
    unfold slotPopulateCrateMenu
    simp only [h, Bool.false_eq_true, if_false]

/-- C18, counterexample: both submenus of the menu are populated and `Playlist`
and `Crate` are enabled.  `loadTracks` with the single id 99, which the
collection does not know, returns with both loaded flags still true; so does
the index overload, which this menu without a track model leaves at once. -/
theorem loadTracks_unresolved_keeps_flags :
    featureIsEnabled loadedMenu Feature.Playlist = true ∧
      featureIsEnabled loadedMenu Feature.Crate = true ∧
      (∃ m', loadTracks_TrackIdList loadedMenu smallCollection {} threeTracks [99] = .ok m' ∧
        m'.m_bPlaylistMenuLoaded = true ∧ m'.m_bCrateMenuLoaded = true) ∧
      ∃ m', loadTracks_QModelIndexList loadedMenu {} threeTracks [5] = .ok m' ∧
        m'.m_bPlaylistMenuLoaded = true ∧ m'.m_bCrateMenuLoaded = true :=
  ⟨by decide, by decide, ⟨_, rfl, rfl, rfl⟩, ⟨_, rfl, rfl, rfl⟩⟩

/-- C18, amended: in a menu with `Playlist` and `Crate` enabled, after every
call of `loadTracks` in the matching mode whose list resolves at least one
track both loaded flags are false, so that the next populate of each submenu
asks the collection again, the crate submenu for the ids of the new selection;
such a call returns when the menus and actions of the enabled features exist.
A call in which nothing resolves returns with the selection cleared and both
flags as they were. -/
theorem loadTracks_invalidates_submenus (m : WTrackMenu) (tc : TrackCollection)
    (ctl : Controls) (tracks : TrackStore)
    (hpl : featureIsEnabled m Feature.Playlist = true)
    (hcr : featureIsEnabled m Feature.Crate = true) :
    (m.m_pTrackModel = none → ∀ trackIdList : List TrackId,
        (∃ id ∈ trackIdList, (tc.getTrackById id).isSome = true) →
          (∀ m', loadTracks_TrackIdList m tc ctl tracks trackIdList = .ok m' →
            m'.m_bPlaylistMenuLoaded = false ∧ m'.m_bCrateMenuLoaded = false ∧
            (∀ tc', ∃ rest,
              (slotPopulatePlaylistMenu m' tc').2 = Call.playlistCount :: rest) ∧
            ∀ tc' tracks', (slotPopulateCrateMenu m' tc' tracks').2 =
              [Call.selectCratesWithTrackCount (getTrackIds m' tracks')]) ∧
          (m.m_eTrackModelFeatures = Feature.TrackModelFeatures →
            (∀ flag : Feature, featureIsEnabled m flag = true → flag ∈ m.ui.created) →
            ∃ m', loadTracks_TrackIdList m tc ctl tracks trackIdList = .ok m')) ∧
      (∀ tm : TrackModel, m.m_pTrackModel = some tm → ∀ indexList : List QModelIndex,
        (∃ index ∈ indexList, (tm.getTrack index).isSome = true) →
          (∀ m', loadTracks_QModelIndexList m ctl tracks indexList = .ok m' →
            m'.m_bPlaylistMenuLoaded = false ∧ m'.m_bCrateMenuLoaded = false ∧
            (∀ tc', ∃ rest,
              (slotPopulatePlaylistMenu m' tc').2 = Call.playlistCount :: rest) ∧
            ∀ tc' tracks', (slotPopulateCrateMenu m' tc' tracks').2 =
              [Call.selectCratesWithTrackCount (getTrackIds m' tracks')]) ∧
          ((∀ flag : Feature, featureIsEnabled m flag = true → flag ∈ m.ui.created) →
            ∃ m', loadTracks_QModelIndexList m ctl tracks indexList = .ok m')) ∧
      (∀ trackIdList : List TrackId, (∀ id ∈ trackIdList, tc.getTrackById id = none) →
        ∃ m', loadTracks_TrackIdList m tc ctl tracks trackIdList = .ok m' ∧
          m'.m_pTrackPointerList = [] ∧ m'.m_pTrackIndexList = [] ∧
          m'.m_bPlaylistMenuLoaded = m.m_bPlaylistMenuLoaded ∧
          m'.m_bCrateMenuLoaded = m.m_bCrateMenuLoaded) ∧
      (∀ tm : TrackModel, m.m_pTrackModel = some tm →
        ∀ indexList : List QModelIndex, (∀ index ∈ indexList, tm.getTrack index = none) →
        ∃ m', loadTracks_QModelIndexList m ctl tracks indexList = .ok m' ∧
          m'.m_pTrackPointerList = [] ∧ m'.m_pTrackIndexList = [] ∧
          m'.m_bPlaylistMenuLoaded = m.m_bPlaylistMenuLoaded ∧
          m'.m_bCrateMenuLoaded = m.m_bCrateMenuLoaded) := by
  have hflags : ∀ (m₀ m' : WTrackMenu), m₀.m_pTrackModel = m.m_pTrackModel →
      m₀.m_eActiveFeatures = m.m_eActiveFeatures →
      m₀.m_eTrackModelFeatures = m.m_eTrackModelFeatures →
      updateMenus m₀ ctl tracks = .ok m' →
      m'.m_bPlaylistMenuLoaded = false ∧ m'.m_bCrateMenuLoaded = false ∧
        (∀ tc', ∃ rest, (slotPopulatePlaylistMenu m' tc').2 = Call.playlistCount :: rest) ∧
        ∀ tc' tracks', (slotPopulateCrateMenu m' tc' tracks').2 =
          [Call.selectCratesWithTrackCount (getTrackIds m' tracks')] := by
    intro m₀ m' h1 h2 h3 hok
    have hinv := updateMenus_inv m₀ m' ctl tracks hok
    have hp : m'.m_bPlaylistMenuLoaded = false := by
      rw [hinv.2.2.2.2.2.2.1, featureIsEnabled_congr m₀ m h1 h2 h3, hpl]
      rfl
    have hc : m'.m_bCrateMenuLoaded = false := by
      rw [hinv.2.2.2.2.2.2.2, featureIsEnabled_congr m₀ m h1 h2 h3, hcr]
      rfl
    exact ⟨hp, hc, fun tc' => (populate_of_not_loaded m' tc' tracks).1 hp,
      fun tc' tracks' => (populate_of_not_loaded m' tc' tracks').2 hc⟩
  refine ⟨?_, ?_, ?_, ?_⟩
  · intro hnone trackIdList hres
    refine ⟨?_, fun htmf hcreated =>
      loadTracks_TrackIdList_returns m tc ctl tracks trackIdList hnone htmf hcreated⟩
    intro m' hload
    rw [loadTracks_TrackIdList_call m tc ctl tracks trackIdList hres] at hload
    exact hflags
      { m with
        m_pTrackPointerList := trackIdList.filterMap tc.getTrackById
        m_pTrackIndexList := [] }
      m' rfl rfl rfl hload
  · intro tm hsome indexList hres
    refine ⟨?_, fun hcreated =>
      loadTracks_QModelIndexList_returns m ctl tracks indexList hcreated⟩
    intro m' hload
    rw [loadTracks_QModelIndexList_call m tm ctl tracks indexList hsome hres] at hload
    exact hflags
      { m with
        m_pTrackPointerList := []
        m_pTrackIndexList := indexList.filter fun index => (tm.getTrack index).isSome }
      m' rfl rfl rfl hload
  · intro trackIdList hall
    exact ⟨_, loadTracks_TrackIdList_unresolved m tc ctl tracks trackIdList hall,
      rfl, rfl, rfl, rfl⟩
  · intro tm hsome indexList hall
    exact ⟨_, loadTracks_QModelIndexList_unresolved m tm ctl tracks indexList hsome hall,
      rfl, rfl, rfl, rfl⟩

/-- Witness of C18 as amended: the menu with both submenus populated is given the
ids 99 and 11, of which 11 resolves: the call returns, and both flags are false
afterwards.  Given 99 alone it keeps its flags and has nothing selected. -/
theorem loadTracks_invalidates_submenus_witness :
    (∃ m', loadTracks_TrackIdList loadedMenu smallCollection {} threeTracks [99, 11] = .ok m' ∧
        m'.m_bPlaylistMenuLoaded = false ∧ m'.m_bCrateMenuLoaded = false ∧
        (∀ tc', ∃ rest, (slotPopulatePlaylistMenu m' tc').2 = Call.playlistCount :: rest) ∧
        ∀ tc' tracks', (slotPopulateCrateMenu m' tc' tracks').2 =
          [Call.selectCratesWithTrackCount (getTrackIds m' tracks')]) ∧
      ∃ m', loadTracks_TrackIdList loadedMenu smallCollection {} threeTracks [99] = .ok m' ∧
        m'.m_pTrackPointerList = [] ∧ m'.m_pTrackIndexList = [] ∧
        m'.m_bPlaylistMenuLoaded = loadedMenu.m_bPlaylistMenuLoaded ∧
        m'.m_bCrateMenuLoaded = loadedMenu.m_bCrateMenuLoaded :=
  ⟨(((loadTracks_invalidates_submenus loadedMenu smallCollection {} threeTracks (by decide)
        (by decide)).1 rfl [99, 11] ⟨11, by decide, by decide⟩).2 rfl
        (fun flag => by cases flag <;> decide)).imp
      fun m' hok =>
        ⟨hok, ((loadTracks_invalidates_submenus loadedMenu smallCollection {} threeTracks
          (by decide) (by decide)).1 rfl [99, 11] ⟨11, by decide, by decide⟩).1 m' hok⟩,
    (loadTracks_invalidates_submenus loadedMenu smallCollection {} threeTracks (by decide)
        (by decide)).2.2.1 [99] (by decide)⟩

/-- A run that ends well after a guarded block ended well before the block. -/
theorem guarded_inv {x : Except Fault Widgets} {enabled : Bool}
    {block : Widgets → Except Fault Widgets} {w' : Widgets}
    (h : (x >>= updateMenus.guarded enabled block) = .ok w') :
    ∃ w, x = .ok w ∧ updateMenus.guarded enabled block w = .ok w' := by
  cases x with
  | error e => exact Except.noConfusion h
  | ok w => exact ⟨w, rfl, h⟩

/-- A guarded block keeps what the block keeps. -/
theorem guarded_frame {α : Type} (π : Widgets → α) {enabled : Bool}
    {block : Widgets → Except Fault Widgets} {w w' : Widgets}
    (hblock : ∀ w w', block w = .ok w' → π w' = π w)
    (h : updateMenus.guarded enabled block w = .ok w') : π w' = π w := by
  unfold updateMenus.guarded at h
  cases enabled with
  | true => exact hblock w w' h
  | false =>
    rw [← Except.ok.inj h]

/-- A block behind a pointer keeps what the block keeps. -/
theorem deref_frame {α : Type} (π : Widgets → α) {created : Bool}
    {block : Widgets → Except Fault Widgets} {w w' : Widgets}
    (hblock : ∀ w w', block w = .ok w' → π w' = π w)
    (h : updateMenus.deref created block w = .ok w') : π w' = π w :=
  hblock w w' (deref_inv h).2

/-- The `Color` block writes the colour picker only. -/
theorem color_frame (ctl : Controls) (tracks : TrackStore) (trackPointers : List TrackPointer)
    (w w' : Widgets) (h : updateMenus.color ctl tracks trackPointers w = .ok w') :
    w' = { w with m_pColorPickerAction := w'.m_pColorPickerAction } := by
  unfold updateMenus.color at h
  cases trackPointers with
  | nil => exact Except.noConfusion h
  | cons p rest =>
    simp only at h
    split at h <;>
      · rw [← Except.ok.inj h]

/-- The `HideUnhidePurge` block writes the three actions of its name only. -/
theorem hideUnhidePurge_frame (pTrackModel : Option TrackModel) (created : Bool)
    (w w' : Widgets) (h : updateMenus.hideUnhidePurge pTrackModel created w = .ok w') :
    w' = { w with
      m_pHideAct := w'.m_pHideAct, m_pUnhideAct := w'.m_pUnhideAct
      m_pPurgeAct := w'.m_pPurgeAct } := by
  cases pTrackModel with
  | none => exact Except.noConfusion h
  | some tm =>
    simp only [updateMenus.hideUnhidePurge] at h
    revert h
    cases created <;> cases tm.hasCapabilities .TRACKMODELCAPS_HIDE <;>
      cases tm.hasCapabilities .TRACKMODELCAPS_UNHIDE <;>
        cases tm.hasCapabilities .TRACKMODELCAPS_PURGE <;> intro h <;>
          first
            | exact Except.noConfusion h
            | rw [← Except.ok.inj h]

/-- The tempo actions: the reset action of the tempo grid, lock, unlock and the
six scale actions, which the blocks after `BPM` do not write. -/
theorem tail_frame (m : WTrackMenu) (ctl : Controls) (tracks : TrackStore)
    (x : Except Fault Widgets) (wf : Widgets)
    (h : (x
        >>= updateMenus.guarded (featureIsEnabled m .Color)
          (updateMenus.deref (m.ui.has .Color)
            (updateMenus.color ctl tracks (getTrackPointers m)))
        >>= updateMenus.guarded (featureIsEnabled m .HideUnhidePurge)
          (updateMenus.hideUnhidePurge m.m_pTrackModel (m.ui.has .HideUnhidePurge))
        >>= updateMenus.guarded (featureIsEnabled m .Properties)
          (updateMenus.deref (m.ui.has .Properties)
            fun w => .ok (updateMenus.properties ((getTrackPointers m).length == 1) w))) =
      .ok wf) :
    ∃ w, x = .ok w ∧ wf.m_pClearBeatsAction = w.m_pClearBeatsAction ∧
      wf.m_pBpmLockAction = w.m_pBpmLockAction ∧
      wf.m_pBpmUnlockAction = w.m_pBpmUnlockAction ∧
      wf.m_pBpmDoubleAction = w.m_pBpmDoubleAction ∧
      wf.m_pBpmHalveAction = w.m_pBpmHalveAction ∧
      wf.m_pBpmTwoThirdsAction = w.m_pBpmTwoThirdsAction ∧
      wf.m_pBpmThreeFourthsAction = w.m_pBpmThreeFourthsAction ∧
      wf.m_pBpmFourThirdsAction = w.m_pBpmFourThirdsAction ∧
      wf.m_pBpmThreeHalvesAction = w.m_pBpmThreeHalvesAction := by
  obtain ⟨w7, h7, g8⟩ := guarded_inv h
  obtain ⟨w6, h6, g7⟩ := guarded_inv h7
  obtain ⟨w5, h5, g6⟩ := guarded_inv h6
  refine ⟨w5, h5, ?_⟩
  have f8 := guarded_frame
    (fun w : Widgets => (w.m_pClearBeatsAction, w.m_pBpmLockAction, w.m_pBpmUnlockAction,
      w.m_pBpmDoubleAction, w.m_pBpmHalveAction, w.m_pBpmTwoThirdsAction,
      w.m_pBpmThreeFourthsAction, w.m_pBpmFourThirdsAction, w.m_pBpmThreeHalvesAction))
    (fun w w' hb => by rw [← Except.ok.inj (deref_inv hb).2]; rfl) g8
  have f7 := guarded_frame
    (fun w : Widgets => (w.m_pClearBeatsAction, w.m_pBpmLockAction, w.m_pBpmUnlockAction,
      w.m_pBpmDoubleAction, w.m_pBpmHalveAction, w.m_pBpmTwoThirdsAction,
      w.m_pBpmThreeFourthsAction, w.m_pBpmFourThirdsAction, w.m_pBpmThreeHalvesAction))
    (fun w w' hb => by rw [hideUnhidePurge_frame _ _ w w' hb]) g7
  have f6 := guarded_frame
    (fun w : Widgets => (w.m_pClearBeatsAction, w.m_pBpmLockAction, w.m_pBpmUnlockAction,
      w.m_pBpmDoubleAction, w.m_pBpmHalveAction, w.m_pBpmTwoThirdsAction,
      w.m_pBpmThreeFourthsAction, w.m_pBpmFourThirdsAction, w.m_pBpmThreeHalvesAction))
    (fun w w' hb => by rw [color_frame _ _ _ w w' (deref_inv hb).2]) g6
  have f := f8.trans (f7.trans f6)
  simp only [Prod.mk.injEq] at f
  exact f

/-- The loop of the `BPM` block finds out whether any selected track is locked. -/
theorem anyLocked_fold (tracks : TrackStore) (trackPointers : List TrackPointer) (a : Bool) :
    trackPointers.foldl
        (fun anyLocked pTrack =>
          if !anyLocked && (tracks pTrack).bpmLocked then true else anyLocked)
        a =
      (a || trackPointers.any fun p => (tracks p).bpmLocked) := by
  induction trackPointers generalizing a with
  | nil => simp
  | cons p rest ih =>
    rw [List.foldl_cons, ih, List.any_cons]
    cases a <;> cases (tracks p).bpmLocked <;> rfl

/-- The loop of the `Reset` block only ever looks at the first selected track. -/
theorem allowClear_fold (locked : Bool) (trackPointers : List TrackPointer) (a : Bool) :
    trackPointers.foldl
        (fun allowClear (_ : TrackPointer) => if allowClear && locked then false else allowClear)
        a =
      (a && (trackPointers.isEmpty || !locked)) := by
  induction trackPointers generalizing a with
  | nil => simp
  | cons p rest ih =>
    rw [List.foldl_cons, ih]
    cases a <;> cases locked <;> simp

/-- After `updateMenus` with the `BPM` feature enabled: "Unlock BPM" is enabled
exactly when some selected track is locked, "Lock BPM" and the six scale
actions exactly when none is. -/
theorem updateMenus_bpm_actions (m m' : WTrackMenu) (ctl : Controls) (tracks : TrackStore)
    (hok : updateMenus m ctl tracks = .ok m') (hbpm : featureIsEnabled m .BPM = true) :
    m'.ui.m_pBpmUnlockAction.enabled =
        ((getTrackPointers m).any fun p => (tracks p).bpmLocked) ∧
      m'.ui.m_pBpmLockAction.enabled =
        (!(getTrackPointers m).any fun p => (tracks p).bpmLocked) ∧
      m'.ui.m_pBpmDoubleAction.enabled =
        (!(getTrackPointers m).any fun p => (tracks p).bpmLocked) ∧
      m'.ui.m_pBpmHalveAction.enabled =
        (!(getTrackPointers m).any fun p => (tracks p).bpmLocked) ∧
      m'.ui.m_pBpmTwoThirdsAction.enabled =
        (!(getTrackPointers m).any fun p => (tracks p).bpmLocked) ∧
      m'.ui.m_pBpmThreeFourthsAction.enabled =
        (!(getTrackPointers m).any fun p => (tracks p).bpmLocked) ∧
      m'.ui.m_pBpmFourThirdsAction.enabled =
        (!(getTrackPointers m).any fun p => (tracks p).bpmLocked) ∧
      m'.ui.m_pBpmThreeHalvesAction.enabled =
        (!(getTrackPointers m).any fun p => (tracks p).bpmLocked) := by
  have hw := (updateMenus_inv m m' ctl tracks hok).2.2.2.2.2.1
  unfold updateMenus.widgets at hw
  obtain ⟨w5, h5, _, hlock, hunlock, hd, hh, h23, h34, h43, h32⟩ :=
    tail_frame m ctl tracks _ _ hw
  obtain ⟨w4, _, g5⟩ := guarded_inv h5
  unfold updateMenus.guarded at g5
  rw [hbpm] at g5
  simp only [if_true] at g5
  have hw5 := (Except.ok.inj (deref_inv g5).2).symm
  rw [hlock, hunlock, hd, hh, h23, h34, h43, h32, hw5]
  simp only [updateMenus.bpm, anyLocked_fold, Bool.false_or, and_self]

/-- After `updateMenus` with the `Reset` feature enabled the reset action of the
tempo grid is enabled exactly when the first selected track is not locked. -/
theorem updateMenus_clearBeats_action (m m' : WTrackMenu) (ctl : Controls)
    (tracks : TrackStore) (hok : updateMenus m ctl tracks = .ok m')
    (hreset : featureIsEnabled m .Reset = true) :
    m'.ui.m_pClearBeatsAction.enabled =
      match getTrackPointers m with
      | [] => true
      | first :: _ => !(tracks first).bpmLocked := by
  have hw := (updateMenus_inv m m' ctl tracks hok).2.2.2.2.2.1
  unfold updateMenus.widgets at hw
  obtain ⟨w5, h5, hclear, _⟩ := tail_frame m ctl tracks _ _ hw
  obtain ⟨w4, h4, g5⟩ := guarded_inv h5
  obtain ⟨w3, _, g4⟩ := guarded_inv h4
  have f5 := guarded_frame (fun w : Widgets => w.m_pClearBeatsAction)
    (fun w w' hb => by rw [← Except.ok.inj (deref_inv hb).2]; rfl) g5
  unfold updateMenus.guarded at g4
  rw [hreset] at g4
  simp only [if_true] at g4
  have hw4 := (Except.ok.inj (deref_inv g4).2).symm
  simp only at f5
  rw [hclear, f5, hw4]
  unfold updateMenus.reset
  cases getTrackPointers m with
  | nil => rfl
  | cons first rest =>
    simp only
    rw [allowClear_fold]
    simp

/-- C19: a menu is constructed without a track model and with `Reset` requested,
and the tracks 0 (not locked) and 1 (tempo-locked) are selected.  `updateMenus`
leaves the reset action "BPM and Beatgrid" enabled, although a selected track
is locked: the loop looks at the first track in every round.  With the same
tracks in the other order the action is disabled. -/
theorem reset_action_reads_first_track :
    featureIsEnabled { WTrackMenu.new 64 none with m_pTrackPointerList := [0, 1] }
        Feature.Reset = true ∧
      getTrackPointers { WTrackMenu.new 64 none with m_pTrackPointerList := [0, 1] } = [0, 1] ∧
      (lockedSecond 0).bpmLocked = false ∧ (lockedSecond 1).bpmLocked = true ∧
      (∃ m', updateMenus { WTrackMenu.new 64 none with m_pTrackPointerList := [0, 1] } {}
            lockedSecond = .ok m' ∧
          m'.ui.m_pClearBeatsAction.enabled = true) ∧
      ∃ m', updateMenus { WTrackMenu.new 64 none with m_pTrackPointerList := [1, 0] } {}
            lockedSecond = .ok m' ∧
          m'.ui.m_pClearBeatsAction.enabled = false :=
  ⟨by decide, rfl, rfl, rfl, ⟨_, rfl, rfl⟩, ⟨_, rfl, rfl⟩⟩

/-- C20: with `BPM` enabled and a selection that is not empty, after
`updateMenus` "Lock BPM" is disabled if every selected track is locked and
"Unlock BPM" is disabled if no selected track is locked; and `updateMenus`
returns when the menus and actions of the enabled features exist. -/
theorem updateMenus_lock_unlock (m : WTrackMenu) (ctl : Controls) (tracks : TrackStore)
    (hsel : getTrackPointers m ≠ []) (hbpm : featureIsEnabled m Feature.BPM = true) :
    (∀ m', updateMenus m ctl tracks = .ok m' →
        ((∀ p ∈ getTrackPointers m, (tracks p).bpmLocked = true) →
          m'.ui.m_pBpmLockAction.enabled = false) ∧
        ((∀ p ∈ getTrackPointers m, (tracks p).bpmLocked = false) →
          m'.ui.m_pBpmUnlockAction.enabled = false)) ∧
      ((m.m_pTrackModel = none → m.m_eTrackModelFeatures = Feature.TrackModelFeatures) →
        (∀ flag : Feature, featureIsEnabled m flag = true → flag ∈ m.ui.created) →
        ∃ m', updateMenus m ctl tracks = .ok m') := by
  refine ⟨?_, fun hinv hcreated => updateMenus_returns m ctl tracks hsel hinv hcreated⟩
  intro m' hok
  obtain ⟨hunlock, hlock, _⟩ := updateMenus_bpm_actions m m' ctl tracks hok hbpm
  refine ⟨?_, ?_⟩
  · intro hall
    rw [hlock]
    cases hl : getTrackPointers m with
    | nil => exact absurd hl hsel
    | cons p rest =>
      have hp : (tracks p).bpmLocked = true := hall p (by rw [hl]; exact List.mem_cons_self _ _)
      simp [List.any_cons, hp]
  · intro hall
    rw [hunlock]
    rw [Bool.eq_false_iff]
    intro hany
    obtain ⟨p, hp, hlocked⟩ := List.any_eq_true.1 hany
    rw [hall p hp] at hlocked
    exact Bool.noConfusion hlocked

/-- Witness of C20: a menu constructed without a track model and with `BPM`
requested.  With the locked track 1 alone selected `updateMenus` returns with
"Lock BPM" disabled; with the track 0 alone, which is not locked, with "Unlock
BPM" disabled. -/
theorem updateMenus_lock_unlock_witness :
    (∃ m', updateMenus { WTrackMenu.new 128 none with m_pTrackPointerList := [1] } {}
          lockedSecond = .ok m' ∧
        m'.ui.m_pBpmLockAction.enabled = false) ∧
      ∃ m', updateMenus { WTrackMenu.new 128 none with m_pTrackPointerList := [0] } {}
          lockedSecond = .ok m' ∧
        m'.ui.m_pBpmUnlockAction.enabled = false :=
  ⟨((updateMenus_lock_unlock { WTrackMenu.new 128 none with m_pTrackPointerList := [1] } {}
        lockedSecond (by decide) (by decide)).2 (fun _ => rfl)
        (fun flag => by cases flag <;> decide)).imp
      fun m' hok =>
        ⟨hok, ((updateMenus_lock_unlock
          { WTrackMenu.new 128 none with m_pTrackPointerList := [1] } {} lockedSecond
          (by decide) (by decide)).1 m' hok).1 (by decide)⟩,
    ((updateMenus_lock_unlock { WTrackMenu.new 128 none with m_pTrackPointerList := [0] } {}
        lockedSecond (by decide) (by decide)).2 (fun _ => rfl)
        (fun flag => by cases flag <;> decide)).imp
      fun m' hok =>
        ⟨hok, ((updateMenus_lock_unlock
          { WTrackMenu.new 128 none with m_pTrackPointerList := [0] } {} lockedSecond
          (by decide) (by decide)).1 m' hok).2 (by decide)⟩⟩

/-- C24: constructed without a track model, a menu whose requested flags hold a
source-dependent flag ends with no active feature at all, for the requested
flags are and-ed with the truth value of `!m_eTrackModelFeatures`, which is 0.
Asked for `LoadTo` and `Remove` (flags 18) the menu should keep `LoadTo`
(flags 2); it keeps nothing, and `LoadTo` is reported disabled. -/
theorem constructor_clears_all_features :
    (∀ flags : Features,
        (WTrackMenu.new flags none).m_eActiveFeatures =
          if (Feature.TrackModelFeatures &&& flags) == 0 then flags else 0) ∧
      testFlag 18 Feature.LoadTo.toInt = true ∧
      testFlag 18 Feature.Remove.toInt = true ∧
      testFlag Feature.TrackModelFeatures Feature.LoadTo.toInt = false ∧
      (18 : Features) ^^^ (18 &&& Feature.TrackModelFeatures) = 2 ∧
      (WTrackMenu.new 18 none).m_eActiveFeatures = 0 ∧
      featureIsEnabled (WTrackMenu.new 18 none) Feature.LoadTo = false := by
  refine ⟨?_, by decide, by decide, by decide, by decide, by decide, by decide⟩
  intro flags
  rw [new_activeFeatures]
  rfl

/-- C25: with `BPM` enabled, after every `updateMenus` that returns, "Unlock BPM"
is enabled exactly when some selected track is tempo-locked and "Lock BPM"
exactly when none is, so exactly one of the two is enabled, and each of the
six scale actions is enabled exactly when "Lock BPM" is; and `updateMenus`
does return for a selection that is not empty when the menus and actions of
the enabled features exist. -/
theorem updateMenus_bpm_exclusive (m : WTrackMenu) (ctl : Controls) (tracks : TrackStore)
    (hbpm : featureIsEnabled m Feature.BPM = true) :
    (∀ m', updateMenus m ctl tracks = .ok m' →
        (m'.ui.m_pBpmUnlockAction.enabled = true ↔
          ∃ p ∈ getTrackPointers m, (tracks p).bpmLocked = true) ∧
        (m'.ui.m_pBpmLockAction.enabled = true ↔
          ∀ p ∈ getTrackPointers m, (tracks p).bpmLocked = false) ∧
        m'.ui.m_pBpmLockAction.enabled = !m'.ui.m_pBpmUnlockAction.enabled ∧
        m'.ui.m_pBpmDoubleAction.enabled = m'.ui.m_pBpmLockAction.enabled ∧
        m'.ui.m_pBpmHalveAction.enabled = m'.ui.m_pBpmLockAction.enabled ∧
        m'.ui.m_pBpmTwoThirdsAction.enabled = m'.ui.m_pBpmLockAction.enabled ∧
        m'.ui.m_pBpmThreeFourthsAction.enabled = m'.ui.m_pBpmLockAction.enabled ∧
        m'.ui.m_pBpmFourThirdsAction.enabled = m'.ui.m_pBpmLockAction.enabled ∧
        m'.ui.m_pBpmThreeHalvesAction.enabled = m'.ui.m_pBpmLockAction.enabled) ∧
      (getTrackPointers m ≠ [] →
        (m.m_pTrackModel = none → m.m_eTrackModelFeatures = Feature.TrackModelFeatures) →
        (∀ flag : Feature, featureIsEnabled m flag = true → flag ∈ m.ui.created) →
        ∃ m', updateMenus m ctl tracks = .ok m') := by
  refine ⟨?_, fun hsel hinv hcreated => updateMenus_returns m ctl tracks hsel hinv hcreated⟩
  intro m' hok
  obtain ⟨hunlock, hlock, hd, hh, h23, h34, h43, h32⟩ :=
    updateMenus_bpm_actions m m' ctl tracks hok hbpm
  refine ⟨?_, ?_, ?_, ?_, ?_, ?_, ?_, ?_, ?_⟩
  · rw [hunlock, List.any_eq_true]
  · rw [hlock, Bool.not_eq_true', List.any_eq_false]
    constructor
    · intro h p hp
      exact Bool.eq_false_iff.2 (h p hp)
    · intro h p hp
      exact Bool.eq_false_iff.1 (h p hp)
  · rw [hlock, hunlock]
  · rw [hd, hlock]
  · rw [hh, hlock]
  · rw [h23, hlock]
  · rw [h34, hlock]
  · rw [h43, hlock]
  · rw [h32, hlock]

/-- Witness of C25: a menu constructed without a track model and with `BPM`
requested has the tracks 0 (not locked) and 1 (locked) selected: `updateMenus`
returns with "Unlock BPM" enabled and "Lock BPM" and "Double BPM" disabled. -/
theorem updateMenus_bpm_exclusive_witness :
    ∃ m', updateMenus { WTrackMenu.new 128 none with m_pTrackPointerList := [0, 1] } {}
          lockedSecond = .ok m' ∧
        m'.ui.m_pBpmUnlockAction.enabled = true ∧
        m'.ui.m_pBpmLockAction.enabled = !m'.ui.m_pBpmUnlockAction.enabled ∧
        m'.ui.m_pBpmDoubleAction.enabled = m'.ui.m_pBpmLockAction.enabled :=
  ((updateMenus_bpm_exclusive { WTrackMenu.new 128 none with m_pTrackPointerList := [0, 1] } {}
      lockedSecond (by decide)).2 (by decide) (fun _ => rfl)
      (fun flag => by cases flag <;> decide)).imp
    fun m' hok =>
      ⟨hok,
        ((updateMenus_bpm_exclusive
          { WTrackMenu.new 128 none with m_pTrackPointerList := [0, 1] }
          {} lockedSecond (by decide)).1 m' hok).1.2 ⟨1, by decide, rfl⟩,
        ((updateMenus_bpm_exclusive
          { WTrackMenu.new 128 none with m_pTrackPointerList := [0, 1] }
          {} lockedSecond (by decide)).1 m' hok).2.2.1,
        ((updateMenus_bpm_exclusive
          { WTrackMenu.new 128 none with m_pTrackPointerList := [0, 1] }
          {} lockedSecond (by decide)).1 m' hok).2.2.2.1⟩

/-- The `Remove` block writes the three remove actions only. -/
theorem remove_frame (pTrackModel : Option TrackModel) (created : Bool) (w w' : Widgets)
    (h : updateMenus.remove pTrackModel created w = .ok w') :
    w' = { w with
      m_pRemoveAct := w'.m_pRemoveAct, m_pRemovePlaylistAct := w'.m_pRemovePlaylistAct
      m_pRemoveCrateAct := w'.m_pRemoveCrateAct } := by
  cases pTrackModel with
  | none => exact Except.noConfusion h
  | some tm =>
    simp only [updateMenus.remove] at h
    revert h
    cases created <;> cases tm.hasCapabilities .TRACKMODELCAPS_REMOVE <;>
      cases tm.hasCapabilities .TRACKMODELCAPS_REMOVE_PLAYLIST <;>
        cases tm.hasCapabilities .TRACKMODELCAPS_REMOVE_CRATE <;> intro h <;>
          first
            | exact Except.noConfusion h
            | rw [← Except.ok.inj h]

/-- The `Metadata` block writes the MusicBrainz action and the cover menu only. -/
theorem metadata_frame (tracks : TrackStore) (trackPointers : List TrackPointer)
    (single : Bool) (w w' : Widgets)
    (h : updateMenus.metadata tracks trackPointers single w = .ok w') :
    w' = { w with
      m_pImportMetadataFromMusicBrainzAct := w'.m_pImportMetadataFromMusicBrainzAct
      m_pCoverMenu := w'.m_pCoverMenu } := by
  unfold updateMenus.metadata at h
  cases hl : trackPointers.getLast? with
  | none =>
    rw [hl] at h
    exact Except.noConfusion h
  | some p =>
    rw [hl] at h
    simp only at h
    rw [← Except.ok.inj h]

/-- After the widgets were updated the deck menu is the one the `LoadTo` block
built if `LoadTo` is enabled, and the old one otherwise: no later block writes
the deck menu. -/
theorem deckMenu_frame (m : WTrackMenu) (ctl : Controls) (tracks : TrackStore) (wf : Widgets)
    (h : updateMenus.widgets m ctl tracks = .ok wf) :
    wf.m_pDeckMenu =
      if featureIsEnabled m .LoadTo then
        (updateMenus.loadTo ctl ((getTrackPointers m).length == 1) m.ui).m_pDeckMenu
      else m.ui.m_pDeckMenu := by
  unfold updateMenus.widgets at h
  obtain ⟨w7, h7, g8⟩ := guarded_inv h
  obtain ⟨w6, h6, g7⟩ := guarded_inv h7
  obtain ⟨w5, h5, g6⟩ := guarded_inv h6
  obtain ⟨w4, h4, g5⟩ := guarded_inv h5
  obtain ⟨w3, h3, g4⟩ := guarded_inv h4
  obtain ⟨w2, h2, g3⟩ := guarded_inv h3
  obtain ⟨w1, h1, g2⟩ := guarded_inv h2
  obtain ⟨w0, h0, g1⟩ := guarded_inv h1
  have f8 := guarded_frame (fun w : Widgets => w.m_pDeckMenu)
    (fun w w' hb => by rw [← Except.ok.inj (deref_inv hb).2]; rfl) g8
  have f7 := guarded_frame (fun w : Widgets => w.m_pDeckMenu)
    (fun w w' hb => by rw [hideUnhidePurge_frame _ _ w w' hb]) g7
  have f6 := guarded_frame (fun w : Widgets => w.m_pDeckMenu)
    (fun w w' hb => by rw [color_frame _ _ _ w w' (deref_inv hb).2]) g6
  have f5 := guarded_frame (fun w : Widgets => w.m_pDeckMenu)
    (fun w w' hb => by rw [← Except.ok.inj (deref_inv hb).2]; rfl) g5
  have f4 := guarded_frame (fun w : Widgets => w.m_pDeckMenu)
    (fun w w' hb => by rw [← Except.ok.inj (deref_inv hb).2]; rfl) g4
  have f3 := guarded_frame (fun w : Widgets => w.m_pDeckMenu)
    (fun w w' hb => by rw [metadata_frame _ _ _ w w' (deref_inv hb).2]) g3
  have f2 := guarded_frame (fun w : Widgets => w.m_pDeckMenu)
    (fun w w' hb => by rw [remove_frame _ _ w w' hb]) g2
  simp only at f8 f7 f6 f5 f4 f3 f2
  rw [f8, f7, f6, f5, f4, f3, f2]
  have hw0 : w0 = m.ui := (Except.ok.inj h0).symm
  subst hw0
  unfold updateMenus.guarded at g1
  cases hl : featureIsEnabled m .LoadTo with
  | true =>
    rw [hl] at g1
    simp only [if_true] at g1
    rw [← Except.ok.inj (deref_inv g1).2]
    rfl
  | false =>
    rw [hl] at g1
    simp only [Bool.false_eq_true, if_false] at g1
    rw [← Except.ok.inj g1]
    rfl

/-- The deck menu that the `LoadTo` block builds for `n` decks: one action per
deck, "Deck 1" to "Deck n". -/
theorem loadTo_deckMenu (ctl : Controls) (single : Bool) (w : Widgets) (n : Nat) (hn : 0 < n)
    (hdecks : ctl.numDecks = (n : Int)) :
    (updateMenus.loadTo ctl single w).m_pDeckMenu =
      (List.range n).map fun k =>
        MenuItem.action
          { text := "Deck " ++ toString (k + 1)
            enabled := (!ctl.deckPlaying k || ctl.allowTrackLoadToPlayingDeck) && single } := by
  have hpos : ctl.numDecks > 0 := by rw [hdecks]; exact_mod_cast hn
  have hnat : ctl.numDecks.toNat = n := by rw [hdecks]; exact Int.toNat_natCast n
  unfold updateMenus.loadTo
  simp only [hpos, if_true, List.nil_append, hnat]
  split <;> simp

/-- C21: with `LoadTo` enabled and `n > 0` decks, after every `updateMenus` that
returns the deck menu consists of exactly the `n` actions "Deck 1" to
"Deck n" in this order, and "Deck N" is enabled exactly when one track is
selected and deck `N` is not playing or tracks may be loaded to a playing
deck; and `updateMenus` does return for a selection that is not empty when the
menus and actions of the enabled features exist. -/
theorem updateMenus_deck_menu (m : WTrackMenu) (ctl : Controls) (tracks : TrackStore) (n : Nat)
    (hload : featureIsEnabled m Feature.LoadTo = true) (hn : 0 < n)
    (hdecks : ctl.numDecks = (n : Int)) :
    (∀ m', updateMenus m ctl tracks = .ok m' →
        m'.ui.m_pDeckMenu.length = n ∧
        ∀ N, 1 ≤ N → N ≤ n →
          ∃ a : QAction, m'.ui.m_pDeckMenu[N - 1]? = some (MenuItem.action a) ∧
            a.text = "Deck " ++ toString N ∧
            (a.enabled = true ↔
              (getTrackPointers m).length = 1 ∧
                (ctl.deckPlaying (N - 1) = false ∨ ctl.allowTrackLoadToPlayingDeck = true))) ∧
      (getTrackPointers m ≠ [] →
        (m.m_pTrackModel = none → m.m_eTrackModelFeatures = Feature.TrackModelFeatures) →
        (∀ flag : Feature, featureIsEnabled m flag = true → flag ∈ m.ui.created) →
        ∃ m', updateMenus m ctl tracks = .ok m') := by
  refine ⟨?_, fun hsel hinv hcreated => updateMenus_returns m ctl tracks hsel hinv hcreated⟩
  intro m' hok
  have hw := (updateMenus_inv m m' ctl tracks hok).2.2.2.2.2.1
  have hmenu := deckMenu_frame m ctl tracks m'.ui hw
  rw [hload] at hmenu
  simp only [if_true] at hmenu
  rw [loadTo_deckMenu ctl _ m.ui n hn hdecks] at hmenu
  rw [hmenu]
  refine ⟨by simp, ?_⟩
  intro N h1 hN
  have hlt : N - 1 < n := by omega
  have hN1 : N - 1 + 1 = N := by omega
  refine ⟨{ text := "Deck " ++ toString N
            enabled := (!ctl.deckPlaying (N - 1) || ctl.allowTrackLoadToPlayingDeck) &&
              ((getTrackPointers m).length == 1) }, ?_, rfl, ?_⟩
  · rw [List.getElem?_map, List.getElem?_range hlt]
    simp only [Option.map_some', hN1]
  · simp only [Bool.and_eq_true, Bool.or_eq_true, Bool.not_eq_true', beq_iff_eq]
    tauto

/-- Witness of C21: a menu constructed without a track model and with `LoadTo`
requested; three decks, deck 2 is playing, one track is selected and tracks may
not be loaded to playing decks: "Deck 2" is the second action. -/
theorem updateMenus_deck_menu_witness :
    ∃ m', updateMenus { WTrackMenu.new 2 none with m_pTrackPointerList := [0] }
          { numDecks := 3, deckPlaying := fun k => decide (k = 1) } threeTracks = .ok m' ∧
        m'.ui.m_pDeckMenu.length = 3 ∧
        ∃ a : QAction, m'.ui.m_pDeckMenu[2 - 1]? = some (MenuItem.action a) ∧
          a.text = "Deck " ++ toString 2 ∧
          (a.enabled = true ↔
            (getTrackPointers
                { WTrackMenu.new 2 none with m_pTrackPointerList := [0] }).length = 1 ∧
              (decide (2 - 1 = 1) = false ∨ false = true)) :=
  ((updateMenus_deck_menu { WTrackMenu.new 2 none with m_pTrackPointerList := [0] }
      { numDecks := 3, deckPlaying := fun k => decide (k = 1) } threeTracks 3 (by decide)
      (by decide) rfl).2 (by decide) (fun _ => rfl) (fun flag => by cases flag <;> decide)).imp
    fun m' hok =>
      ⟨hok,
        ((updateMenus_deck_menu { WTrackMenu.new 2 none with m_pTrackPointerList := [0] }
          { numDecks := 3, deckPlaying := fun k => decide (k = 1) } threeTracks 3 (by decide)
          (by decide) rfl).1 m' hok).1,
        ((updateMenus_deck_menu { WTrackMenu.new 2 none with m_pTrackPointerList := [0] }
          { numDecks := 3, deckPlaying := fun k => decide (k = 1) } threeTracks 3 (by decide)
          (by decide) rfl).1 m' hok).2 2 (by decide) (by decide)⟩

/-- A run that ends in a fault after a guarded block was at fault before the
block, or the block is. -/
theorem guarded_error {x : Except Fault Widgets} {enabled : Bool}
    {block : Widgets → Except Fault Widgets} {e : Fault}
    (h : (x >>= updateMenus.guarded enabled block) = .error e) :
    x = .error e ∨ ∃ w, block w = .error e := by
  cases x with
  | error e' => exact Or.inl h
  | ok w =>
    right
    change updateMenus.guarded enabled block w = .error e at h
    unfold updateMenus.guarded at h
    cases enabled with
    | true => exact ⟨w, h⟩
    | false => exact Except.noConfusion h

/-- A block behind a pointer is at fault: the pointer is null, or the block is at
fault. -/
theorem deref_error {created : Bool} {block : Widgets → Except Fault Widgets} {w : Widgets}
    {e : Fault} (h : updateMenus.deref created block w = .error e) :
    e = Fault.nullWidget ∨ block w = .error e := by
  cases created with
  | true => exact Or.inr h
  | false => exact Or.inl (Except.error.inj h).symm

/-- The `Remove` block reads no list. -/
theorem remove_in_bounds (pTrackModel : Option TrackModel) (created : Bool) (w : Widgets) :
    updateMenus.remove pTrackModel created w ≠ .error Fault.indexOutOfRange := by
  cases pTrackModel with
  | none => exact fun h => Fault.noConfusion (Except.error.inj h)
  | some tm =>
    simp only [updateMenus.remove]
    cases created <;> cases tm.hasCapabilities .TRACKMODELCAPS_REMOVE <;>
      cases tm.hasCapabilities .TRACKMODELCAPS_REMOVE_PLAYLIST <;>
        cases tm.hasCapabilities .TRACKMODELCAPS_REMOVE_CRATE <;> intro h <;>
          first
            | exact Except.noConfusion h
            | exact Fault.noConfusion (Except.error.inj h)

/-- The `HideUnhidePurge` block reads no list. -/
theorem hideUnhidePurge_in_bounds (pTrackModel : Option TrackModel) (created : Bool)
    (w : Widgets) :
    updateMenus.hideUnhidePurge pTrackModel created w ≠ .error Fault.indexOutOfRange := by
  cases pTrackModel with
  | none => exact fun h => Fault.noConfusion (Except.error.inj h)
  | some tm =>
    simp only [updateMenus.hideUnhidePurge]
    cases created <;> cases tm.hasCapabilities .TRACKMODELCAPS_HIDE <;>
      cases tm.hasCapabilities .TRACKMODELCAPS_UNHIDE <;>
        cases tm.hasCapabilities .TRACKMODELCAPS_PURGE <;> intro h <;>
          first
            | exact Except.noConfusion h
            | exact Fault.noConfusion (Except.error.inj h)

/-- With a track selected the blocks of `updateMenus` never read a list out of
range. -/
theorem widgets_in_bounds (m : WTrackMenu) (ctl : Controls) (tracks : TrackStore)
    (hsel : getTrackPointers m ≠ []) :
    updateMenus.widgets m ctl tracks ≠ .error Fault.indexOutOfRange := by
  have hpure : ∀ (created : Bool) (f : Widgets → Widgets) (w : Widgets),
      updateMenus.deref created (fun w => .ok (f w)) w ≠ .error Fault.indexOutOfRange := by
    intro created f w hb
    rcases deref_error hb with he | hb
    · exact Fault.noConfusion he
    · exact Except.noConfusion hb
  intro h
  unfold updateMenus.widgets at h
  rcases guarded_error h with h | ⟨w, hb⟩
  · rcases guarded_error h with h | ⟨w, hb⟩
    · rcases guarded_error h with h | ⟨w, hb⟩
      · rcases guarded_error h with h | ⟨w, hb⟩
        · rcases guarded_error h with h | ⟨w, hb⟩
          · rcases guarded_error h with h | ⟨w, hb⟩
            · rcases guarded_error h with h | ⟨w, hb⟩
              · rcases guarded_error h with h | ⟨w, hb⟩
                · exact Except.noConfusion h
                · exact hpure _ _ w hb
              · exact remove_in_bounds _ _ w hb
            · rcases deref_error hb with he | hb
              · exact Fault.noConfusion he
              · obtain ⟨w', hok⟩ := metadata_ok tracks (getTrackPointers m)
                  ((getTrackPointers m).length == 1) w hsel
                rw [hok] at hb
                exact Except.noConfusion hb
          · exact hpure _ _ w hb
        · exact hpure _ _ w hb
      · rcases deref_error hb with he | hb
        · exact Fault.noConfusion he
        · obtain ⟨w', hok⟩ := color_ok ctl tracks (getTrackPointers m) w hsel
          rw [hok] at hb
          exact Except.noConfusion hb
    · exact hideUnhidePurge_in_bounds _ _ w hb
  · exact hpure _ _ w hb

/-- With a track selected `updateMenus` never ends in a list access out of range. -/
theorem updateMenus_in_bounds (m : WTrackMenu) (ctl : Controls) (tracks : TrackStore)
    (hsel : getTrackPointers m ≠ []) :
    updateMenus m ctl tracks ≠ .error Fault.indexOutOfRange := by
  intro h
  unfold updateMenus at h
  cases hw : updateMenus.widgets m ctl tracks with
  | error e =>
    rw [hw] at h
    have he : e = Fault.indexOutOfRange := Except.error.inj h
    rw [he] at hw
    exact widgets_in_bounds m ctl tracks hsel hw
  | ok w =>
    rw [hw] at h
    exact Except.noConfusion h

/-- A list that is not empty has a first and a last element. -/
theorem first_last_of_ne_nil {α : Type} (l : List α) (h : l ≠ []) :
    l[0]? ≠ none ∧ l.getLast? ≠ none := by
  cases l with
  | nil => exact absurd rfl h
  | cons a rest =>
    refine ⟨by simp, ?_⟩
    intro hl
    exact absurd (List.getLast?_eq_none_iff.1 hl) h

/-- C26: when `loadTracks` calls `updateMenus` in the matching mode, that is with
the resolved list not empty, `getTrackPointers` of the menu passed to
`updateMenus` is not empty either: without a track model it is the stored list
of pointers, with a track model it is the list of tracks the model returns for
the stored indices.  It has a first and a last element, and for no input list
does `loadTracks` end in a list access out of range. -/
theorem loadTracks_accesses_in_bounds (m : WTrackMenu) (tc : TrackCollection) (ctl : Controls)
    (tracks : TrackStore) :
    (m.m_pTrackModel = none → ∀ trackIdList : List TrackId,
        (trackIdList.filterMap tc.getTrackById ≠ [] →
          loadTracks_TrackIdList m tc ctl tracks trackIdList =
              updateMenus
                { m with
                  m_pTrackPointerList := trackIdList.filterMap tc.getTrackById
                  m_pTrackIndexList := [] }
                ctl tracks ∧
            getTrackPointers
                { m with
                  m_pTrackPointerList := trackIdList.filterMap tc.getTrackById
                  m_pTrackIndexList := [] } =
              trackIdList.filterMap tc.getTrackById ∧
            (trackIdList.filterMap tc.getTrackById)[0]? ≠ none ∧
            (trackIdList.filterMap tc.getTrackById).getLast? ≠ none) ∧
          loadTracks_TrackIdList m tc ctl tracks trackIdList ≠
            .error Fault.indexOutOfRange) ∧
      (∀ tm : TrackModel, m.m_pTrackModel = some tm → ∀ indexList : List QModelIndex,
        ((indexList.filter fun index => (tm.getTrack index).isSome) ≠ [] →
          loadTracks_QModelIndexList m ctl tracks indexList =
              updateMenus
                { m with
                  m_pTrackPointerList := []
                  m_pTrackIndexList :=
                    indexList.filter fun index => (tm.getTrack index).isSome }
                ctl tracks ∧
            getTrackPointers
                { m with
                  m_pTrackPointerList := []
                  m_pTrackIndexList :=
                    indexList.filter fun index => (tm.getTrack index).isSome } =
              indexList.filterMap tm.getTrack ∧
            (indexList.filterMap tm.getTrack)[0]? ≠ none ∧
            (indexList.filterMap tm.getTrack).getLast? ≠ none) ∧
          loadTracks_QModelIndexList m ctl tracks indexList ≠
            .error Fault.indexOutOfRange) := by
  refine ⟨?_, ?_⟩
  · intro hnone trackIdList
    have hptrs : getTrackPointers
        { m with
          m_pTrackPointerList := trackIdList.filterMap tc.getTrackById
          m_pTrackIndexList := [] } =
        trackIdList.filterMap tc.getTrackById := by
      simp only [getTrackPointers, hnone]
    have hcall : trackIdList.filterMap tc.getTrackById ≠ [] →
        loadTracks_TrackIdList m tc ctl tracks trackIdList =
          updateMenus
            { m with
              m_pTrackPointerList := trackIdList.filterMap tc.getTrackById
              m_pTrackIndexList := [] }
            ctl tracks := by
      intro hne
      unfold loadTracks_TrackIdList
      simp only [clearTrackSelection, isEmpty_eq_false_of_ne_nil hne, Bool.not_false, if_true]
    refine ⟨fun hne => ⟨hcall hne, hptrs, first_last_of_ne_nil _ hne⟩, ?_⟩
    by_cases hne : trackIdList.filterMap tc.getTrackById = []
    · unfold loadTracks_TrackIdList
      simp only [clearTrackSelection, hne, List.isEmpty_nil, Bool.not_true,
        Bool.false_eq_true, if_false]
      exact fun h => Except.noConfusion h
    · rw [hcall hne]
      exact updateMenus_in_bounds _ ctl tracks (by rw [hptrs]; exact hne)
  · intro tm hsome indexList
    have hptrs : getTrackPointers
        { m with
          m_pTrackPointerList := []
          m_pTrackIndexList := indexList.filter fun index => (tm.getTrack index).isSome } =
        indexList.filterMap tm.getTrack := by
      simp only [getTrackPointers, hsome, getTrackIndices]
      exact filterMap_filter_isSome tm.getTrack indexList
    have hres : (indexList.filter fun index => (tm.getTrack index).isSome) ≠ [] →
        indexList.filterMap tm.getTrack ≠ [] := by
      intro hne hnil
      cases hf : indexList.filter (fun index => (tm.getTrack index).isSome) with
      | nil => exact hne hf
      | cons i rest =>
        have hi : i ∈ indexList.filter (fun index => (tm.getTrack index).isSome) := by
          rw [hf]
          exact List.mem_cons_self _ _
        obtain ⟨hin, hs⟩ := List.mem_filter.1 hi
        obtain ⟨p, hp⟩ := Option.isSome_iff_exists.1 hs
        have hmem : p ∈ indexList.filterMap tm.getTrack := List.mem_filterMap.2 ⟨i, hin, hp⟩
        rw [hnil] at hmem
        exact List.not_mem_nil _ hmem
    have hcall : (indexList.filter fun index => (tm.getTrack index).isSome) ≠ [] →
        loadTracks_QModelIndexList m ctl tracks indexList =
          updateMenus
            { m with
              m_pTrackPointerList := []
              m_pTrackIndexList := indexList.filter fun index => (tm.getTrack index).isSome }
            ctl tracks := by
      intro hne
      unfold loadTracks_QModelIndexList
      simp only [clearTrackSelection, hsome, isEmpty_eq_false_of_ne_nil hne, Bool.not_false,
        if_true]
    refine ⟨fun hne => ⟨hcall hne, hptrs, first_last_of_ne_nil _ (hres hne)⟩, ?_⟩
    by_cases hne : (indexList.filter fun index => (tm.getTrack index).isSome) = []
    · unfold loadTracks_QModelIndexList
      simp only [clearTrackSelection, hsome, hne, List.isEmpty_nil, Bool.not_true,
        Bool.false_eq_true, if_false]
      exact fun h => Except.noConfusion h
    · rw [hcall hne]
      exact updateMenus_in_bounds _ ctl tracks (by rw [hptrs]; exact hres hne)

/-- Witness of C26: the menu constructed without a track model and with every
feature requested that needs none is given the ids 12, 99 and 10;
`updateMenus` is called with the two tracks found, and the call does not read
out of range. -/
theorem loadTracks_accesses_in_bounds_witness :
    (getTrackPointers
          { menuOfThree with
            m_pTrackPointerList := [12, 99, 10].filterMap smallCollection.getTrackById
            m_pTrackIndexList := [] } =
        [12, 99, 10].filterMap smallCollection.getTrackById ∧
      ([12, 99, 10].filterMap smallCollection.getTrackById)[0]? ≠ none ∧
      ([12, 99, 10].filterMap smallCollection.getTrackById).getLast? ≠ none) ∧
      loadTracks_TrackIdList menuOfThree smallCollection {} threeTracks [12, 99, 10] ≠
        .error Fault.indexOutOfRange :=
  ⟨(((loadTracks_accesses_in_bounds menuOfThree smallCollection {} threeTracks).1 rfl
        [12, 99, 10]).1 (by decide)).2,
    ((loadTracks_accesses_in_bounds menuOfThree smallCollection {} threeTracks).1 rfl
      [12, 99, 10]).2⟩

/-- The steps of a command that is not "clear waveform" over a list of tracks are
the loop over these tracks with the mutation of the command, and make no call. -/
theorem steps_of_command (c : ClearCommand) (hc : c ≠ .clearWaveform)
    (trackPointers : List TrackPointer) (tracks : TrackStore) (log : List Call) :
    (trackPointers.map fun p => (c, p)).foldl (fun state s => s.1.step s.2 state)
        (tracks, log) =
      (forEachTrack trackPointers c.perTrack tracks, log) := by
  induction trackPointers generalizing tracks with
  | nil => rfl
  | cons p rest ih =>
    simp only [List.map_cons, List.foldl_cons]
    have hstep : ClearCommand.step c p (tracks, log) =
        ((fun q => if q = p then c.perTrack (tracks p) else tracks q), log) := by
      simp [ClearCommand.step, hc]
    rw [hstep, ih]
    rfl

/-- The steps of "clear waveform" over the selected tracks are the slot
`slotClearWaveform`. -/
theorem steps_of_clearWaveform (m : WTrackMenu) (tracks : TrackStore) :
    ((getTrackPointers m).map fun p => (ClearCommand.clearWaveform, p)).foldl
        (fun state s => s.1.step s.2 state) (tracks, []) =
      slotClearWaveform m tracks := by
  rw [List.foldl_map]
  rfl

/-- The mutation of "clear tempo grid" in the words of the spec is the body of
the loop of `slotClearBeats`. -/
theorem perTrack_clearTempoGrid :
    ClearCommand.perTrack .clearTempoGrid =
      fun pTrack : Track =>
        if !pTrack.bpmLocked then { pTrack with beats := none } else pTrack := by
  funext t
  unfold ClearCommand.perTrack
  cases h : t.bpmLocked <;> simp [h]

/-- The source function is the composition the spec names. -/
theorem slotClearAllMetadata_eq_spec (m : WTrackMenu) (tracks : TrackStore) :
    slotClearAllMetadata m tracks = clearAllMetadataSpec m tracks := by
  unfold clearAllMetadataSpec clearAllMetadataSteps clearAllMetadataOrder
  simp only [List.flatMap_cons, List.flatMap_nil, List.append_nil, List.foldl_append]
  rw [steps_of_command .clearTempoGrid (by decide), steps_of_command .clearPlayCount (by decide),
    steps_of_command .clearMainCue (by decide), steps_of_command .clearHotCues (by decide),
    steps_of_command .clearIntroCue (by decide), steps_of_command .clearOutroCue (by decide),
    steps_of_command .clearLoopCue (by decide), steps_of_command .clearKey (by decide),
    steps_of_command .clearReplayGain (by decide), steps_of_clearWaveform,
    perTrack_clearTempoGrid]
  rfl

/-- Two characters with the same code are the same character. -/
theorem char_eq_of_toNat_eq {a b : Char} (h : a.toNat = b.toNat) : a = b := by
  apply Char.ext
  cases ha : a.val
  cases hb : b.val
  simp only [Char.toNat, ha, hb, UInt32.toNat] at h
  congr
  exact BitVec.eq_of_toNat_eq h

/-- Two texts with the same code units are the same text: a single unit is never
a surrogate, and the first unit of a pair is always a high surrogate. -/
theorem units_injective :
    ∀ l₁ l₂ : List Char, l₁.flatMap QChar.units = l₂.flatMap QChar.units → l₁ = l₂
  | [], [] => fun _ => rfl
  | [], b :: l₂ => by
    intro h
    simp only [List.flatMap_nil, List.flatMap_cons, QChar.units] at h
    split at h <;> simp at h
  | a :: l₁, [] => by
    intro h
    simp only [List.flatMap_nil, List.flatMap_cons, QChar.units] at h
    split at h <;> simp at h
  | a :: l₁, b :: l₂ => by
    intro h
    have ha : a.toNat < 0xD800 ∨ (0xDFFF < a.toNat ∧ a.toNat < 0x110000) := a.valid
    have hb : b.toNat < 0xD800 ∨ (0xDFFF < b.toNat ∧ b.toNat < 0x110000) := b.valid
    simp only [List.flatMap_cons, QChar.units] at h
    split at h <;> split at h <;>
      simp only [List.cons_append, List.nil_append, List.cons.injEq] at h
    · obtain ⟨hab, hrest⟩ := h
      rw [char_eq_of_toNat_eq hab, units_injective l₁ l₂ hrest]
    · omega
    · omega
    · obtain ⟨hhi, hlo, hrest⟩ := h
      have hab : a.toNat = b.toNat := by omega
      rw [char_eq_of_toNat_eq hab, units_injective l₁ l₂ hrest]

/-- Two strings with the same code units are the same string. -/
theorem utf16_injective {s t : String} (h : QString.utf16 s = QString.utf16 t) : s = t := by
  cases s
  cases t
  congr
  exact units_injective _ _ h

/-- No sequence of code units comes before itself. -/
theorem go_irrefl : ∀ a : List Nat, QString.lessThan.go a a = false
  | [] => rfl
  | x :: xs => by simp [QString.lessThan.go, go_irrefl xs]

/-- The order of the sequences of code units is transitive. -/
theorem go_trans : ∀ a b c : List Nat,
    QString.lessThan.go a b = true → QString.lessThan.go b c = true →
      QString.lessThan.go a c = true
  | _, [], _ => by intro h; cases ‹List Nat› <;> simp [QString.lessThan.go] at h
  | _, _ :: _, [] => by intro _ h; simp [QString.lessThan.go] at h
  | [], _ :: _, _ :: _ => by intro _ _; rfl
  | x :: xs, y :: ys, z :: zs => by
    intro hab hbc
    simp only [QString.lessThan.go] at hab hbc ⊢
    by_cases hxy : x < y
    · by_cases hyz : y < z
      · simp [show x < z by omega]
      · by_cases hzy : z < y
        · simp [hyz, hzy] at hbc
        · have : y = z := by omega
          subst this
          simp [hxy]
    · by_cases hyx : y < x
      · simp [hxy, hyx] at hab
      · have : x = y := by omega
        subst this
        simp only [hxy, if_false] at hab
        by_cases hxz : x < z
        · simp [hxz]
        · by_cases hzx : z < x
          · simp [hxz, hzx] at hbc
          · simp only [hxz, hzx, if_false] at hbc ⊢
            exact go_trans xs ys zs hab hbc

/-- Two sequences of code units neither of which comes before the other are
equal. -/
theorem go_total : ∀ a b : List Nat,
    QString.lessThan.go a b = false → QString.lessThan.go b a = false → a = b
  | [], [] => fun _ _ => rfl
  | [], _ :: _ => by intro h; simp [QString.lessThan.go] at h
  | _ :: _, [] => by intro _ h; simp [QString.lessThan.go] at h
  | x :: xs, y :: ys => by
    intro hab hba
    simp only [QString.lessThan.go] at hab hba
    by_cases hxy : x < y
    · simp [hxy] at hab
    · by_cases hyx : y < x
      · simp [hyx] at hba
      · simp only [hxy, hyx, if_false] at hab hba
        have : x = y := by omega
        rw [this, go_total xs ys hab hba]

/-- No string is less than itself. -/
theorem lessThan_irrefl (s : String) : QString.lessThan s s = false :=
  go_irrefl _

/-- The order `QString.lessThan` is transitive. -/
theorem lessThan_trans {s t u : String} (hst : QString.lessThan s t = true)
    (htu : QString.lessThan t u = true) : QString.lessThan s u = true :=
  go_trans _ _ _ hst htu

/-- Two strings neither of which is less than the other are the same string. -/
theorem lessThan_total {s t : String} (hst : QString.lessThan s t = false)
    (hts : QString.lessThan t s = false) : s = t :=
  utf16_injective (go_total _ _ hst hts)

/-- An entry of the map after `QMap.insert` is the inserted one or was there
before. -/
theorem insert_mem (key : String) (value : Int) :
    ∀ (l : List (String × Int)) (x : String × Int),
      x ∈ QMap.insert key value l → x = (key, value) ∨ x ∈ l
  | [], x => by
    intro h
    simp only [QMap.insert, List.mem_singleton] at h
    exact Or.inl h
  | (k, v) :: rest, x => by
    intro h
    unfold QMap.insert at h
    split at h
    · rcases List.mem_cons.1 h with h | h
      · exact Or.inl h
      · exact Or.inr h
    · split at h
      · rcases List.mem_cons.1 h with h | h
        · exact Or.inr (h ▸ List.mem_cons_self _ _)
        · rcases insert_mem key value rest x h with h | h
          · exact Or.inl h
          · exact Or.inr (List.mem_cons_of_mem _ h)
      · rcases List.mem_cons.1 h with h | h
        · exact Or.inl h
        · exact Or.inr (List.mem_cons_of_mem _ h)

/-- The method `QMap.insert` keeps the entries in ascending order of their keys. -/
theorem insert_ascending (key : String) (value : Int) :
    ∀ l : List (String × Int), QMap.Ascending l → QMap.Ascending (QMap.insert key value l)
  | [] => by
    intro _
    simp [QMap.insert, QMap.Ascending]
  | (k, v) :: rest => by
    intro h
    unfold QMap.Ascending at h
    obtain ⟨hhead, htail⟩ := List.pairwise_cons.1 h
    unfold QMap.insert
    split
    · rename_i hlt
      refine List.pairwise_cons.2 ⟨?_, h⟩
      intro x hx
      rcases List.mem_cons.1 hx with hx | hx
      · rw [hx]; exact hlt
      · exact lessThan_trans hlt (hhead x hx)
    · split
      · rename_i hlt
        refine List.pairwise_cons.2 ⟨?_, insert_ascending key value rest htail⟩
        intro x hx
        rcases insert_mem key value rest x hx with hx | hx
        · rw [hx]; exact hlt
        · exact hhead x hx
      · rename_i h₁ h₂
        have hk : key = k :=
          lessThan_total (Bool.eq_false_iff.2 h₁) (Bool.eq_false_iff.2 h₂)
        subst hk
        exact List.pairwise_cons.2 ⟨hhead, htail⟩

/-- Inserting a key that the map does not hold adds one entry and keeps the
others. -/
theorem insert_perm (key : String) (value : Int) :
    ∀ l : List (String × Int), key ∉ l.map Prod.fst →
      (QMap.insert key value l).Perm ((key, value) :: l)
  | [] => fun _ => List.Perm.refl _
  | (k, v) :: rest => by
    intro h
    have hne : ¬ k = key := fun hk => h (by simp [hk])
    have hrest : key ∉ rest.map Prod.fst := fun hk => h (by
      rw [List.map_cons]; exact List.mem_cons_of_mem _ hk)
    unfold QMap.insert
    split
    · exact List.Perm.refl _
    · split
      · exact ((insert_perm key value rest hrest).cons (k, v)).trans (List.Perm.swap _ _ _)
      · rename_i h₁ h₂
        exact absurd (lessThan_total (Bool.eq_false_iff.2 h₁) (Bool.eq_false_iff.2 h₂)).symm hne

/-- Filling a map row by row, with keys that are pairwise different and not in
the map, leaves the entries in ascending order, and they are the old entries and
the rows. -/
theorem fold_insert (row : Nat → String × Int) :
    ∀ (is : List Nat) (acc : List (String × Int)), QMap.Ascending acc →
      (acc.map Prod.fst ++ is.map fun i => (row i).1).Nodup →
        QMap.Ascending (is.foldl (fun playlists i => QMap.insert (row i).1 (row i).2 playlists) acc) ∧
          (is.foldl (fun playlists i => QMap.insert (row i).1 (row i).2 playlists) acc).Perm
            (acc ++ is.map row)
  | [], acc => by
    intro hasc _
    simp only [List.foldl_nil, List.map_nil, List.append_nil]
    exact ⟨hasc, List.Perm.refl _⟩
  | i :: is, acc => by
    intro hasc hnodup
    have hnew : (row i).1 ∉ acc.map Prod.fst := by
      intro hmem
      rw [List.map_cons] at hnodup
      exact (List.nodup_append.1 hnodup).2.2 hmem (List.mem_cons_self _ _)
    have hperm := insert_perm (row i).1 (row i).2 acc hnew
    have hnodup' : ((QMap.insert (row i).1 (row i).2 acc).map Prod.fst ++
        is.map fun i => (row i).1).Nodup := by
      refine (List.Perm.nodup_iff ?_).2 hnodup
      rw [List.map_cons]
      exact ((hperm.map Prod.fst).append_right _).trans List.perm_middle.symm
    obtain ⟨h₁, h₂⟩ := fold_insert row is _ (insert_ascending _ _ acc hasc) hnodup'
    refine ⟨h₁, h₂.trans ?_⟩
    rw [List.map_cons]
    exact (hperm.append_right _).trans List.perm_middle.symm

/-- The map that `slotPopulatePlaylistMenu` fills from a playlist table with
pairwise different names holds one entry per row of the table, in ascending
order of the names. -/
theorem playlists_ascending_perm (tc : TrackCollection)
    (hnames : ((List.range tc.playlistCount.toNat).map fun (i : Nat) =>
      tc.getPlaylistName (tc.getPlaylistId (i : Int))).Nodup) :
    QMap.Ascending (slotPopulatePlaylistMenu.playlists tc) ∧
      (slotPopulatePlaylistMenu.playlists tc).Perm
        ((List.range tc.playlistCount.toNat).map fun (i : Nat) =>
          (tc.getPlaylistName (tc.getPlaylistId (i : Int)), tc.getPlaylistId (i : Int))) := by
  have h := fold_insert
    (fun (i : Nat) =>
      (tc.getPlaylistName (tc.getPlaylistId (i : Int)), tc.getPlaylistId (i : Int)))
    (List.range tc.playlistCount.toNat) [] List.Pairwise.nil
    (by simpa only [List.map_nil, List.nil_append] using hnames)
  simpa only [List.nil_append] using h

/-- C23: when the playlist submenu is not loaded and the names in the playlist
table are pairwise different, `slotPopulatePlaylistMenu` rebuilds the submenu
as one action per playlist of the table that is not hidden, in ascending order
of the playlist names, each with the name as its text and enabled iff the
playlist is not locked, followed by a separator and one "Create New Playlist"
action, and it sets `m_bPlaylistMenuLoaded`. -/
theorem slotPopulatePlaylistMenu_entries (m : WTrackMenu) (tc : TrackCollection)
    (hload : m.m_bPlaylistMenuLoaded = false)
    (hnames : ((List.range tc.playlistCount.toNat).map fun (i : Nat) =>
      tc.getPlaylistName (tc.getPlaylistId (i : Int))).Nodup) :
    ∃ shown : List (String × Int),
      shown.Pairwise (fun a b => QString.lessThan a.1 b.1 = true) ∧
        shown.Perm
          (((List.range tc.playlistCount.toNat).map fun (i : Nat) =>
            (tc.getPlaylistName (tc.getPlaylistId (i : Int)), tc.getPlaylistId (i : Int))).filter
              fun row => !tc.isHidden row.2) ∧
        (slotPopulatePlaylistMenu m tc).1.ui.m_pPlaylistMenu =
          shown.map (fun row =>
              MenuItem.action { text := row.1, enabled := !tc.isPlaylistLocked row.2 }) ++
            [MenuItem.separator, MenuItem.action { text := "Create New Playlist", enabled := true }] ∧
        (slotPopulatePlaylistMenu m tc).1.m_bPlaylistMenuLoaded = true := by
  obtain ⟨hasc, hperm⟩ := playlists_ascending_perm tc hnames
  refine ⟨(slotPopulatePlaylistMenu.playlists tc).filter fun row => !tc.isHidden row.2,
    List.Pairwise.filter _ hasc, hperm.filter _, ?_, ?_⟩
  · simp only [slotPopulatePlaylistMenu, hload, Bool.false_eq_true, if_false]
  · simp only [slotPopulatePlaylistMenu, hload, Bool.false_eq_true, if_false]

/-- Witness of C23: the table "Rock" (locked), "Ambient", "Secret" (hidden),
"Jazz" has four different names and gives the actions "Ambient", "Jazz" and
the disabled "Rock", the separator and "Create New Playlist". -/
theorem slotPopulatePlaylistMenu_entries_witness :
    (slotPopulatePlaylistMenu menuOfThree playlistCollection).1.ui.m_pPlaylistMenu =
        [MenuItem.action { text := "Ambient", enabled := true },
          MenuItem.action { text := "Jazz", enabled := true },
          MenuItem.action { text := "Rock", enabled := false },
          MenuItem.separator,
          MenuItem.action { text := "Create New Playlist", enabled := true }] ∧
      ∃ shown : List (String × Int),
        shown.Pairwise (fun a b => QString.lessThan a.1 b.1 = true) ∧
          shown.Perm [("Rock", 1), ("Ambient", 2), ("Jazz", 4)] ∧
          (slotPopulatePlaylistMenu menuOfThree playlistCollection).1.ui.m_pPlaylistMenu =
            shown.map (fun row =>
                MenuItem.action
                  { text := row.1, enabled := !playlistCollection.isPlaylistLocked row.2 }) ++
              [MenuItem.separator,
                MenuItem.action { text := "Create New Playlist", enabled := true }] ∧
          (slotPopulatePlaylistMenu menuOfThree playlistCollection).1.m_bPlaylistMenuLoaded = true :=
  ⟨by decide,
    slotPopulatePlaylistMenu_entries menuOfThree playlistCollection (by decide) (by decide)⟩

/-- The calls of a traced loop are the calls made before followed by calls of the
bodies. -/
theorem traced_log (P : Effect → Prop) (trackPointers : List TrackPointer)
    (body : TrackPointer → Track → Track × List Effect)
    (hbody : ∀ p t, ∀ e ∈ (body p t).2, P e) (state : TrackStore × List Effect) :
    ∃ ext, (forEachTrack.traced trackPointers body state).2 = state.2 ++ ext ∧
      ∀ e ∈ ext, P e := by
  induction trackPointers generalizing state with
  | nil => exact ⟨[], (List.append_nil _).symm, fun e he => absurd he (List.not_mem_nil e)⟩
  | cons p rest ih =>
    obtain ⟨ext, hext, hP⟩ := ih
      ((fun q => if q = p then (body p (state.1 p)).1 else state.1 q),
        state.2 ++ (body p (state.1 p)).2)
    refine ⟨(body p (state.1 p)).2 ++ ext, ?_, ?_⟩
    · unfold forEachTrack.traced
      rw [List.foldl_cons]
      exact hext.trans (List.append_assoc _ _ _)
    · intro e he
      rcases List.mem_append.1 he with he | he
      · exact hbody p _ e he
      · exact hP e he

/-- A traced loop keeps the calls made before it. -/
theorem traced_subset (trackPointers : List TrackPointer)
    (body : TrackPointer → Track → Track × List Effect) (state : TrackStore × List Effect)
    (e : Effect) (he : e ∈ state.2) : e ∈ (forEachTrack.traced trackPointers body state).2 := by
  obtain ⟨ext, hext, _⟩ := traced_log (fun _ => True) trackPointers body
    (fun _ _ _ _ => trivial) state
  rw [hext]
  exact List.mem_append_left _ he

/-- A call that the body makes for every track is made for each selected track. -/
theorem traced_mem (trackPointers : List TrackPointer)
    (body : TrackPointer → Track → Track × List Effect) (e : TrackPointer → Effect)
    (hbody : ∀ p t, e p ∈ (body p t).2) (state : TrackStore × List Effect)
    (p : TrackPointer) (hp : p ∈ trackPointers) :
    e p ∈ (forEachTrack.traced trackPointers body state).2 := by
  induction trackPointers generalizing state with
  | nil => exact absurd hp (List.not_mem_nil p)
  | cons q rest ih =>
    unfold forEachTrack.traced
    rw [List.foldl_cons]
    rcases List.mem_cons.1 hp with hpq | hrest
    · subst hpq
      exact traced_subset rest body _ _ (List.mem_append_right _ (hbody p _))
    · exact ih _ hrest

/-- The tracks after a traced loop are the tracks after the loop. -/
theorem traced_tracks (trackPointers : List TrackPointer)
    (body : TrackPointer → Track → Track × List Effect) (f : Track → Track)
    (hf : ∀ p t, (body p t).1 = f t) (state : TrackStore × List Effect) :
    (forEachTrack.traced trackPointers body state).1 = forEachTrack trackPointers f state.1 := by
  induction trackPointers generalizing state with
  | nil => rfl
  | cons p rest ih =>
    unfold forEachTrack.traced forEachTrack
    rw [List.foldl_cons, List.foldl_cons]
    have h := ih ((fun q => if q = p then (body p (state.1 p)).1 else state.1 q),
      state.2 ++ (body p (state.1 p)).2)
    unfold forEachTrack.traced forEachTrack at h
    rw [h]
    simp only [hf]

/-- A loop whose body only clears something on the track: the tracks afterwards
are those of the loop, and the calls made are clearing calls on tracks. -/
theorem traced_clearing (trackPointers : List TrackPointer)
    (body : TrackPointer → Track → Track × List Effect) (f : Track → Track)
    (hf : ∀ p t, (body p t).1 = f t)
    (hbody : ∀ p t, ∀ e ∈ (body p t).2, e.clearsTrack = true)
    (tracks : TrackStore) (log : List Effect) (hlog : ∀ e ∈ log, e.clearsTrack = true) :
    ∃ log', forEachTrack.traced trackPointers body (tracks, log) =
        (forEachTrack trackPointers f tracks, log') ∧
      ∀ e ∈ log', e.clearsTrack = true := by
  obtain ⟨ext, hext, hP⟩ := traced_log (fun e => e.clearsTrack = true) trackPointers body
    hbody (tracks, log)
  refine ⟨log ++ ext, ?_, ?_⟩
  · exact Prod.ext (traced_tracks trackPointers body f hf (tracks, log)) hext
  · intro e he
    rcases List.mem_append.1 he with he | he
    · exact hlog e he
    · exact hP e he

/-- The nine slots before `slotClearWaveform`, call by call: the tracks afterwards
are those of the nine slots, and every call made clears something on a track. -/
theorem nine_slots_traced (m : WTrackMenu) (tracks : TrackStore) :
    ∃ log,
      slotClearReplayGain.traced m
          (slotClearKey.traced m
            (slotClearLoop.traced m
              (slotClearOutroCue.traced m
                (slotClearIntroCue.traced m
                  (slotClearHotCues.traced m
                    (slotClearMainCue.traced m
                      (slotClearPlayCount.traced m
                        (slotClearBeats.traced m (tracks, []))))))))) =
        (slotClearReplayGain m
            (slotClearKey m
              (slotClearLoop m
                (slotClearOutroCue m
                  (slotClearIntroCue m
                    (slotClearHotCues m
                      (slotClearMainCue m
                        (slotClearPlayCount m (slotClearBeats m tracks)))))))), log) ∧
      ∀ e ∈ log, e.clearsTrack = true := by
  obtain ⟨l1, h1, p1⟩ := traced_clearing (getTrackPointers m)
    (fun p pTrack =>
      if !pTrack.bpmLocked then ({ pTrack with beats := none }, [Effect.track p .setBeats])
      else (pTrack, []))
    (fun pTrack => if !pTrack.bpmLocked then { pTrack with beats := none } else pTrack)
    (fun p t => by dsimp only; split <;> rfl)
    (fun p t e he => by
      dsimp only at he
      split at he
      · rw [List.mem_singleton.1 he]; rfl
      · exact absurd he (List.not_mem_nil e))
    tracks [] (fun e he => absurd he (List.not_mem_nil e))
  obtain ⟨l2, h2, p2⟩ := traced_clearing (getTrackPointers m)
    (fun p pTrack => (pTrack.resetPlayCounter, [Effect.track p .resetPlayCounter]))
    (fun pTrack => pTrack.resetPlayCounter) (fun _ _ => rfl)
    (fun p t e he => by rw [List.mem_singleton.1 he]; rfl) (slotClearBeats m tracks) l1 p1
  obtain ⟨l3, h3, p3⟩ := traced_clearing (getTrackPointers m)
    (fun p pTrack =>
      (pTrack.removeCuesOfType .MainCue, [Effect.track p (.removeCuesOfType .MainCue)]))
    (fun pTrack => pTrack.removeCuesOfType .MainCue) (fun _ _ => rfl)
    (fun p t e he => by rw [List.mem_singleton.1 he]; rfl)
    (slotClearPlayCount m (slotClearBeats m tracks)) l2 p2
  obtain ⟨l4, h4, p4⟩ := traced_clearing (getTrackPointers m)
    (fun p pTrack =>
      (pTrack.removeCuesOfType .HotCue, [Effect.track p (.removeCuesOfType .HotCue)]))
    (fun pTrack => pTrack.removeCuesOfType .HotCue) (fun _ _ => rfl)
    (fun p t e he => by rw [List.mem_singleton.1 he]; rfl)
    (slotClearMainCue m (slotClearPlayCount m (slotClearBeats m tracks))) l3 p3
  obtain ⟨l5, h5, p5⟩ := traced_clearing (getTrackPointers m)
    (fun p pTrack =>
      (pTrack.removeCuesOfType .Intro, [Effect.track p (.removeCuesOfType .Intro)]))
    (fun pTrack => pTrack.removeCuesOfType .Intro) (fun _ _ => rfl)
    (fun p t e he => by rw [List.mem_singleton.1 he]; rfl)
    (slotClearHotCues m (slotClearMainCue m (slotClearPlayCount m (slotClearBeats m tracks))))
    l4 p4
  obtain ⟨l6, h6, p6⟩ := traced_clearing (getTrackPointers m)
    (fun p pTrack =>
      (pTrack.removeCuesOfType .Outro, [Effect.track p (.removeCuesOfType .Outro)]))
    (fun pTrack => pTrack.removeCuesOfType .Outro) (fun _ _ => rfl)
    (fun p t e he => by rw [List.mem_singleton.1 he]; rfl)
    (slotClearIntroCue m
      (slotClearHotCues m
        (slotClearMainCue m (slotClearPlayCount m (slotClearBeats m tracks)))))
    l5 p5
  obtain ⟨l7, h7, p7⟩ := traced_clearing (getTrackPointers m)
    (fun p pTrack =>
      (pTrack.removeCuesOfType .Loop, [Effect.track p (.removeCuesOfType .Loop)]))
    (fun pTrack => pTrack.removeCuesOfType .Loop) (fun _ _ => rfl)
    (fun p t e he => by rw [List.mem_singleton.1 he]; rfl)
    (slotClearOutroCue m
      (slotClearIntroCue m
        (slotClearHotCues m
          (slotClearMainCue m (slotClearPlayCount m (slotClearBeats m tracks))))))
    l6 p6
  obtain ⟨l8, h8, p8⟩ := traced_clearing (getTrackPointers m)
    (fun p pTrack => ({ pTrack with keys := none }, [Effect.track p .resetKeys]))
    (fun pTrack => { pTrack with keys := none }) (fun _ _ => rfl)
    (fun p t e he => by rw [List.mem_singleton.1 he]; rfl)
    (slotClearLoop m
      (slotClearOutroCue m
        (slotClearIntroCue m
          (slotClearHotCues m
            (slotClearMainCue m (slotClearPlayCount m (slotClearBeats m tracks)))))))
    l7 p7
  obtain ⟨l9, h9, p9⟩ := traced_clearing (getTrackPointers m)
    (fun p pTrack => ({ pTrack with replayGain := {} }, [Effect.track p .setReplayGain]))
    (fun pTrack => { pTrack with replayGain := {} }) (fun _ _ => rfl)
    (fun p t e he => by rw [List.mem_singleton.1 he]; rfl)
    (slotClearKey m
      (slotClearLoop m
        (slotClearOutroCue m
          (slotClearIntroCue m
            (slotClearHotCues m
              (slotClearMainCue m (slotClearPlayCount m (slotClearBeats m tracks))))))))
    l8 p8
  refine ⟨l9, ?_, p9⟩
  have e1 : slotClearBeats.traced m (tracks, []) =
      (slotClearBeats m tracks, l1) := h1
  have e2 : slotClearPlayCount.traced m (slotClearBeats m tracks, l1) =
      (slotClearPlayCount m (slotClearBeats m tracks), l2) := h2
  have e3 : slotClearMainCue.traced m (slotClearPlayCount m (slotClearBeats m tracks), l2) =
      (slotClearMainCue m (slotClearPlayCount m (slotClearBeats m tracks)), l3) := h3
  have e4 : slotClearHotCues.traced m (slotClearMainCue m (slotClearPlayCount m (slotClearBeats m tracks)), l3) =
      (slotClearHotCues m (slotClearMainCue m (slotClearPlayCount m (slotClearBeats m tracks))), l4) := h4
  have e5 : slotClearIntroCue.traced m (slotClearHotCues m (slotClearMainCue m (slotClearPlayCount m (slotClearBeats m tracks))), l4) =
      (slotClearIntroCue m (slotClearHotCues m (slotClearMainCue m (slotClearPlayCount m (slotClearBeats m tracks)))), l5) := h5
  have e6 : slotClearOutroCue.traced m (slotClearIntroCue m (slotClearHotCues m (slotClearMainCue m (slotClearPlayCount m (slotClearBeats m tracks)))), l5) =
      (slotClearOutroCue m (slotClearIntroCue m (slotClearHotCues m (slotClearMainCue m (slotClearPlayCount m (slotClearBeats m tracks))))), l6) := h6
  have e7 : slotClearLoop.traced m (slotClearOutroCue m (slotClearIntroCue m (slotClearHotCues m (slotClearMainCue m (slotClearPlayCount m (slotClearBeats m tracks))))), l6) =
      (slotClearLoop m (slotClearOutroCue m (slotClearIntroCue m (slotClearHotCues m (slotClearMainCue m (slotClearPlayCount m (slotClearBeats m tracks)))))), l7) := h7
  have e8 : slotClearKey.traced m (slotClearLoop m (slotClearOutroCue m (slotClearIntroCue m (slotClearHotCues m (slotClearMainCue m (slotClearPlayCount m (slotClearBeats m tracks)))))), l7) =
      (slotClearKey m (slotClearLoop m (slotClearOutroCue m (slotClearIntroCue m (slotClearHotCues m (slotClearMainCue m (slotClearPlayCount m (slotClearBeats m tracks))))))), l8) := h8
  have e9 : slotClearReplayGain.traced m (slotClearKey m (slotClearLoop m (slotClearOutroCue m (slotClearIntroCue m (slotClearHotCues m (slotClearMainCue m (slotClearPlayCount m (slotClearBeats m tracks))))))), l8) =
      (slotClearReplayGain m (slotClearKey m (slotClearLoop m (slotClearOutroCue m (slotClearIntroCue m (slotClearHotCues m (slotClearMainCue m (slotClearPlayCount m (slotClearBeats m tracks)))))))), l9) := h9
  rw [e1, e2, e3, e4, e5, e6, e7, e8, e9]

/-- Calls that clear something on a track are no calls to the backend. -/
theorem clearing_no_calls (log : List Effect) (h : ∀ e ∈ log, e.clearsTrack = true) :
    log.filterMap Effect.backendCall = [] := by
  rw [List.filterMap_eq_nil_iff]
  intro e he
  have hc := h e he
  cases e with
  | track p method => rfl
  | backend call => exact Bool.noConfusion hc

/-- The function `slotClearWaveform` and its call-by-call form agree: the tracks
afterwards are the same, and the calls to the analysis DAO are the calls to the
backend among the calls made. -/
theorem slotClearWaveform_traced (trackPointers : List TrackPointer)
    (state : TrackStore × List Effect) :
    trackPointers.foldl
        (fun (state : TrackStore × List Call) pTrack =>
          ((fun q =>
              if q = pTrack then
                { state.1 pTrack with waveform := none, waveformSummary := none }
              else state.1 q),
            state.2 ++ [Call.deleteAnalysesForTrack (state.1 pTrack).id]))
        (state.1, state.2.filterMap Effect.backendCall) =
      ((forEachTrack.traced trackPointers
          (fun p pTrack =>
            ({ pTrack with waveform := none, waveformSummary := none },
              [Effect.backend (Call.deleteAnalysesForTrack pTrack.id),
                Effect.track p .setWaveform, Effect.track p .setWaveformSummary]))
          state).1,
        (forEachTrack.traced trackPointers
          (fun p pTrack =>
            ({ pTrack with waveform := none, waveformSummary := none },
              [Effect.backend (Call.deleteAnalysesForTrack pTrack.id),
                Effect.track p .setWaveform, Effect.track p .setWaveformSummary]))
          state).2.filterMap Effect.backendCall) := by
  induction trackPointers generalizing state with
  | nil => rfl
  | cons p rest ih =>
    unfold forEachTrack.traced
    rw [List.foldl_cons, List.foldl_cons]
    have h := ih
      ((fun q =>
          if q = p then { state.1 p with waveform := none, waveformSummary := none }
          else state.1 q),
        state.2 ++ [Effect.backend (Call.deleteAnalysesForTrack (state.1 p).id),
          Effect.track p .setWaveform, Effect.track p .setWaveformSummary])
    unfold forEachTrack.traced at h
    rw [← h]
    simp [List.filterMap_append, Effect.backendCall]

/-- The function `slotClearWaveform` asks the analysis DAO once per selected
track. -/
theorem slotClearWaveform_calls (trackPointers : List TrackPointer)
    (state : TrackStore × List Call) :
    (trackPointers.foldl
        (fun (state : TrackStore × List Call) pTrack =>
          ((fun q =>
              if q = pTrack then
                { state.1 pTrack with waveform := none, waveformSummary := none }
              else state.1 q),
            state.2 ++ [Call.deleteAnalysesForTrack (state.1 pTrack).id]))
        state).2.length = state.2.length + trackPointers.length := by
  induction trackPointers generalizing state with
  | nil => rfl
  | cons p rest ih =>
    rw [List.foldl_cons, ih]
    simp only [List.length_append, List.length_cons, List.length_nil]
    omega

/-- The calls of `slotClearAllMetadata` in their order: first the calls of the
nine slots before `slotClearWaveform`, which clear something on a track, then
the calls of `slotClearWaveform`, which are the deletions in the backend and
the calls that set a waveform; and the tracks afterwards and the calls to the
backend are those of `slotClearAllMetadata`. -/
theorem slotClearAllMetadata_trace (m : WTrackMenu) (tracks : TrackStore) :
    ∃ before wave : List Effect,
      (slotClearAllMetadata.traced m tracks).2 = before ++ wave ∧
        (∀ e ∈ before, e.clearsTrack = true) ∧
        (∀ e ∈ wave, e.clearsTrack = false ∧
          ∀ call, e = Effect.backend call → ∃ id, call = Call.deleteAnalysesForTrack id) ∧
        (slotClearAllMetadata.traced m tracks).1 = (slotClearAllMetadata m tracks).1 ∧
        (slotClearAllMetadata.traced m tracks).2.filterMap Effect.backendCall =
          (slotClearAllMetadata m tracks).2 := by
  obtain ⟨before, hnine, hbefore⟩ := nine_slots_traced m tracks
  have htraced : slotClearAllMetadata.traced m tracks =
      slotClearWaveform.traced m
        (slotClearReplayGain m
            (slotClearKey m
              (slotClearLoop m
                (slotClearOutroCue m
                  (slotClearIntroCue m
                    (slotClearHotCues m
                      (slotClearMainCue m
                        (slotClearPlayCount m (slotClearBeats m tracks)))))))), before) := by
    rw [← hnine]
    rfl
  obtain ⟨wave, hwave, hP⟩ := traced_log
    (fun e => e.clearsTrack = false ∧
      ∀ call, e = Effect.backend call → ∃ id, call = Call.deleteAnalysesForTrack id)
    (getTrackPointers m)
    (fun p pTrack =>
      ({ pTrack with waveform := none, waveformSummary := none },
        [Effect.backend (Call.deleteAnalysesForTrack pTrack.id), Effect.track p .setWaveform,
          Effect.track p .setWaveformSummary]))
    (fun p t e he => by
      simp only [List.mem_cons, List.mem_singleton, List.not_mem_nil, or_false] at he
      rcases he with he | he | he <;> subst he
      · exact ⟨rfl, fun call hc => ⟨t.id, (Effect.backend.inj hc).symm⟩⟩
      · exact ⟨rfl, fun call hc => Effect.noConfusion hc⟩
      · exact ⟨rfl, fun call hc => Effect.noConfusion hc⟩)
    (slotClearReplayGain m
        (slotClearKey m
          (slotClearLoop m
            (slotClearOutroCue m
              (slotClearIntroCue m
                (slotClearHotCues m
                  (slotClearMainCue m
                    (slotClearPlayCount m (slotClearBeats m tracks)))))))), before)
  have hagree := slotClearWaveform_traced (getTrackPointers m)
    (slotClearReplayGain m
        (slotClearKey m
          (slotClearLoop m
            (slotClearOutroCue m
              (slotClearIntroCue m
                (slotClearHotCues m
                  (slotClearMainCue m
                    (slotClearPlayCount m (slotClearBeats m tracks)))))))), before)
  simp only [clearing_no_calls before hbefore] at hagree
  have hsource : slotClearAllMetadata m tracks =
      ((slotClearAllMetadata.traced m tracks).1,
        (slotClearAllMetadata.traced m tracks).2.filterMap Effect.backendCall) := by
    rw [htraced]
    exact hagree
  refine ⟨before, wave, ?_, hbefore, hP, ?_, ?_⟩
  · rw [htraced]
    exact hwave
  · rw [hsource]
  · rw [hsource]

/-- C22: `slotClearAllMetadata` is the composition of the ten slots in the order
clear tempo grid, play count, main cue, hot cues, intro cue, outro cue, loop
cue, key, replay gain, waveform, and it is the ordered composition of the ten
commands as the spec defines it.  In the order in which it makes its calls,
every call to the backend is a `deleteAnalysesForTrack` and comes after every
call that clears a tempo grid, a cue or anything else but a waveform on any
selected track; there is one such call to the backend per selected track, and
the cues of all five types are removed from every selected track. -/
theorem slotClearAllMetadata_composition (m : WTrackMenu) (tracks : TrackStore) :
    slotClearAllMetadata m tracks =
        slotClearWaveform m
          (slotClearReplayGain m
            (slotClearKey m
              (slotClearLoop m
                (slotClearOutroCue m
                  (slotClearIntroCue m
                    (slotClearHotCues m
                      (slotClearMainCue m
                        (slotClearPlayCount m (slotClearBeats m tracks))))))))) ∧
      slotClearAllMetadata m tracks = clearAllMetadataSpec m tracks ∧
      (slotClearAllMetadata.traced m tracks).1 = (slotClearAllMetadata m tracks).1 ∧
      (slotClearAllMetadata.traced m tracks).2.filterMap Effect.backendCall =
        (slotClearAllMetadata m tracks).2 ∧
      (∀ call, Effect.backend call ∈ (slotClearAllMetadata.traced m tracks).2 →
        ∃ id, call = Call.deleteAnalysesForTrack id) ∧
      (∀ (i j : Nat) (call : Call) (p : TrackPointer) (method : TrackMethod),
        (slotClearAllMetadata.traced m tracks).2[i]? = some (Effect.backend call) →
          (slotClearAllMetadata.traced m tracks).2[j]? = some (Effect.track p method) →
          method ≠ TrackMethod.setWaveform → method ≠ TrackMethod.setWaveformSummary →
          j < i) ∧
      ((slotClearAllMetadata.traced m tracks).2.filterMap Effect.backendCall).length =
        (getTrackPointers m).length ∧
      (∀ p ∈ getTrackPointers m, ∀ type : CueType,
        Effect.track p (.removeCuesOfType type) ∈ (slotClearAllMetadata.traced m tracks).2) := by
  obtain ⟨before, wave, htrace, hbefore, hwave, htracks, hcalls⟩ :=
    slotClearAllMetadata_trace m tracks
  refine ⟨rfl, slotClearAllMetadata_eq_spec m tracks, htracks, hcalls, ?_, ?_, ?_, ?_⟩
  · intro call hmem
    rw [htrace] at hmem
    rcases List.mem_append.1 hmem with hmem | hmem
    · exact Bool.noConfusion (hbefore _ hmem)
    · exact (hwave _ hmem).2 call rfl
  · intro i j call p method hi hj hw hs
    rw [htrace] at hi hj
    have hi' : before.length ≤ i := by
      by_contra hlt
      rw [List.getElem?_append_left (by omega)] at hi
      exact Bool.noConfusion (hbefore _ (List.mem_iff_getElem?.2 ⟨i, hi⟩))
    have hj' : j < before.length := by
      by_contra hge
      rw [List.getElem?_append_right (by omega)] at hj
      have hfalse := (hwave _ (List.mem_iff_getElem?.2 ⟨_, hj⟩)).1
      cases method with
      | setWaveform => exact hw rfl
      | setWaveformSummary => exact hs rfl
      | setBeats => exact Bool.noConfusion hfalse
      | resetPlayCounter => exact Bool.noConfusion hfalse
      | removeCuesOfType type => exact Bool.noConfusion hfalse
      | resetKeys => exact Bool.noConfusion hfalse
      | setReplayGain => exact Bool.noConfusion hfalse
    omega
  · rw [hcalls]
    exact (slotClearWaveform_calls (getTrackPointers m) (_, [])).trans (Nat.zero_add _)
  · intro p hp type
    unfold slotClearAllMetadata.traced slotClearWaveform.traced slotClearReplayGain.traced
      slotClearKey.traced slotClearLoop.traced slotClearOutroCue.traced
      slotClearIntroCue.traced slotClearHotCues.traced slotClearMainCue.traced
    cases type <;>
      repeat
        first
          | exact traced_mem (getTrackPointers m) _ (fun p => Effect.track p _)
              (fun _ _ => List.mem_cons_self _ _) _ p hp
          | apply traced_subset

/-- Witness of C22: with the track 0 alone selected, which is not tempo-locked,
`slotClearAllMetadata` makes twelve calls; the deletion in the backend is the
tenth, and the removal of the loop cues, the seventh, comes before it. -/
theorem slotClearAllMetadata_composition_witness :
    (slotClearAllMetadata.traced { m_pTrackPointerList := [0] } lockedSecond).2 =
        [Effect.track 0 .setBeats, Effect.track 0 .resetPlayCounter,
          Effect.track 0 (.removeCuesOfType .MainCue),
          Effect.track 0 (.removeCuesOfType .HotCue),
          Effect.track 0 (.removeCuesOfType .Intro),
          Effect.track 0 (.removeCuesOfType .Outro),
          Effect.track 0 (.removeCuesOfType .Loop),
          Effect.track 0 .resetKeys, Effect.track 0 .setReplayGain,
          Effect.backend (Call.deleteAnalysesForTrack 10),
          Effect.track 0 .setWaveform, Effect.track 0 .setWaveformSummary] ∧
      6 < 9 :=
  ⟨by decide,
    (slotClearAllMetadata_composition { m_pTrackPointerList := [0] }
        lockedSecond).2.2.2.2.2.1
      9 6 (Call.deleteAnalysesForTrack 10) 0 (.removeCuesOfType .Loop) (by decide) (by decide)
      (fun h => TrackMethod.noConfusion h) (fun h => TrackMethod.noConfusion h)⟩

/-- After construction the menus and actions of every enabled feature exist. -/
theorem created_of_new (flags : Features) (trackModel : Option TrackModel) (flag : Feature)
    (h : featureIsEnabled (WTrackMenu.new flags trackModel) flag = true) :
    flag ∈ (WTrackMenu.new flags trackModel).ui.created := by
  have hall : flag ∈ Feature.all := by cases flag <;> decide
  exact List.mem_filter.2 ⟨hall, h⟩

/-- The `LoadTo` block creates no widget and deletes none. -/
theorem loadTo_created (ctl : Controls) (single : Bool) (w : Widgets) :
    (updateMenus.loadTo ctl single w).created = w.created := by
  unfold updateMenus.loadTo
  by_cases hd : ctl.numDecks > 0 <;> by_cases hs : ctl.numSamplers > 0 <;> simp [hd, hs]

/-- A successful `updateMenus` creates no widget and deletes none. -/
theorem updateMenus_created (m m' : WTrackMenu) (ctl : Controls) (tracks : TrackStore)
    (h : updateMenus m ctl tracks = .ok m') : m'.ui.created = m.ui.created := by
  have hw := (updateMenus_inv m m' ctl tracks h).2.2.2.2.2.1
  unfold updateMenus.widgets at hw
  obtain ⟨w7, h7, g8⟩ := guarded_inv hw
  obtain ⟨w6, h6, g7⟩ := guarded_inv h7
  obtain ⟨w5, h5, g6⟩ := guarded_inv h6
  obtain ⟨w4, h4, g5⟩ := guarded_inv h5
  obtain ⟨w3, h3, g4⟩ := guarded_inv h4
  obtain ⟨w2, h2, g3⟩ := guarded_inv h3
  obtain ⟨w1, h1, g2⟩ := guarded_inv h2
  obtain ⟨w0, h0, g1⟩ := guarded_inv h1
  have f8 := guarded_frame (fun w : Widgets => w.created)
    (fun w w' hb => by rw [← Except.ok.inj (deref_inv hb).2]; rfl) g8
  have f7 := guarded_frame (fun w : Widgets => w.created)
    (fun w w' hb => by rw [hideUnhidePurge_frame _ _ w w' hb]) g7
  have f6 := guarded_frame (fun w : Widgets => w.created)
    (fun w w' hb => by rw [color_frame _ _ _ w w' (deref_inv hb).2]) g6
  have f5 := guarded_frame (fun w : Widgets => w.created)
    (fun w w' hb => by rw [← Except.ok.inj (deref_inv hb).2]; rfl) g5
  have f4 := guarded_frame (fun w : Widgets => w.created)
    (fun w w' hb => by rw [← Except.ok.inj (deref_inv hb).2]; rfl) g4
  have f3 := guarded_frame (fun w : Widgets => w.created)
    (fun w w' hb => by rw [metadata_frame _ _ _ w w' (deref_inv hb).2]) g3
  have f2 := guarded_frame (fun w : Widgets => w.created)
    (fun w w' hb => by rw [remove_frame _ _ w w' hb]) g2
  have f1 := guarded_frame (fun w : Widgets => w.created)
    (fun w w' hb => by
      rw [← Except.ok.inj (deref_inv hb).2]
      exact loadTo_created ctl _ w) g1
  simp only at f8 f7 f6 f5 f4 f3 f2 f1
  rw [f8, f7, f6, f5, f4, f3, f2, f1, ← Except.ok.inj h0]

end Mixxx
